import Mathlib

/-!
# NightDriverStrip: frame ingestion and effect scheduling

A shallow embedding of `ProcessIncomingData` (src/network.cpp) and of the
`EffectManager` class (include/effectmanager.h), with the properties proved
about them.

Conventions
* `uint8_t *payloadData` is a pointer into memory: it is a total function
  from offsets to bytes, and `payloadLength` is a separate number, exactly as
  in the C++ signature.  Nothing in the model stops a read at an offset at or
  beyond `payloadLength`.
* Machine integers are natural numbers, truncated explicitly where the C++
  type truncates.
* Globals touched by the code are fields of an explicit state that is passed
  in and returned.
-/

namespace NightDriver

/-! ## Wire memory and little-endian fields -/

/-- Memory reachable through the `uint8_t *payloadData` pointer. -/
abbrev Memory := Nat → UInt8

/-- A memory image holding the given bytes from offset 0 and zeroes after. -/
def memOf (bytes : List UInt8) : Memory := fun i => bytes.getD i 0

/-- Modelled from the spec: the little-endian readers `WORDFromMemory`,
`DWORDFromMemory` and `ULONGFromMemory` are declared outside the given
sources; the wire protocol table says multi-byte fields are little-endian.
`readLE p off n` is the value of the `n` bytes starting at `off`. -/
def readLE (p : Memory) (off : Nat) : Nat → Nat
  | 0 => 0
  | n + 1 => (p off).toNat + 256 * readLE p (off + 1) n

/-- Modelled from the spec: 2-byte little-endian field at `off`. -/
def WORDFromMemory (p : Memory) (off : Nat) : Nat := readLE p off 2

/-- Modelled from the spec: 4-byte little-endian field at `off`. -/
def DWORDFromMemory (p : Memory) (off : Nat) : Nat := readLE p off 4

/-- Modelled from the spec: 8-byte little-endian field at `off`. -/
def ULONGFromMemory (p : Memory) (off : Nat) : Nat := readLE p off 8

/-- Header size of the wire protocol: the pixel payload starts at offset 24. -/
def STANDARD_DATA_HEADER_SIZE : Nat := 24

/-- An RGB pixel, three bytes on the wire. -/
structure CRGB where
  r : UInt8
  g : UInt8
  b : UInt8
deriving DecidableEq, Repr

/-- Size of one pixel on the wire, `sizeof(CRGB)`. -/
def sizeofCRGB : Nat := 3

/-- The `k`-th pixel triplet after the header. -/
def pixelAt (p : Memory) (k : Nat) : CRGB :=
  { r := p (STANDARD_DATA_HEADER_SIZE + sizeofCRGB * k)
    g := p (STANDARD_DATA_HEADER_SIZE + sizeofCRGB * k + 1)
    b := p (STANDARD_DATA_HEADER_SIZE + sizeofCRGB * k + 2) }

/-- The first `count` pixel triplets after the header. -/
def pixelsFromWire (p : Memory) (count : Nat) : List CRGB :=
  (List.range count).map (pixelAt p)

/-! ## Channel frame buffers -/

/-- One buffered frame: the sender timestamp and the pixels. -/
structure LEDBuffer where
  seconds : Nat
  micros : Nat
  leds : List CRGB
deriving DecidableEq, Repr

/-- Accessor `LEDBuffer::Seconds()`. -/
def LEDBuffer.Seconds (b : LEDBuffer) : Nat := b.seconds

/-- Accessor `LEDBuffer::MicroSeconds()`. -/
def LEDBuffer.MicroSeconds (b : LEDBuffer) : Nat := b.micros

/-- Modelled from the spec: a frame "ready to be populated", as handed out by
`GetNewBuffer` before the wire data has been copied into it.  The class
`LEDBuffer` is declared outside the given sources. -/
def LEDBuffer.blank : LEDBuffer := { seconds := 0, micros := 0, leds := [] }

/-- Modelled from the spec: `LEDBuffer::UpdateFromWire` is declared outside
the given sources.  Decoding fails when the payload is shorter than the header
or shorter than its declared pixel count needs; the length is checked before
anything is written, so a failure leaves the frame as it was.  On success the
frame carries the timestamp and the pixels of the payload. -/
def LEDBuffer.UpdateFromWire (_b : LEDBuffer) (payloadData : Memory)
    (payloadLength : Nat) : Option LEDBuffer :=
  if payloadLength < STANDARD_DATA_HEADER_SIZE then none
  else
    let length32 := DWORDFromMemory payloadData 4
    if payloadLength < STANDARD_DATA_HEADER_SIZE + length32 * sizeofCRGB then none
    else some
      { seconds := ULONGFromMemory payloadData 8
        micros := ULONGFromMemory payloadData 16
        leds := pixelsFromWire payloadData length32 }

/-- Modelled from the spec: the per-channel buffer, "a bounded, age-ordered
sequence of Frame (oldest-first)" with a capacity fixed at construction.  The
class `LEDBufferManager` is declared outside the given sources. -/
structure LEDBufferManager where
  depth : Nat
  frames : List LEDBuffer
deriving DecidableEq, Repr

/-- Modelled from the spec: `IsEmpty`, no frame is held. -/
def LEDBufferManager.IsEmpty (m : LEDBufferManager) : Bool := m.frames.isEmpty

/-- Modelled from the spec: `BufferCount`, the number of frames held. -/
def LEDBufferManager.BufferCount (m : LEDBufferManager) : Nat := m.frames.length

/-- Modelled from the spec: `PeekNewestBuffer`, the most recently ingested
frame. -/
def LEDBufferManager.PeekNewestBuffer (m : LEDBufferManager) : Option LEDBuffer :=
  m.frames.getLast?

/-- Modelled from the spec: `GetNewBuffer`; "if the buffer is at capacity,
evicts the oldest frame before allocating; returns a frame ready to be
populated".  The frame returned is the newest one of the result. -/
def LEDBufferManager.GetNewBuffer (m : LEDBufferManager) : LEDBufferManager :=
  let kept := if m.depth ≤ m.frames.length then m.frames.drop 1 else m.frames
  { m with frames := kept ++ [LEDBuffer.blank] }

/-- Writing through the pointer to the newest frame: the newest slot of the
buffer takes the new contents. -/
def LEDBufferManager.storeNewest (m : LEDBufferManager) (f : LEDBuffer) :
    LEDBufferManager :=
  { m with frames := m.frames.dropLast ++ [f] }

/-! ## Build configuration and globals -/

/-- Compile-time constants and switches that `ProcessIncomingData` depends on
and that are defined outside the given sources.  The two command codes are
`case` labels of one `switch`, hence distinct. -/
structure Config where
  INCOMING_WIFI_ENABLED : Bool
  ENABLE_AUDIO : Bool
  NUM_BANDS : Nat
  WIFI_COMMAND_PEAKDATA : Nat
  WIFI_COMMAND_PIXELDATA64 : Nat
  distinct : WIFI_COMMAND_PEAKDATA ≠ WIFI_COMMAND_PIXELDATA64

/-- Globals written by `ProcessIncomingData`: the per-channel buffer managers
(`g_aptrBufferManager`, one per channel, so `NUM_CHANNELS` is the length of
the list) and the analyzer peaks.  The peaks are kept as the raw bytes of the
`NUM_BANDS` doubles taken from the wire; their floating-point scaling is not
modelled. -/
structure Globals where
  g_aptrBufferManager : List LEDBufferManager
  peakBytes : List UInt8
deriving DecidableEq, Repr

/-- The number of channels, `NUM_CHANNELS`. -/
def Globals.NUM_CHANNELS (g : Globals) : Nat := g.g_aptrBufferManager.length

/-! ## ProcessIncomingData -/

/-- Body of the channel loop for one selected channel (network.cpp, the block
under `if ((channelMask & channel16) != 0)`).  Returns `false` in the first
component where the C++ executes `return false`. -/
def processChannel (payloadData : Memory) (payloadLength seconds micros : Nat)
    (mgr : LEDBufferManager) : Bool × LEDBufferManager :=
  let tryUpdate : Option (Bool × LEDBufferManager) :=
    if !mgr.IsEmpty then
      match mgr.PeekNewestBuffer with
      | some pNewestBuffer =>
        if micros != 0 && pNewestBuffer.MicroSeconds == micros
            && pNewestBuffer.Seconds == seconds then
          match pNewestBuffer.UpdateFromWire payloadData payloadLength with
          | none => some (false, mgr)
          | some f => some (true, mgr.storeNewest f)
        else none
      | none => none
    else none
  match tryUpdate with
  | some r => r
  | none =>
    let mgr1 := mgr.GetNewBuffer
    match LEDBuffer.blank.UpdateFromWire payloadData payloadLength with
    | none => (false, mgr1)
    | some f => (true, mgr1.storeNewest f)

/-- The channel loop `for (iChannel = 0, channelMask = 1; iChannel <
NUM_CHANNELS; iChannel++, channelMask <<= 1)`, run over the channels that are
left.  `channelMask` is an `int` in the source; it is `1 <<< iChannel` here,
which agrees with the 32-bit value for every channel below 31, and from bit 16
on its conjunction with the 16-bit `channel16` is zero either way. -/
def channelLoop (payloadData : Memory) (payloadLength channel16 seconds micros : Nat) :
    Nat → List LEDBufferManager → Bool × List LEDBufferManager
  | _, [] => (true, [])
  | channelMask, mgr :: rest =>
    if (channelMask &&& channel16) != 0 then
      match processChannel payloadData payloadLength seconds micros mgr with
      | (false, mgr1) => (false, mgr1 :: rest)
      | (true, mgr1) =>
        let r := channelLoop payloadData payloadLength channel16 seconds micros
          (channelMask <<< 1) rest
        (r.1, mgr1 :: r.2)
    else
      let r := channelLoop payloadData payloadLength channel16 seconds micros
        (channelMask <<< 1) rest
      (r.1, mgr :: r.2)

/-- The legacy rule `if (channel16 == 0) channel16 = 1;`. -/
def normalizeChannel16 (channel16 : Nat) : Nat :=
  if channel16 = 0 then 1 else channel16

/-- The command code, `uint16_t command16 = payloadData[1] << 8 | payloadData[0]`. -/
def command16 (payloadData : Memory) : Nat :=
  (((payloadData 1).toNat <<< 8) ||| (payloadData 0).toNat) % 2 ^ 16

/-- The bytes of the `NUM_BANDS` doubles that `PeakData((double *)(payloadData +
STANDARD_DATA_HEADER_SIZE))` copies from the wire. -/
def peakBytesFromWire (payloadData : Memory) (numBands : Nat) : List UInt8 :=
  (List.range (8 * numBands)).map (fun k => payloadData (STANDARD_DATA_HEADER_SIZE + k))

/-- `bool ProcessIncomingData(uint8_t *payloadData, size_t payloadLength)`
(network.cpp).  The result is the returned flag and the globals after the
call. -/
def ProcessIncomingData (cfg : Config) (payloadData : Memory) (payloadLength : Nat)
    (g : Globals) : Bool × Globals :=
  if !cfg.INCOMING_WIFI_ENABLED then (false, g)
  else
    let command16 := command16 payloadData
    if command16 = cfg.WIFI_COMMAND_PEAKDATA then
      if cfg.ENABLE_AUDIO then
        (true, { g with peakBytes := peakBytesFromWire payloadData cfg.NUM_BANDS })
      else (true, g)
    else if command16 = cfg.WIFI_COMMAND_PIXELDATA64 then
      let channel16 := WORDFromMemory payloadData 2
      let seconds := ULONGFromMemory payloadData 8
      let micros := ULONGFromMemory payloadData 16
      let channel16 := normalizeChannel16 channel16
      let r := channelLoop payloadData payloadLength channel16 seconds micros 1
        g.g_aptrBufferManager
      (r.1, { g with g_aptrBufferManager := r.2 })
    else (false, g)

/-! ## Vocabulary for the statements about ingestion -/

/-- The frame a payload decodes to: its timestamp and its declared pixels. -/
def decodeFrame (p : Memory) : LEDBuffer :=
  { seconds := ULONGFromMemory p 8
    micros := ULONGFromMemory p 16
    leds := pixelsFromWire p (DWORDFromMemory p 4) }

/-- A well-formed `PIXELDATA64` payload: it carries the pixel command code and
is long enough for the header and the pixels it declares. -/
def WellFormedPixelData (cfg : Config) (p : Memory) (len : Nat) : Prop :=
  command16 p = cfg.WIFI_COMMAND_PIXELDATA64 ∧
    STANDARD_DATA_HEADER_SIZE + DWORDFromMemory p 4 * sizeofCRGB ≤ len

instance (cfg : Config) (p : Memory) (len : Nat) : Decidable (WellFormedPixelData cfg p len) :=
  inferInstanceAs (Decidable (_ ∧ _))

/-- A truncated `PIXELDATA64` payload: the pixel command code with fewer bytes
than the declared pixel count needs. -/
def TruncatedPixelData (cfg : Config) (p : Memory) (len : Nat) : Prop :=
  command16 p = cfg.WIFI_COMMAND_PIXELDATA64 ∧
    len < STANDARD_DATA_HEADER_SIZE + DWORDFromMemory p 4 * sizeofCRGB

instance (cfg : Config) (p : Memory) (len : Nat) : Decidable (TruncatedPixelData cfg p len) :=
  inferInstanceAs (Decidable (_ ∧ _))

/-- The channel mask of a payload after the legacy rule. -/
def channelMaskOf (p : Memory) : Nat := normalizeChannel16 (WORDFromMemory p 2)

/-- Dispatching a sequence of payloads `(payloadData, payloadLength)` one after
the other; the returned flags are dropped. -/
def dispatchAll (cfg : Config) (ps : List (Memory × Nat)) (g : Globals) : Globals :=
  ps.foldl (fun g q => (ProcessIncomingData cfg q.1 q.2 g).2) g

/-- Timestamp order on frames, seconds first and then microseconds. -/
def tsLe (a b : LEDBuffer) : Prop :=
  a.seconds < b.seconds ∨ (a.seconds = b.seconds ∧ a.micros ≤ b.micros)

instance (a b : LEDBuffer) : Decidable (tsLe a b) := inferInstanceAs (Decidable (_ ∨ _))

/-- Strict timestamp order on frames. -/
def tsLt (a b : LEDBuffer) : Prop :=
  a.seconds < b.seconds ∨ (a.seconds = b.seconds ∧ a.micros < b.micros)

instance (a b : LEDBuffer) : Decidable (tsLt a b) := inferInstanceAs (Decidable (_ ∨ _))

/-! ## Sample inputs used by the witnesses and counterexamples -/

/-- A build with incoming WiFi data enabled and audio disabled.  The command
codes 3 and 4 are sample values: the constants are defined outside the given
sources, and every general statement below is proved for an arbitrary
`Config`. -/
def sampleConfig : Config :=
  { INCOMING_WIFI_ENABLED := true
    ENABLE_AUDIO := false
    NUM_BANDS := 16
    WIFI_COMMAND_PEAKDATA := 4
    WIFI_COMMAND_PIXELDATA64 := 3
    distinct := by decide }

/-- The sample build with audio, the analyzer having a single band. -/
def audioConfig : Config :=
  { sampleConfig with
    ENABLE_AUDIO := true
    NUM_BANDS := 1 }

/-- A 24-byte header whose fields have the given low bytes and zero high
bytes: command, channel mask, pixel count, seconds, microseconds. -/
def wireHeader (command mask length seconds micros : UInt8) : List UInt8 :=
  [command, 0, mask, 0, length, 0, 0, 0,
   seconds, 0, 0, 0, 0, 0, 0, 0,
   micros, 0, 0, 0, 0, 0, 0, 0]

/-- A complete one-pixel frame (27 bytes) for the given mask and timestamp. -/
def onePixelPayload (mask seconds micros : UInt8) : Memory :=
  memOf (wireHeader 3 mask 1 seconds micros ++ [1, 2, 3])

/-- A frame with timestamp `(seconds, micros)` holding one grey pixel. -/
def greyFrame (seconds micros : Nat) : LEDBuffer :=
  { seconds := seconds, micros := micros, leds := [{ r := 9, g := 9, b := 9 }] }

/-- Two channels of depth 2: channel 0 holds one frame stamped `(5, 7)`,
channel 1 is empty. -/
def sampleGlobals : Globals :=
  { g_aptrBufferManager := [{ depth := 2, frames := [greyFrame 5 7] }, { depth := 2, frames := [] }]
    peakBytes := [] }

/-! ## EffectManager (include/effectmanager.h) -/

/-- The colour `CRGB::Black`. -/
def CRGB.Black : CRGB := { r := 0, g := 0, b := 0 }

/-- The colour `CRGB::White`. -/
def CRGB.White : CRGB := { r := 255, g := 255, b := 255 }

/-- The colour `CRGB::Red`. -/
def CRGB.Red : CRGB := { r := 255, g := 0, b := 0 }

/-- Modelled from the spec: an effect as the manager sees it.  The class
`LEDStripEffect` is declared outside the given sources; the manager uses its
identity, the value of `MaximumEffectTime()` and the outcome of `Init`.  What
`Start` and `Draw` do inside the effect is not part of the manager state. -/
structure LEDStripEffect where
  effectNumber : Nat
  maximumEffectTime : Nat
  initOk : Bool
deriving DecidableEq, Repr, Inhabited

/-- Modulus of `size_t` and of `uint` on the 32-bit target. -/
def SIZE_T_MOD : Nat := 2 ^ 32

/-- Constants and switches of the build that the manager depends on and that
are defined outside the given sources, with the two ways `SetGlobalColor`
builds its transient effect: the white fill, and the colour-dependent effect
(spectrum analyzer or palette fire, by build) made from the new and the
previous colour. -/
structure EffectConfig where
  USE_MATRIX : Bool
  DEFAULT_EFFECT_INTERVAL : Nat
  EFFECT_CROSS_FADE_TIME : Nat
  colorFillWhite : LEDStripEffect
  customColorEffect : CRGB → CRGB → LEDStripEffect

/-- The member variables of `EffectManager`.  `_abEffectEnabled` is the
`bool[]` allocated with one entry per effect. -/
structure EffectManager where
  _vEffects : List LEDStripEffect
  _cEnabled : Nat
  _iCurrentEffect : Nat
  _effectStartTime : Nat
  _effectInterval : Nat
  _bPlayAll : Bool
  _bShowVU : Bool
  lastManualColor : CRGB
  _abEffectEnabled : List Bool
  _ptrRemoteEffect : Option LEDStripEffect
deriving DecidableEq, Repr

namespace EffectManager

/-- `SetInterval(interval)`. -/
def SetInterval (interval : Nat) (m : EffectManager) : EffectManager :=
  { m with _effectInterval := interval }

/-- `construct()`; `now` is the value of `millis()`. -/
def construct (cfg : EffectConfig) (now : Nat) (m : EffectManager) : EffectManager :=
  SetInterval cfg.DEFAULT_EFFECT_INTERVAL
    { m with _cEnabled := 0, _bPlayAll := false, _iCurrentEffect := 0, _effectStartTime := now }

/-- `ClearEffects()`: the effects are deleted and the vector is emptied. -/
def ClearEffects (m : EffectManager) : EffectManager :=
  { m with _vEffects := [] }

/-- `EffectCount()`. -/
def EffectCount (m : EffectManager) : Nat := m._vEffects.length

/-- `EnabledCount()`. -/
def EnabledCount (m : EffectManager) : Nat := m._cEnabled

/-- `GetCurrentEffectIndex()`. -/
def GetCurrentEffectIndex (m : EffectManager) : Nat := m._iCurrentEffect

/-- `IsEffectEnabled(i)`. -/
def IsEffectEnabled (i : Nat) (m : EffectManager) : Bool :=
  if i ≥ m._vEffects.length then false
  else m._abEffectEnabled.getD i false

/-- `ClearRemoteColor()`; pausing the palette of the matrix is outside the
manager state. -/
def ClearRemoteColor (m : EffectManager) : EffectManager :=
  { m with _ptrRemoteEffect := none }

/-- `StartEffect()`, as the change of the manager state: the start time is
taken from `millis()`.  The call also starts the override or, with none
installed, `_vEffects[_iCurrentEffect]`, and in a matrix build takes the caption
from `_vEffects[_iCurrentEffect]`; `StartEffectFaults` below tells when that
element is outside the vector.  It is inside for the three callers that use
this definition directly: `SetGlobalColor` has just installed the override in
a strip build, `SetCurrentEffectIndex` has checked the index, and `NextEffect`
has reduced the index modulo a non-zero `EffectCount()`. -/
def StartEffect (now : Nat) (m : EffectManager) : EffectManager :=
  { m with _effectStartTime := now }

/-- `SetGlobalColor(color)`.  In a matrix build only the palette of the device
changes; otherwise the transient effect is built and, when its `Init`
succeeds, installed and started. -/
def SetGlobalColor (cfg : EffectConfig) (now : Nat) (color : CRGB) (m : EffectManager) :
    EffectManager :=
  let oldColor := m.lastManualColor
  let m1 := { m with lastManualColor := color }
  if cfg.USE_MATRIX then m1
  else
    let effect :=
      if color = CRGB.White then cfg.colorFillWhite else cfg.customColorEffect color oldColor
    if effect.initOk then StartEffect now { m1 with _ptrRemoteEffect := some effect }
    else m1

/-- `EnableEffect(i)`. -/
def EnableEffect (i : Nat) (m : EffectManager) : EffectManager :=
  if i ≥ m._vEffects.length then m
  else if !(m._abEffectEnabled.getD i false) then
    let m1 := { m with _abEffectEnabled := m._abEffectEnabled.set i true }
    let m2 := if m1._cEnabled < 1 then ClearRemoteColor m1 else m1
    { m2 with _cEnabled := (m2._cEnabled + 1) % SIZE_T_MOD }
  else m

/-- `DisableEffect(i)`; `_cEnabled--` wraps around as `size_t` does. -/
def DisableEffect (cfg : EffectConfig) (now : Nat) (i : Nat) (m : EffectManager) :
    EffectManager :=
  if i ≥ m._vEffects.length then m
  else if m._abEffectEnabled.getD i false then
    let m1 := { m with _abEffectEnabled := m._abEffectEnabled.set i false }
    let m2 := { m1 with _cEnabled := (m1._cEnabled + SIZE_T_MOD - 1) % SIZE_T_MOD }
    if m2._cEnabled < 1 then SetGlobalColor cfg now CRGB.Black m2 else m2
  else m

/-- `LoadEffectArray(pEffects, cEffects)`.  `pEffects` is the array behind the
pointer, read at the indices below `cEffects`; `make_unique<bool[]>`
value-initialises the flags to false. -/
def LoadEffectArray (cfg : EffectConfig) (now : Nat) (pEffects : Nat → LEDStripEffect)
    (cEffects : Nat) (m : EffectManager) : EffectManager :=
  let m1 := ClearEffects m
  let m2 := { m1 with _vEffects := m1._vEffects ++ (List.range cEffects).map pEffects }
  let m3 := { m2 with _abEffectEnabled := List.replicate m2._vEffects.length false }
  let m4 := (List.range m3._vEffects.length).foldl (fun acc i => EnableEffect i acc) m3
  construct cfg now m4

end EffectManager

/-- The part of a configuration document that `DeserializeFromJSON` reads:
the `"efs"` array of effect objects (`none` when `isNull()`), and the `"eef"`
array, each entry as `as<bool>()` reads it. -/
structure JsonDocument (J : Type) where
  efs : Option (List J)
  eef : Option (List Bool)

namespace EffectManager

/-- `DeserializeFromJSON(jsonObject)`.  `CreateEffectFromJSON` is defined
outside the given sources and is a parameter; `none` stands for `nullptr`.
The argument of `EnableEffect` is the `bool` of the conditional expression
converted to `size_t`, that is 0 or 1. -/
def DeserializeFromJSON {J : Type} (cfg : EffectConfig) (now : Nat)
    (CreateEffectFromJSON : J → Option LEDStripEffect) (jsonObject : JsonDocument J)
    (m : EffectManager) : Bool × EffectManager :=
  let m1 := ClearEffects m
  match jsonObject.efs with
  | none => (false, m1)
  | some effectsArray =>
    let m2 := { m1 with _vEffects := effectsArray.filterMap CreateEffectFromJSON }
    if m2._vEffects.length = 0 then (false, m2)
    else
      let m3 := { m2 with _abEffectEnabled := List.replicate m2._vEffects.length false }
      let enabledArray := jsonObject.eef.getD []
      let enabledSize := enabledArray.length
      let m4 := (List.range m3._vEffects.length).foldl
        (fun acc i =>
          EnableEffect (if i < enabledSize then (enabledArray.getD i false).toNat else 1) acc)
        m3
      (true, construct cfg now m4)

/-- The number of indices `i < EffectCount()` with `IsEffectEnabled(i)`. -/
def enabledEntries (m : EffectManager) : Nat :=
  (List.range m.EffectCount).countP (fun i => m.IsEffectEnabled i)

end EffectManager

namespace EffectManager

/-- `SetCurrentEffectIndex(i)`. -/
def SetCurrentEffectIndex (now : Nat) (i : Nat) (m : EffectManager) : EffectManager :=
  if i ≥ m._vEffects.length then m
  else StartEffect now { m with _iCurrentEffect := i, _effectStartTime := now }

/-- One pass through the body of the `do ... while` loop of `NextEffect`:
`_iCurrentEffect++; _iCurrentEffect %= EffectCount(); _effectStartTime =
millis();`.  The increment is that of a `size_t`.  The loop below runs the
body with a non-empty catalog only, so the remainder is by a non-zero
number. -/
def nextEffectBody (now : Nat) (m : EffectManager) : EffectManager :=
  { m with
    _iCurrentEffect := ((m._iCurrentEffect + 1) % SIZE_T_MOD) % m.EffectCount
    _effectStartTime := now }

/-- The loop condition shared by `NextEffect` and `PreviousEffect`:
`0 < _cEnabled && false == _bPlayAll && false == IsEffectEnabled(_iCurrentEffect)`. -/
def skipCondition (m : EffectManager) : Bool :=
  decide (0 < m._cEnabled) && (m._bPlayAll == false) &&
    (m.IsEffectEnabled m._iCurrentEffect == false)

/-- The `do ... while` loop of `NextEffect`, cut off after `fuel` passes
through the body.  The result is the state on leaving the loop together with
the number of passes made, or `none` when the call does not get there: the
loop is still running after `fuel` passes, or the catalog is empty and
`_iCurrentEffect %= EffectCount()` divides by zero. -/
def nextEffectLoop (now : Nat) : Nat → EffectManager → Option (EffectManager × Nat)
  | 0, _ => none
  | fuel + 1, m =>
    if m.EffectCount = 0 then none
    else
      let m1 := nextEffectBody now m
      if skipCondition m1 then
        (nextEffectLoop now fuel m1).map (fun r => (r.1, r.2 + 1))
      else some (m1, 1)

/-- `NextEffect()`: the loop, then `StartEffect()`.  `none` when the loop does
not end within `fuel` passes or divides by zero.  When the loop ends the index
is below `EffectCount()`, so `StartEffect()` reads inside the vector. -/
def NextEffect (fuel : Nat) (now : Nat) (m : EffectManager) : Option EffectManager :=
  (nextEffectLoop now fuel m).map (fun r => StartEffect now r.1)

end EffectManager

namespace EffectManager

/-- One pass through the body of the `do ... while` loop of `PreviousEffect`:
`if (_iCurrentEffect == 0) _iCurrentEffect = EffectCount() - 1;
_iCurrentEffect--; _effectStartTime = millis();`.  Both subtractions are
those of a `size_t`. -/
def previousEffectBody (now : Nat) (m : EffectManager) : EffectManager :=
  let i1 :=
    if m._iCurrentEffect = 0 then (m.EffectCount + SIZE_T_MOD - 1) % SIZE_T_MOD
    else m._iCurrentEffect
  { m with
    _iCurrentEffect := (i1 + SIZE_T_MOD - 1) % SIZE_T_MOD
    _effectStartTime := now }

/-- The `do ... while` loop of `PreviousEffect`, cut off after `fuel` passes
through the body; the result is as for `nextEffectLoop`. -/
def previousEffectLoop (now : Nat) : Nat → EffectManager → Option (EffectManager × Nat)
  | 0, _ => none
  | fuel + 1, m =>
    let m1 := previousEffectBody now m
    if skipCondition m1 then
      (previousEffectLoop now fuel m1).map (fun r => (r.1, r.2 + 1))
    else some (m1, 1)

/-- `GetCurrentEffect()`, that is `_vEffects[_iCurrentEffect]`; `none` when the
index is outside the vector, where the source reads past its end. -/
def GetCurrentEffect (m : EffectManager) : Option LEDStripEffect :=
  m._vEffects[m._iCurrentEffect]?

/-- Whether `StartEffect()` reads `_vEffects[_iCurrentEffect]` outside the
vector.  It reads the element for the caption in a matrix build, and to start
it when no override is installed. -/
def StartEffectFaults (cfg : EffectConfig) (m : EffectManager) : Bool :=
  (cfg.USE_MATRIX || m._ptrRemoteEffect.isNone) && m.GetCurrentEffect.isNone

/-- `PreviousEffect()`: the loop, then `StartEffect()`.  `none` when the call
does not return: the loop does not end within `fuel` passes, or `StartEffect()`
reads `_vEffects[_iCurrentEffect]` outside the vector. -/
def PreviousEffect (cfg : EffectConfig) (fuel : Nat) (now : Nat) (m : EffectManager) :
    Option EffectManager :=
  (previousEffectLoop now fuel m).bind (fun r =>
    if StartEffectFaults cfg r.1 then none else some (StartEffect now r.1))

/-- `GetTimeUsedByCurrentEffect()`, `millis() - _effectStartTime` in unsigned
32-bit arithmetic. -/
def GetTimeUsedByCurrentEffect (now : Nat) (m : EffectManager) : Nat :=
  (now % SIZE_T_MOD + SIZE_T_MOD - m._effectStartTime % SIZE_T_MOD) % SIZE_T_MOD

/-- `GetInterval()`: the largest unsigned value when the interval is 0, else
`min(_effectInterval, GetCurrentEffect()->MaximumEffectTime() -
GetTimeUsedByCurrentEffect())` with the subtraction in unsigned 32-bit
arithmetic. -/
def GetInterval (now : Nat) (m : EffectManager) : Option Nat :=
  if m._effectInterval = 0 then some (SIZE_T_MOD - 1)
  else
    m.GetCurrentEffect.map (fun effect =>
      min m._effectInterval
        ((effect.maximumEffectTime % SIZE_T_MOD + SIZE_T_MOD
          - GetTimeUsedByCurrentEffect now m) % SIZE_T_MOD))

/-- `GetTimeRemainingForCurrentEffect()`. -/
def GetTimeRemainingForCurrentEffect (now : Nat) (m : EffectManager) : Option Nat :=
  (GetInterval now m).map (fun interval =>
    if GetTimeUsedByCurrentEffect now m > interval then 0
    else interval - GetTimeUsedByCurrentEffect now m)

/-- `CheckEffectTimerExpired()`.  `none` when the current effect cannot be
read or `NextEffect` does not return within `fuel` passes. -/
def CheckEffectTimerExpired (fuel : Nat) (now : Nat) (m : EffectManager) :
    Option EffectManager :=
  if m._effectInterval = 0 then some m
  else
    match GetInterval now m with
    | none => none
    | some interval =>
      if GetTimeUsedByCurrentEffect now m ≥ interval then NextEffect fuel now m
      else some m

/-- Conversion of an unsigned 32-bit value to `int`, as in `int r =
GetTimeRemainingForCurrentEffect();`. -/
def toInt32 (x : Nat) : Int :=
  if x % SIZE_T_MOD < 2 ^ 31 then (x % SIZE_T_MOD : Nat) else ((x % SIZE_T_MOD : Nat) : Int) - 2 ^ 32

/-- `Update()`, returning the manager and the global `g_Fader` after the call.
`ledCount` is `_gfx[0]->GetLEDCount()`.  The two fade values are computed by
the source in single-precision floating point, `255 * (e / msFadeTime)`
converted to `uint8_t`; that arithmetic is not modelled and `fade` stands for
it.  The comparisons with `msFadeTime` are those of the integers, which is
what the float comparison gives for values below 2^24.  Drawing changes no
member of the manager; `none` is returned where the source would draw through
an index outside the vector, and where `CheckEffectTimerExpired` gives
`none`. -/
def Update (cfg : EffectConfig) (fade : Int → Nat) (ledCount : Nat) (fuel : Nat) (now : Nat)
    (m : EffectManager) (g_Fader : Nat) : Option (EffectManager × Nat) :=
  if ledCount = 0 then some (m, g_Fader)
  else
    match CheckEffectTimerExpired fuel now m with
    | none => none
    | some m1 =>
      if m1._ptrRemoteEffect.isNone && m1.GetCurrentEffect.isNone then none
      else if m1.EffectCount < 2 then some (m1, 255)
      else if m1._effectInterval = 0 then some (m1, 255)
      else
        match GetTimeRemainingForCurrentEffect now m1 with
        | none => none
        | some remaining =>
          let r := toInt32 remaining
          let e := toInt32 (GetTimeUsedByCurrentEffect now m1)
          if e < (cfg.EFFECT_CROSS_FADE_TIME : Int) then some (m1, fade e)
          else if r < (cfg.EFFECT_CROSS_FADE_TIME : Int) then some (m1, fade r)
          else some (m1, 255)

end EffectManager

namespace EffectManager

/-- The loop of `SerializeToJSON` over `_vEffects`: one nested object per
effect, stopping at the first effect whose own `SerializeToJSON` returns
false.  The result is the return value and the objects created so far. -/
def serializeEffects {J : Type} (SerializeEffectToJSON : LEDStripEffect → Bool × J) :
    List LEDStripEffect → Bool × List J
  | [] => (true, [])
  | effect :: rest =>
    let r := SerializeEffectToJSON effect
    if !r.1 then (false, [r.2])
    else
      let rs := serializeEffects SerializeEffectToJSON rest
      (rs.1, r.2 :: rs.2)

/-- `SerializeToJSON(jsonObject)`: the return value and the document written.
The `"eef"` array gets `IsEffectEnabled(i)` for every `i < EffectCount()`, the
`"efs"` array one object per effect.  `SerializeToJSON` of an effect is
defined outside the given sources and is a parameter, giving its return value
and the object it wrote.  The version entry, which `DeserializeFromJSON` does
not read, is left out of the document. -/
def SerializeToJSON {J : Type} (SerializeEffectToJSON : LEDStripEffect → Bool × J)
    (m : EffectManager) : Bool × JsonDocument J :=
  let enabledArray := (List.range m.EffectCount).map (fun i => m.IsEffectEnabled i)
  let effects := serializeEffects SerializeEffectToJSON m._vEffects
  (effects.1, { efs := some effects.2, eef := some enabledArray })

end EffectManager

/-- A render tick: a call of `Update()` or of `CheckEffectTimerExpired()`, with
the value of `millis()` during the call. -/
inductive RenderTick where
  | update (now : Nat)
  | check (now : Nat)
deriving DecidableEq, Repr

namespace EffectManager

/-- One render tick on the manager and the global fader; `none` when the call
does not return. -/
def renderTick (cfg : EffectConfig) (fade : Int → Nat) (ledCount fuel : Nat) :
    RenderTick → EffectManager × Nat → Option (EffectManager × Nat)
  | RenderTick.update now, s => Update cfg fade ledCount fuel now s.1 s.2
  | RenderTick.check now, s => (CheckEffectTimerExpired fuel now s.1).map (fun m => (m, s.2))

/-- A sequence of render ticks, one after the other. -/
def renderTicks (cfg : EffectConfig) (fade : Int → Nat) (ledCount fuel : Nat) :
    List RenderTick → EffectManager × Nat → Option (EffectManager × Nat)
  | [], s => some s
  | t :: ts, s =>
    match renderTick cfg fade ledCount fuel t s with
    | none => none
    | some s1 => renderTicks cfg fade ledCount fuel ts s1

end EffectManager

/-- The clock value of a render tick. -/
def RenderTick.now : RenderTick → Nat
  | RenderTick.update now => now
  | RenderTick.check now => now

/-! ## GFXBase (include/gfxbase.h) -/

/-- The members of `GFXBase` that the pixel accessors use: the two `size_t`
dimensions and the array behind `CRGB * leds`. -/
structure GFXBase where
  _width : Nat
  _height : Nat
  leds : List CRGB
deriving DecidableEq, Repr

/-- Outcome of a pixel access: it returns, it throws `std::runtime_error`, or
it addresses element `index` outside the array behind `leds`. -/
inductive Access (α : Type) where
  | value (a : α)
  | thrown (what : String)
  | outside (index : Nat)
deriving DecidableEq, Repr

/-- Conversion of a `uint16_t` value to `int16_t`. -/
def toInt16 (v : Nat) : Int :=
  if v % 65536 < 32768 then ((v % 65536 : Nat) : Int) else ((v % 65536 : Nat) : Int) - 65536

/-- Conversion of an `int` value to `uint16_t`. -/
def toUInt16 (v : Int) : Nat := (v % 65536).toNat

/-- Conversion of a mathematical integer to `int`, wrapping around as the
two's-complement target does. -/
def wrapInt32 (v : Int) : Int := (v + 2 ^ 31) % 2 ^ 32 - 2 ^ 31

namespace GFXBase

/-- `GetLEDCount()`, `_width * _height` as a `size_t`. -/
def GetLEDCount (g : GFXBase) : Nat := (g._width * g._height) % SIZE_T_MOD

/-- `xy(x, y)`.  The parameters are `uint16_t`, `reverseY` is a `uint8_t`, the
arithmetic is that of `size_t` and the result is a `uint16_t`. -/
def xy (g : GFXBase) (x y : Nat) : Nat :=
  let x := x % 65536
  let y := y % 65536
  if x % 2 = 1 then
    let reverseY := ((g._height + SIZE_T_MOD - 1) % SIZE_T_MOD + SIZE_T_MOD - y) % SIZE_T_MOD % 256
    ((x * g._height) % SIZE_T_MOD + reverseY) % SIZE_T_MOD % 65536
  else
    ((x * g._height) % SIZE_T_MOD + y) % SIZE_T_MOD % 65536

/-- `getPixel(i)` with `i` an `int16_t`. -/
def getPixelIndex (g : GFXBase) (i : Int) : Access CRGB :=
  if 0 ≤ i ∧ i.toNat < g.GetLEDCount then
    match g.leds[i.toNat]? with
    | some c => Access.value c
    | none => Access.outside i.toNat
  else Access.thrown "Pixel out of range in getPixel(x)"

/-- `getPixel(x, y)` with `int16_t` coordinates; the `uint16_t` result of `xy`
is converted to the `int16_t` parameter of `getPixel(i)`. -/
def getPixel (g : GFXBase) (x y : Int) : Access CRGB :=
  if 0 ≤ x ∧ x.toNat < g._width ∧ 0 ≤ y ∧ y.toNat < g._height then
    g.getPixelIndex (toInt16 (g.xy (toUInt16 x) (toUInt16 y)))
  else Access.thrown "Pixel out of range in getPixel(x,y)"

/-- `setPixel(x, y, color)` with `int16_t` coordinates and a `CRGB` colour. -/
def setPixel (g : GFXBase) (x y : Int) (color : CRGB) : Access GFXBase :=
  if 0 ≤ x ∧ x.toNat < g._width ∧ 0 ≤ y ∧ y.toNat < g._height then
    if g.xy (toUInt16 x) (toUInt16 y) < g.leds.length then
      Access.value { g with leds := g.leds.set (g.xy (toUInt16 x) (toUInt16 y)) color }
    else Access.outside (g.xy (toUInt16 x) (toUInt16 y))
  else Access.value g

end GFXBase

/-- The variables of the loop of `BresenhamLine`. -/
structure BresenhamState where
  x0 : Int
  y0 : Int
  err : Int
deriving DecidableEq, Repr

/-- The part of the loop body of `BresenhamLine` after the `break` test:
`e2 = 2 * err`, then the two conditional moves, in `int` arithmetic. -/
def bresenhamStep (dx dy sx sy : Int) (s : BresenhamState) : BresenhamState :=
  let e2 := wrapInt32 (2 * s.err)
  let s1 : BresenhamState :=
    if e2 > dy then { s with err := wrapInt32 (s.err + dy), x0 := wrapInt32 (s.x0 + sx) } else s
  if e2 < dx then { s1 with err := wrapInt32 (s1.err + dx), y0 := wrapInt32 (s1.y0 + sy) } else s1

/-- The path of the line: the values of the loop variables `(x0, y0)` at the
passes of the `for (;;)` loop of `BresenhamLine`, in order, the writes left
out; `none` when the loop is still running after `fuel` passes.  It serves to
say which cells `bresenhamLoop` below writes. -/
def bresenhamCells (x1 y1 dx dy sx sy : Int) : Nat → BresenhamState → Option (List (Int × Int))
  | 0, _ => none
  | fuel + 1, s =>
    if s.x0 = x1 ∧ s.y0 = y1 then some [(s.x0, s.y0)]
    else
      (bresenhamCells x1 y1 dx dy sx sy fuel (bresenhamStep dx dy sx sy s)).map
        (fun cells => (s.x0, s.y0) :: cells)

/-- The path of `BresenhamLine(x0, y0, x1, y1, ...)`: the set-up of the call,
then `bresenhamCells`. -/
def BresenhamLineCells (fuel : Nat) (x0 y0 x1 y1 : Int) : Option (List (Int × Int)) :=
  let dx := wrapInt32 |wrapInt32 (x1 - x0)|
  let sx : Int := if x0 < x1 then 1 else -1
  let dy := wrapInt32 (-(wrapInt32 |wrapInt32 (y1 - y0)|))
  let sy : Int := if y0 < y1 then 1 else -1
  let err := wrapInt32 (dx + dy)
  bresenhamCells x1 y1 dx dy sx sy fuel { x0 := x0, y0 := y0, err := err }

/-- The outcome of an access carried over to another result. -/
def Access.map {α β : Type} (f : α → β) : Access α → Access β
  | Access.value a => Access.value (f a)
  | Access.thrown what => Access.thrown what
  | Access.outside index => Access.outside index

namespace GFXBase

/-- The statement `leds[i] = bMerge ? leds[i] + color : color` of
`BresenhamLine`.  The index is not checked: an index outside the array gives
`Access.outside`.  `plus` stands for `operator+` of `CRGB`, which is defined
outside the given sources. -/
def writeLed (plus : CRGB → CRGB → CRGB) (g : GFXBase) (i : Nat) (color : CRGB)
    (bMerge : Bool) : Access GFXBase :=
  match g.leds[i]? with
  | some old =>
    Access.value { g with leds := g.leds.set i (if bMerge then plus old color else color) }
  | none => Access.outside i

/-- The index `xy(x0, y0)` that `BresenhamLine` computes for the values `x0`,
`y0` of its `int` variables, converted to the `uint16_t` parameters of `xy`. -/
def ledOf (g : GFXBase) (c : Int × Int) : Nat :=
  g.xy (toUInt16 c.1) (toUInt16 c.2)

/-- The surface after the write of `BresenhamLine` for the cell `c`, left as
it is when the write is outside the array. -/
def writeCell (plus : CRGB → CRGB → CRGB) (color : CRGB) (bMerge : Bool) (g : GFXBase)
    (c : Int × Int) : GFXBase :=
  match g.writeLed plus (g.ledOf c) color bMerge with
  | Access.value g1 => g1
  | Access.thrown _ => g
  | Access.outside _ => g

/-- The cell `c` lies on the surface. -/
def OnSurface (g : GFXBase) (c : Int × Int) : Prop :=
  0 ≤ c.1 ∧ c.1 < g._width ∧ 0 ≤ c.2 ∧ c.2 < g._height

end GFXBase

/-- The `for (;;)` loop of `BresenhamLine`, cut off after `fuel` passes.  Each
pass writes `leds[xy(x0, y0)]` without a check of the index.  The result is
the surface after the call together with the indices written, in the order of
the passes; `Access.outside` when a pass writes outside the array; `none` when
the loop is still running after `fuel` passes. -/
def bresenhamLoop (plus : CRGB → CRGB → CRGB) (x1 y1 dx dy sx sy : Int) (color : CRGB)
    (bMerge : Bool) : Nat → GFXBase → BresenhamState → Option (Access (GFXBase × List Nat))
  | 0, _, _ => none
  | fuel + 1, g, s =>
    match g.writeLed plus (g.ledOf (s.x0, s.y0)) color bMerge with
    | Access.value g1 =>
      if s.x0 = x1 ∧ s.y0 = y1 then some (Access.value (g1, [g.ledOf (s.x0, s.y0)]))
      else
        (bresenhamLoop plus x1 y1 dx dy sx sy color bMerge fuel g1
          (bresenhamStep dx dy sx sy s)).map
          (Access.map (fun r => (r.1, g.ledOf (s.x0, s.y0) :: r.2)))
    | Access.thrown what => some (Access.thrown what)
    | Access.outside index => some (Access.outside index)

/-- `BresenhamLine(x0, y0, x1, y1, color, bMerge)` on the surface `g`. -/
def BresenhamLine (plus : CRGB → CRGB → CRGB) (g : GFXBase) (fuel : Nat) (x0 y0 x1 y1 : Int)
    (color : CRGB) (bMerge : Bool) : Option (Access (GFXBase × List Nat)) :=
  let dx := wrapInt32 |wrapInt32 (x1 - x0)|
  let sx : Int := if x0 < x1 then 1 else -1
  let dy := wrapInt32 (-(wrapInt32 |wrapInt32 (y1 - y0)|))
  let sy : Int := if y0 < y1 then 1 else -1
  let err := wrapInt32 (dx + dy)
  bresenhamLoop plus x1 y1 dx dy sx sy color bMerge fuel g { x0 := x0, y0 := y0, err := err }

/-- One step of a line toward the end point `(x1, y1)`: a move by at most 1 in
each coordinate, each coordinate staying between its old value and that of
the end point. -/
def StepToward (x1 y1 : Int) (c c2 : Int × Int) : Prop :=
  |c2.1 - c.1| ≤ 1 ∧ |c2.2 - c.2| ≤ 1 ∧
  ((c.1 ≤ c2.1 ∧ c2.1 ≤ x1) ∨ (x1 ≤ c2.1 ∧ c2.1 ≤ c.1)) ∧
  ((c.2 ≤ c2.2 ∧ c2.2 ≤ y1) ∨ (y1 ≤ c2.2 ∧ c2.2 ≤ c.2))

/-- The band in which the loop of `BresenhamLine` keeps the deviation `t` from
the ideal line with sides `a` and `b`: `2 * t` stays within the longer side,
strictly on the side where the tie breaks. -/
structure BresenhamBand (a b t : Int) : Prop where
  lower : -a ≤ 2 * t ∨ -b ≤ 2 * t
  upper : 2 * t ≤ a ∨ 2 * t ≤ b
  lower_strict : a ≤ b → 0 < b → -b < 2 * t
  upper_strict : b ≤ a → 0 < a → 2 * t < a

/-- Invariant of the loop of `BresenhamLine` for a line with sides `a = |x1 -
x0|` and `b = |y1 - y0|`: `p` and `q` are the distances left to the end point
in `x` and in `y`, and the error term is `a - b + t` with the deviation `t = b
* p - a * q` inside its band. -/
structure BresenhamInv (x1 y1 a b sx sy : Int) (s : BresenhamState) (p q t : Int) : Prop where
  p_nonneg : 0 ≤ p
  p_le : p ≤ a
  q_nonneg : 0 ≤ q
  q_le : q ≤ b
  x_eq : s.x0 = x1 - sx * p
  y_eq : s.y0 = y1 - sy * q
  t_eq : t = b * p - a * q
  err_eq : s.err = a - b + t
  band : BresenhamBand a b t

/-! ## Sample inputs for the effect manager -/

/-- A strip build whose transient effects initialise. -/
def sampleEffectConfig : EffectConfig :=
  { USE_MATRIX := false
    DEFAULT_EFFECT_INTERVAL := 30000
    EFFECT_CROSS_FADE_TIME := 1000
    colorFillWhite := { effectNumber := 100, maximumEffectTime := 4294967295, initOk := true }
    customColorEffect := fun _ _ =>
      { effectNumber := 101, maximumEffectTime := 4294967295, initOk := true } }

/-- The effect with number `k` and no cap on its run time. -/
def sampleEffect (k : Nat) : LEDStripEffect :=
  { effectNumber := k, maximumEffectTime := 4294967295, initOk := true }

/-- A manager before any catalog has been loaded. -/
def blankManager : EffectManager :=
  { _vEffects := []
    _cEnabled := 0
    _iCurrentEffect := 0
    _effectStartTime := 0
    _effectInterval := 0
    _bPlayAll := false
    _bShowVU := true
    lastManualColor := CRGB.Red
    _abEffectEnabled := []
    _ptrRemoteEffect := none }

/-- A manager holding three effects of which the first two are enabled, with
the counter in step with the flags. -/
def threeEffectManager : EffectManager :=
  { blankManager with
    _vEffects := [sampleEffect 0, sampleEffect 1, sampleEffect 2]
    _cEnabled := 2
    _abEffectEnabled := [true, true, false]
    _effectInterval := 30000 }

/-- A strip build in which `Init` of every transient effect fails. -/
def failingInitConfig : EffectConfig :=
  { USE_MATRIX := false
    DEFAULT_EFFECT_INTERVAL := 30000
    EFFECT_CROSS_FADE_TIME := 1000
    colorFillWhite := { effectNumber := 100, maximumEffectTime := 4294967295, initOk := false }
    customColorEffect := fun _ _ =>
      { effectNumber := 101, maximumEffectTime := 4294967295, initOk := false } }

/-- A manager holding three effects of which only the first is enabled, with
the counter in step with the flags. -/
def oneEnabledManager : EffectManager :=
  { blankManager with
    _vEffects := [sampleEffect 0, sampleEffect 1, sampleEffect 2]
    _cEnabled := 1
    _abEffectEnabled := [true, false, false]
    _effectInterval := 30000 }

/-- A manager holding three effects, none enabled, the counter at 0 and a
remote override installed. -/
def allDisabledManager : EffectManager :=
  { blankManager with
    _vEffects := [sampleEffect 0, sampleEffect 1, sampleEffect 2]
    _cEnabled := 0
    _abEffectEnabled := [false, false, false]
    _effectInterval := 30000
    _ptrRemoteEffect := some (sampleEffect 101) }

/-- A manager holding three effects, all enabled, the counter at 3 and the
current index on the last entry. -/
def allEnabledManager : EffectManager :=
  { blankManager with
    _vEffects := [sampleEffect 0, sampleEffect 1, sampleEffect 2]
    _cEnabled := 3
    _iCurrentEffect := 2
    _abEffectEnabled := [true, true, true]
    _effectInterval := 30000 }

/-- A manager holding three effects of which only the last is enabled, with
the counter in step with the flags and the current index on the first
entry. -/
def lastOnlyManager : EffectManager :=
  { blankManager with
    _vEffects := [sampleEffect 0, sampleEffect 1, sampleEffect 2]
    _cEnabled := 1
    _abEffectEnabled := [false, false, true]
    _effectInterval := 30000 }

/-- A manager holding the single effect 0, enabled, with the counter in step
with the flag and a rotation interval of 30 seconds. -/
def singleEffectManager : EffectManager :=
  { blankManager with
    _vEffects := [sampleEffect 0]
    _cEnabled := 1
    _abEffectEnabled := [true]
    _effectInterval := 30000 }

/-- A manager holding three effects, all enabled, whose current effect 0 caps
its run time at one second, under a rotation interval of 30 seconds. -/
def cappedManager : EffectManager :=
  { blankManager with
    _vEffects := [{ effectNumber := 0, maximumEffectTime := 1000, initOk := true },
      sampleEffect 1, sampleEffect 2]
    _cEnabled := 3
    _abEffectEnabled := [true, true, true]
    _effectInterval := 30000 }

/-- A surface of 4 lines of 3 pixels, all black. -/
def sampleGFX : GFXBase :=
  { _width := 4
    _height := 3
    leds := List.replicate 12 CRGB.Black }

/-! ## Lemmas about the ingestion path -/

theorem UpdateFromWire_of_length (p : Memory) (len : Nat)
    (h : STANDARD_DATA_HEADER_SIZE + DWORDFromMemory p 4 * sizeofCRGB ≤ len) (b : LEDBuffer) :
    b.UpdateFromWire p len = some (decodeFrame p) := by
  unfold LEDBuffer.UpdateFromWire decodeFrame
  have h1 : ¬ len < STANDARD_DATA_HEADER_SIZE := by omega
  have h2 : ¬ len < STANDARD_DATA_HEADER_SIZE + DWORDFromMemory p 4 * sizeofCRGB := by omega
  simp [h1, h2]

/-- The loop body on the replace path: the newest frame matches the incoming
timestamp and the microsecond field is not 0. -/
theorem processChannel_replace (p : Memory) (len s mi : Nat) (mgr : LEDBufferManager)
    (nb : LEDBuffer)
    (hlen : STANDARD_DATA_HEADER_SIZE + DWORDFromMemory p 4 * sizeofCRGB ≤ len)
    (hnew : mgr.PeekNewestBuffer = some nb) (hmi : mi ≠ 0)
    (hs : nb.seconds = s) (hm : nb.micros = mi) :
    processChannel p len s mi mgr = (true, mgr.storeNewest (decodeFrame p)) := by
  have hne : mgr.IsEmpty = false := by
    unfold LEDBufferManager.IsEmpty
    unfold LEDBufferManager.PeekNewestBuffer at hnew
    cases hf : mgr.frames with
    | nil => rw [hf] at hnew; simp at hnew
    | cons a l => rfl
  unfold processChannel
  simp [hne, hnew, LEDBuffer.MicroSeconds, LEDBuffer.Seconds, hs, hm, hmi,
    UpdateFromWire_of_length p len hlen]

/-- The loop body on the append path: no newest frame, or the guard of the
dedup test fails. -/
theorem processChannel_append (p : Memory) (len s mi : Nat) (mgr : LEDBufferManager)
    (hlen : STANDARD_DATA_HEADER_SIZE + DWORDFromMemory p 4 * sizeofCRGB ≤ len)
    (hno : ∀ nb, mgr.PeekNewestBuffer = some nb → mi = 0 ∨ nb.micros ≠ mi ∨ nb.seconds ≠ s) :
    processChannel p len s mi mgr =
      (true, { mgr with frames :=
        (if mgr.depth ≤ mgr.frames.length then mgr.frames.drop 1 else mgr.frames)
          ++ [decodeFrame p] }) := by
  unfold processChannel
  have hup := UpdateFromWire_of_length p len hlen
  cases hnew : mgr.PeekNewestBuffer with
  | none =>
    simp [hup, LEDBufferManager.GetNewBuffer, LEDBufferManager.storeNewest]
  | some nb =>
    have h := hno nb hnew
    have hc : (mi != 0 && nb.MicroSeconds == mi && nb.Seconds == s) = false := by
      simp only [LEDBuffer.MicroSeconds, LEDBuffer.Seconds]
      rcases h with h | h | h <;> simp [h]
    simp [hup, hc, LEDBufferManager.GetNewBuffer, LEDBufferManager.storeNewest]

/-- The test `(channelMask & channel16) != 0` with `channelMask = 2 ^ i` reads bit
`i` of `channel16`. -/
theorem mask_test (i m : Nat) : ((2 ^ i &&& m) != 0) = m.testBit i := by
  rw [Nat.two_pow_and]
  cases h : m.testBit i with
  | false => simp
  | true =>
    have : 2 ^ i ≠ 0 := by positivity
    simp [this]

/-- Closed form of the channel loop for a decodable payload: it runs to the end
and changes exactly the channels whose bit is set. -/
theorem channelLoop_ok (p : Memory) (len ch s mi : Nat)
    (hlen : STANDARD_DATA_HEADER_SIZE + DWORDFromMemory p 4 * sizeofCRGB ≤ len) :
    ∀ (bufs : List LEDBufferManager) (i : Nat),
      (channelLoop p len ch s mi (2 ^ i) bufs).1 = true ∧
      ∀ c, (channelLoop p len ch s mi (2 ^ i) bufs).2[c]? =
        (bufs[c]?).map (fun mgr =>
          if ch.testBit (i + c) then (processChannel p len s mi mgr).2 else mgr) := by
  intro bufs
  induction bufs with
  | nil => intro i; simp [channelLoop]
  | cons mgr rest ih =>
    intro i
    have hshift : (2 ^ i) <<< 1 = 2 ^ (i + 1) := by
      rw [Nat.shiftLeft_eq]; ring
    have ih1 := ih (i + 1)
    have hpc : (processChannel p len s mi mgr).1 = true := by
      by_cases hr : ∃ nb, mgr.PeekNewestBuffer = some nb ∧ mi ≠ 0 ∧ nb.seconds = s ∧ nb.micros = mi
      · obtain ⟨nb, h1, h2, h3, h4⟩ := hr
        rw [processChannel_replace p len s mi mgr nb hlen h1 h2 h3 h4]
      · rw [processChannel_append p len s mi mgr hlen]
        intro nb hnb
        by_contra hcon
        push_neg at hcon
        exact hr ⟨nb, hnb, hcon.1, hcon.2.2, hcon.2.1⟩
    unfold channelLoop
    rw [mask_test, hshift]
    cases hb : ch.testBit i with
    | false =>
      simp only [Bool.false_eq_true, ↓reduceIte]
      refine ⟨ih1.1, ?_⟩
      intro c
      cases c with
      | zero => simp [hb]
      | succ c =>
        have := ih1.2 c
        simp only [List.getElem?_cons_succ, this]
        congr 1
        funext m
        rw [show i + 1 + c = i + (c + 1) by omega]
    | true =>
      simp only [↓reduceIte]
      cases hpr : processChannel p len s mi mgr with
      | mk ok mgr1 =>
        rw [hpr] at hpc
        simp only at hpc
        subst hpc
        simp only
        refine ⟨ih1.1, ?_⟩
        intro c
        cases c with
        | zero => simp [hb, hpr]
        | succ c =>
          have := ih1.2 c
          simp only [List.getElem?_cons_succ, this]
          congr 1
          funext m
          rw [show i + 1 + c = i + (c + 1) by omega]

/-- The channel loop never changes the number of channels. -/
theorem channelLoop_length (p : Memory) (len ch s mi : Nat) :
    ∀ (bufs : List LEDBufferManager) (mask : Nat),
      (channelLoop p len ch s mi mask bufs).2.length = bufs.length := by
  intro bufs
  induction bufs with
  | nil => intro mask; simp [channelLoop]
  | cons mgr rest ih =>
    intro mask
    unfold channelLoop
    split
    · split <;> simp [ih]
    · simp [ih]

/-- Without `INCOMING_WIFI_ENABLED` the function returns false at once. -/
theorem ProcessIncomingData_disabled (cfg : Config) (hw : cfg.INCOMING_WIFI_ENABLED = false)
    (p : Memory) (len : Nat) (g : Globals) : ProcessIncomingData cfg p len g = (false, g) := by
  simp [ProcessIncomingData, hw]

/-- The `WIFI_COMMAND_PEAKDATA` case. -/
theorem ProcessIncomingData_peak (cfg : Config) (hw : cfg.INCOMING_WIFI_ENABLED = true)
    (p : Memory) (len : Nat) (g : Globals) (hcmd : command16 p = cfg.WIFI_COMMAND_PEAKDATA) :
    ProcessIncomingData cfg p len g =
      (true, if cfg.ENABLE_AUDIO then
        { g with peakBytes := peakBytesFromWire p cfg.NUM_BANDS } else g) := by
  cases ha : cfg.ENABLE_AUDIO <;> simp [ProcessIncomingData, hw, hcmd, ha]

/-- The `WIFI_COMMAND_PIXELDATA64` case is the channel loop started at mask 1. -/
theorem ProcessIncomingData_pixel_eq (cfg : Config) (hw : cfg.INCOMING_WIFI_ENABLED = true)
    (p : Memory) (len : Nat) (g : Globals) (hcmd : command16 p = cfg.WIFI_COMMAND_PIXELDATA64) :
    ProcessIncomingData cfg p len g =
      ((channelLoop p len (channelMaskOf p) (ULONGFromMemory p 8) (ULONGFromMemory p 16) 1
          g.g_aptrBufferManager).1,
        { g with g_aptrBufferManager :=
          (channelLoop p len (channelMaskOf p) (ULONGFromMemory p 8) (ULONGFromMemory p 16) 1
            g.g_aptrBufferManager).2 }) := by
  have hne : ¬ cfg.WIFI_COMMAND_PIXELDATA64 = cfg.WIFI_COMMAND_PEAKDATA :=
    fun e => cfg.distinct e.symm
  simp [ProcessIncomingData, hw, hcmd, hne, channelMaskOf]

/-- The `default` case. -/
theorem ProcessIncomingData_unknown (cfg : Config) (p : Memory) (len : Nat) (g : Globals)
    (h1 : command16 p ≠ cfg.WIFI_COMMAND_PEAKDATA)
    (h2 : command16 p ≠ cfg.WIFI_COMMAND_PIXELDATA64) :
    ProcessIncomingData cfg p len g = (false, g) := by
  cases hw : cfg.INCOMING_WIFI_ENABLED <;> simp [ProcessIncomingData, hw, h1, h2]

/-- The number of channels is the same after any call. -/
theorem ProcessIncomingData_length (cfg : Config) (p : Memory) (len : Nat) (g : Globals) :
    (ProcessIncomingData cfg p len g).2.NUM_CHANNELS = g.NUM_CHANNELS := by
  cases hw : cfg.INCOMING_WIFI_ENABLED
  · rw [ProcessIncomingData_disabled cfg hw]
  · by_cases h1 : command16 p = cfg.WIFI_COMMAND_PEAKDATA
    · rw [ProcessIncomingData_peak cfg hw p len g h1]
      cases cfg.ENABLE_AUDIO <;> rfl
    · by_cases h2 : command16 p = cfg.WIFI_COMMAND_PIXELDATA64
      · rw [ProcessIncomingData_pixel_eq cfg hw p len g h2]
        simp [Globals.NUM_CHANNELS, channelLoop_length]
      · rw [ProcessIncomingData_unknown cfg p len g h1 h2]

/-- Effect of a well-formed pixel payload on every channel. -/
theorem ProcessIncomingData_pixel (cfg : Config) (hw : cfg.INCOMING_WIFI_ENABLED = true)
    (p : Memory) (len : Nat) (g : Globals) (h : WellFormedPixelData cfg p len) :
    (ProcessIncomingData cfg p len g).1 = true ∧
    (ProcessIncomingData cfg p len g).2.peakBytes = g.peakBytes ∧
    ∀ c, (ProcessIncomingData cfg p len g).2.g_aptrBufferManager[c]? =
      (g.g_aptrBufferManager[c]?).map (fun mgr =>
        if (channelMaskOf p).testBit c then
          (processChannel p len (ULONGFromMemory p 8) (ULONGFromMemory p 16) mgr).2
        else mgr) := by
  obtain ⟨hcmd, hlen⟩ := h
  have hloop := channelLoop_ok p len (channelMaskOf p) (ULONGFromMemory p 8)
    (ULONGFromMemory p 16) hlen g.g_aptrBufferManager 0
  simp only [pow_zero, Nat.zero_add] at hloop
  rw [ProcessIncomingData_pixel_eq cfg hw p len g hcmd]
  exact ⟨hloop.1, rfl, hloop.2⟩

/-- The shift-and-or of the two command bytes is their little-endian value. -/
theorem command16_eq (p : Memory) : command16 p = (p 0).toNat + 256 * (p 1).toNat := by
  unfold command16
  have h0 : (p 0).toNat < 2 ^ 8 := UInt8.toNat_lt_size (p 0)
  have h1 : (p 1).toNat < 256 := UInt8.toNat_lt_size (p 1)
  rw [Nat.shiftLeft_eq, Nat.mul_comm, ← Nat.mul_add_lt_is_or h0]
  omega

/-- A little-endian field depends only on the bytes it covers. -/
theorem readLE_congr (p q : Memory) : ∀ (n off : Nat),
    (∀ i, i < off + n → p i = q i) → readLE p off n = readLE q off n := by
  intro n
  induction n with
  | zero => intro off _; rfl
  | succ n ih =>
    intro off h
    unfold readLE
    rw [h off (by omega), ih (off + 1) (fun i hi => h i (by omega))]

/-- Decoding depends only on the bytes below `payloadLength`. -/
theorem UpdateFromWire_congr (p q : Memory) (len : Nat) (h : ∀ i, i < len → p i = q i)
    (b : LEDBuffer) : b.UpdateFromWire p len = b.UpdateFromWire q len := by
  unfold LEDBuffer.UpdateFromWire
  by_cases h1 : len < STANDARD_DATA_HEADER_SIZE
  · simp [h1]
  · have hl : 24 ≤ len := by unfold STANDARD_DATA_HEADER_SIZE at h1; omega
    have hd : DWORDFromMemory p 4 = DWORDFromMemory q 4 :=
      readLE_congr p q 4 4 (fun i hi => h i (by omega))
    have hs : ULONGFromMemory p 8 = ULONGFromMemory q 8 :=
      readLE_congr p q 8 8 (fun i hi => h i (by omega))
    have hm : ULONGFromMemory p 16 = ULONGFromMemory q 16 :=
      readLE_congr p q 8 16 (fun i hi => h i (by omega))
    simp only [h1, ↓reduceIte, hd, hs, hm]
    by_cases h2 : len < STANDARD_DATA_HEADER_SIZE + DWORDFromMemory q 4 * sizeofCRGB
    · simp [h2]
    · simp only [h2, ↓reduceIte]
      have hpx : pixelsFromWire p (DWORDFromMemory q 4) = pixelsFromWire q (DWORDFromMemory q 4) := by
        unfold pixelsFromWire
        apply List.map_congr_left
        intro k hk
        have hk' : k < DWORDFromMemory q 4 := List.mem_range.mp hk
        unfold STANDARD_DATA_HEADER_SIZE sizeofCRGB at h2
        unfold pixelAt STANDARD_DATA_HEADER_SIZE sizeofCRGB
        rw [h _ (by omega), h _ (by omega), h _ (by omega)]
      rw [hpx]

/-- The loop body uses the payload only through `UpdateFromWire`. -/
theorem processChannel_congr (p q : Memory) (len s mi : Nat)
    (h : ∀ b : LEDBuffer, b.UpdateFromWire p len = b.UpdateFromWire q len)
    (mgr : LEDBufferManager) :
    processChannel p len s mi mgr = processChannel q len s mi mgr := by
  unfold processChannel
  simp only [h]

/-- The channel loop uses the payload only through `UpdateFromWire`. -/
theorem channelLoop_congr (p q : Memory) (len ch s mi : Nat)
    (h : ∀ b : LEDBuffer, b.UpdateFromWire p len = b.UpdateFromWire q len) :
    ∀ (bufs : List LEDBufferManager) (mask : Nat),
      channelLoop p len ch s mi mask bufs = channelLoop q len ch s mi mask bufs := by
  intro bufs
  induction bufs with
  | nil => intro mask; simp [channelLoop]
  | cons mgr rest ih =>
    intro mask
    unfold channelLoop
    rw [processChannel_congr p q len s mi h mgr, ih]

/-- The command code depends on bytes 0 and 1 only. -/
theorem command16_congr (p q : Memory) (h0 : p 0 = q 0) (h1 : p 1 = q 1) :
    command16 p = command16 q := by
  unfold command16; rw [h0, h1]

/-- For a decodable payload the loop body either replaces or appends. -/
theorem processChannel_cases (p : Memory) (len s mi : Nat) (mgr : LEDBufferManager)
    (hlen : STANDARD_DATA_HEADER_SIZE + DWORDFromMemory p 4 * sizeofCRGB ≤ len) :
    (∃ nb, mgr.PeekNewestBuffer = some nb ∧ mi ≠ 0 ∧ nb.seconds = s ∧ nb.micros = mi ∧
        processChannel p len s mi mgr = (true, mgr.storeNewest (decodeFrame p))) ∨
    ((∀ nb, mgr.PeekNewestBuffer = some nb → mi = 0 ∨ nb.micros ≠ mi ∨ nb.seconds ≠ s) ∧
        processChannel p len s mi mgr = (true, { mgr with frames :=
          (if mgr.depth ≤ mgr.frames.length then mgr.frames.drop 1 else mgr.frames)
            ++ [decodeFrame p] })) := by
  by_cases hr : ∃ nb, mgr.PeekNewestBuffer = some nb ∧ mi ≠ 0 ∧ nb.seconds = s ∧ nb.micros = mi
  · obtain ⟨nb, h1, h2, h3, h4⟩ := hr
    exact Or.inl ⟨nb, h1, h2, h3, h4, processChannel_replace p len s mi mgr nb hlen h1 h2 h3 h4⟩
  · have hno : ∀ nb, mgr.PeekNewestBuffer = some nb → mi = 0 ∨ nb.micros ≠ mi ∨ nb.seconds ≠ s := by
      intro nb hnb
      by_contra hcon
      push_neg at hcon
      exact hr ⟨nb, hnb, hcon.1, hcon.2.2, hcon.2.1⟩
    exact Or.inr ⟨hno, processChannel_append p len s mi mgr hlen hno⟩

/-- A buffer with a newest frame is not empty. -/
theorem frames_ne_nil_of_newest (mgr : LEDBufferManager) (nb : LEDBuffer)
    (h : mgr.PeekNewestBuffer = some nb) : mgr.frames ≠ [] := by
  intro he
  unfold LEDBufferManager.PeekNewestBuffer at h
  rw [he] at h
  simp at h

/-- After a decodable frame has gone through `processChannel`, the buffer keeps
its depth, stays within it, and its newest frame is the decoded one. -/
theorem processChannel_inv (p : Memory) (len s mi : Nat) (mgr : LEDBufferManager)
    (hlen : STANDARD_DATA_HEADER_SIZE + DWORDFromMemory p 4 * sizeofCRGB ≤ len)
    (hd : 0 < mgr.depth) (hb : mgr.frames.length ≤ mgr.depth) :
    (processChannel p len s mi mgr).2.depth = mgr.depth ∧
    (processChannel p len s mi mgr).2.frames.length ≤ mgr.depth ∧
    (processChannel p len s mi mgr).2.PeekNewestBuffer = some (decodeFrame p) := by
  rcases processChannel_cases p len s mi mgr hlen with ⟨nb, h1, _, _, _, he⟩ | ⟨_, he⟩
  · rw [he]
    have hne := frames_ne_nil_of_newest mgr nb h1
    have hpos : 0 < mgr.frames.length := List.length_pos.mpr hne
    refine ⟨rfl, ?_, ?_⟩
    · simp only [LEDBufferManager.storeNewest, List.length_append, List.length_dropLast,
        List.length_singleton]
      omega
    · simp [LEDBufferManager.storeNewest, LEDBufferManager.PeekNewestBuffer]
  · rw [he]
    refine ⟨rfl, ?_, ?_⟩
    · simp only [List.length_append, List.length_singleton]
      split
      · simp only [List.length_drop]; omega
      · omega
    · simp [LEDBufferManager.PeekNewestBuffer]

/-- One call with a well-formed pixel payload, seen from one channel. -/
theorem step_channel (cfg : Config) (hw : cfg.INCOMING_WIFI_ENABLED = true)
    (p : Memory) (len : Nat) (g : Globals) (h : WellFormedPixelData cfg p len)
    (c : Nat) (mgr : LEDBufferManager) (hc : g.g_aptrBufferManager[c]? = some mgr) :
    (ProcessIncomingData cfg p len g).2.g_aptrBufferManager[c]? =
      some (if (channelMaskOf p).testBit c then
        (processChannel p len (ULONGFromMemory p 8) (ULONGFromMemory p 16) mgr).2
      else mgr) := by
  rw [(ProcessIncomingData_pixel cfg hw p len g h).2.2 c, hc]
  rfl

/-- Dispatching a sequence and then one more payload. -/
theorem dispatchAll_snoc (cfg : Config) (ps : List (Memory × Nat)) (p : Memory × Nat)
    (g : Globals) :
    dispatchAll cfg (ps ++ [p]) g = (ProcessIncomingData cfg p.1 p.2 (dispatchAll cfg ps g)).2 := by
  simp [dispatchAll, List.foldl_append]

/-- Dispatching a first payload and then a sequence. -/
theorem dispatchAll_cons (cfg : Config) (ps : List (Memory × Nat)) (p : Memory × Nat)
    (g : Globals) :
    dispatchAll cfg (p :: ps) g = dispatchAll cfg ps (ProcessIncomingData cfg p.1 p.2 g).2 := by
  simp [dispatchAll]

/-- Invariant of one channel along a sequence of well-formed frames that all
select it: depth kept, count within depth, newest frame the last one sent. -/
theorem dispatchAll_channel_inv (cfg : Config) (hw : cfg.INCOMING_WIFI_ENABLED = true)
    (c : Nat) (g : Globals) (mgr : LEDBufferManager)
    (hc : g.g_aptrBufferManager[c]? = some mgr)
    (hd : 0 < mgr.depth) (hb : mgr.frames.length ≤ mgr.depth) :
    ∀ ps : List (Memory × Nat),
      (∀ q ∈ ps, WellFormedPixelData cfg q.1 q.2 ∧ (channelMaskOf q.1).testBit c = true) →
      ∃ m, (dispatchAll cfg ps g).g_aptrBufferManager[c]? = some m ∧ m.depth = mgr.depth ∧
        m.frames.length ≤ m.depth ∧
        ∀ q, ps.getLast? = some q → m.PeekNewestBuffer = some (decodeFrame q.1) := by
  intro ps
  induction ps using List.reverseRecOn with
  | nil =>
    intro _
    exact ⟨mgr, hc, rfl, hb, by simp⟩
  | append_singleton ps p ih =>
    intro hall
    obtain ⟨m, hm, hmd, hmb, _⟩ := ih (fun q hq => hall q (List.mem_append_left _ hq))
    obtain ⟨hwf, hsel⟩ := hall p (by simp)
    have hstep := step_channel cfg hw p.1 p.2 (dispatchAll cfg ps g) hwf c m hm
    rw [hsel] at hstep
    simp only [↓reduceIte] at hstep
    have hinv := processChannel_inv p.1 p.2 (ULONGFromMemory p.1 8) (ULONGFromMemory p.1 16) m
      hwf.2 (by omega) hmb
    refine ⟨_, by rw [dispatchAll_snoc]; exact hstep, by rw [hinv.1, hmd], ?_, ?_⟩
    · rw [hinv.1]; exact hinv.2.1
    · intro q hq
      simp at hq
      subst hq
      exact hinv.2.2

/-! ## Properties of the ingestion path -/

/-- C1: for a well-formed PIXELDATA64 payload with 16-bit mask `m`, the call
returns true and channel `c` receives the frame (its buffer becomes the result
of the replace-or-append step, whose newest frame is the decoded payload)
exactly when bit `c` of `m'` is set, `m' = 1` for `m = 0` and `m' = m`
otherwise; a channel whose bit is clear keeps its buffer; a mask of 0 writes
channel 0 only. -/
theorem ProcessIncomingData_mask_fanout (cfg : Config)
    (hw : cfg.INCOMING_WIFI_ENABLED = true) (p : Memory) (len : Nat) (g : Globals)
    (h : WellFormedPixelData cfg p len) (c : Nat) (mgr : LEDBufferManager)
    (hc : g.g_aptrBufferManager[c]? = some mgr) :
    WORDFromMemory p 2 < 2 ^ 16 ∧
    (ProcessIncomingData cfg p len g).1 = true ∧
    (ProcessIncomingData cfg p len g).2.NUM_CHANNELS = g.NUM_CHANNELS ∧
    ((if WORDFromMemory p 2 = 0 then 1 else WORDFromMemory p 2).testBit c = true →
      (ProcessIncomingData cfg p len g).2.g_aptrBufferManager[c]? =
        some (processChannel p len (ULONGFromMemory p 8) (ULONGFromMemory p 16) mgr).2 ∧
      (processChannel p len (ULONGFromMemory p 8) (ULONGFromMemory p 16) mgr).2.PeekNewestBuffer =
        some (decodeFrame p)) ∧
    ((if WORDFromMemory p 2 = 0 then 1 else WORDFromMemory p 2).testBit c = false →
      (ProcessIncomingData cfg p len g).2.g_aptrBufferManager[c]? = some mgr) ∧
    (WORDFromMemory p 2 = 0 →
      (ProcessIncomingData cfg p len g).2.g_aptrBufferManager[c]? =
        some (if c = 0 then
          (processChannel p len (ULONGFromMemory p 8) (ULONGFromMemory p 16) mgr).2
        else mgr)) := by
  have hstep := step_channel cfg hw p len g h c mgr hc
  have hmask : channelMaskOf p = if WORDFromMemory p 2 = 0 then 1 else WORDFromMemory p 2 := rfl
  rw [hmask] at hstep
  refine ⟨?_, (ProcessIncomingData_pixel cfg hw p len g h).1,
    ProcessIncomingData_length cfg p len g, ?_, ?_, ?_⟩
  · have h0 : (p 2).toNat < 256 := UInt8.toNat_lt_size (p 2)
    have h1 : (p (2 + 1)).toNat < 256 := UInt8.toNat_lt_size (p (2 + 1))
    simp only [WORDFromMemory, readLE]
    omega
  · intro hb
    rw [hb] at hstep
    refine ⟨by simpa using hstep, ?_⟩
    rcases processChannel_cases p len (ULONGFromMemory p 8) (ULONGFromMemory p 16) mgr h.2
      with ⟨nb, _, _, _, _, he⟩ | ⟨_, he⟩
    · rw [he]; simp [LEDBufferManager.storeNewest, LEDBufferManager.PeekNewestBuffer]
    · rw [he]; simp [LEDBufferManager.PeekNewestBuffer]
  · intro hb
    rw [hb] at hstep
    simpa using hstep
  · intro hz
    rw [hz] at hstep
    simp only [↓reduceIte] at hstep
    rw [hstep]
    cases c with
    | zero => simp
    | succ c =>
      have : Nat.testBit 1 (c + 1) = false := by
        rw [show (1 : Nat) = 2 ^ 0 by rfl, Nat.testBit_two_pow]; simp
      simp [this]

/-- Witness for C1: a one-pixel frame with mask 2 reaches channel 1 of the
sample state. -/
theorem ProcessIncomingData_mask_fanout_witness :
    sampleConfig.INCOMING_WIFI_ENABLED = true ∧
    WellFormedPixelData sampleConfig (onePixelPayload 2 6 1) 27 ∧
    sampleGlobals.g_aptrBufferManager[1]? = some { depth := 2, frames := [] } ∧
    (ProcessIncomingData sampleConfig (onePixelPayload 2 6 1) 27 sampleGlobals).1 = true :=
  ⟨by decide, by decide, by decide,
    (ProcessIncomingData_mask_fanout sampleConfig (by decide) (onePixelPayload 2 6 1) 27
      sampleGlobals (by decide) 1 { depth := 2, frames := [] } (by decide)).2.1⟩

/-- C2 as stated fails when the microsecond field is 0: the newest frame of
channel 0 is stamped `(5, 0)`, a complete frame stamped `(5, 0)` arrives for
channel 0, and the buffer grows from one frame to two instead of being
overwritten in place. -/
theorem replace_in_place_fails_at_zero_micros :
    WellFormedPixelData sampleConfig (onePixelPayload 1 5 0) 27 ∧
    (channelMaskOf (onePixelPayload 1 5 0)).testBit 0 = true ∧
    (LEDBufferManager.mk 2 [greyFrame 5 0]).PeekNewestBuffer = some (greyFrame 5 0) ∧
    (greyFrame 5 0).seconds = ULONGFromMemory (onePixelPayload 1 5 0) 8 ∧
    (greyFrame 5 0).micros = ULONGFromMemory (onePixelPayload 1 5 0) 16 ∧
    (ProcessIncomingData sampleConfig (onePixelPayload 1 5 0) 27
        { g_aptrBufferManager := [{ depth := 2, frames := [greyFrame 5 0] }],
          peakBytes := [] }).2.g_aptrBufferManager =
      [{ depth := 2, frames := [greyFrame 5 0, decodeFrame (onePixelPayload 1 5 0)] }] := by
  decide

/-- C2 (amended): for a well-formed PIXELDATA64 payload whose microsecond field
is not 0 and a channel selected by the mask, if the newest frame of that
channel carries exactly the incoming seconds and microseconds, the call
overwrites that frame in place: the older frames and the frame count are
unchanged and the newest frame holds the pixels of the payload. -/
theorem ProcessIncomingData_replace_in_place (cfg : Config)
    (hw : cfg.INCOMING_WIFI_ENABLED = true) (p : Memory) (len : Nat) (g : Globals)
    (h : WellFormedPixelData cfg p len) (c : Nat) (mgr : LEDBufferManager) (nb : LEDBuffer)
    (hc : g.g_aptrBufferManager[c]? = some mgr)
    (hsel : (channelMaskOf p).testBit c = true)
    (hnew : mgr.PeekNewestBuffer = some nb)
    (hs : nb.seconds = ULONGFromMemory p 8) (hm : nb.micros = ULONGFromMemory p 16)
    (hmi : ULONGFromMemory p 16 ≠ 0) :
    ∃ mgr1, (ProcessIncomingData cfg p len g).2.g_aptrBufferManager[c]? = some mgr1 ∧
      mgr1.depth = mgr.depth ∧
      mgr1.BufferCount = mgr.BufferCount ∧
      mgr1.frames = mgr.frames.dropLast ++ [decodeFrame p] ∧
      mgr1.PeekNewestBuffer = some (decodeFrame p) ∧
      (decodeFrame p).leds = pixelsFromWire p (DWORDFromMemory p 4) ∧
      (decodeFrame p).seconds = nb.seconds ∧ (decodeFrame p).micros = nb.micros := by
  have hstep := step_channel cfg hw p len g h c mgr hc
  rw [hsel, processChannel_replace p len _ _ mgr nb h.2 hnew hmi hs hm] at hstep
  simp only [↓reduceIte] at hstep
  have hne := frames_ne_nil_of_newest mgr nb hnew
  have hpos : 0 < mgr.frames.length := List.length_pos.mpr hne
  refine ⟨_, hstep, rfl, ?_, rfl, ?_, rfl, hs.symm, hm.symm⟩
  · simp only [LEDBufferManager.BufferCount, LEDBufferManager.storeNewest, List.length_append,
      List.length_dropLast, List.length_singleton]
    omega
  · simp [LEDBufferManager.storeNewest, LEDBufferManager.PeekNewestBuffer]

/-- Witness for C2 (amended): a frame stamped `(5, 7)` arriving for channel 0
of the sample state, whose newest frame is stamped `(5, 7)`. -/
theorem ProcessIncomingData_replace_in_place_witness :
    WellFormedPixelData sampleConfig (onePixelPayload 1 5 7) 27 ∧
    ULONGFromMemory (onePixelPayload 1 5 7) 16 ≠ 0 ∧
    ∃ mgr1, (ProcessIncomingData sampleConfig (onePixelPayload 1 5 7) 27
        sampleGlobals).2.g_aptrBufferManager[0]? = some mgr1 ∧
      mgr1.depth = 2 ∧
      mgr1.BufferCount = (LEDBufferManager.mk 2 [greyFrame 5 7]).BufferCount ∧
      mgr1.frames = [greyFrame 5 7].dropLast ++ [decodeFrame (onePixelPayload 1 5 7)] ∧
      mgr1.PeekNewestBuffer = some (decodeFrame (onePixelPayload 1 5 7)) ∧
      (decodeFrame (onePixelPayload 1 5 7)).leds =
        pixelsFromWire (onePixelPayload 1 5 7) (DWORDFromMemory (onePixelPayload 1 5 7) 4) ∧
      (decodeFrame (onePixelPayload 1 5 7)).seconds = (greyFrame 5 7).seconds ∧
      (decodeFrame (onePixelPayload 1 5 7)).micros = (greyFrame 5 7).micros :=
  ⟨by decide, by decide,
    ProcessIncomingData_replace_in_place sampleConfig (by decide) (onePixelPayload 1 5 7) 27
      sampleGlobals (by decide) 0 { depth := 2, frames := [greyFrame 5 7] } (greyFrame 5 7)
      (by decide) (by decide) (by decide) (by decide) (by decide) (by decide)⟩

/-- C3, the code at a failing input: a PIXELDATA64 header for channel 0 that
declares one pixel but is only 24 bytes long.  Channel 0 is full (depth 2, two
frames).  The call returns false, yet `GetNewBuffer` has already run: the
oldest frame is gone and an unpopulated frame sits in the newest slot. -/
theorem ProcessIncomingData_truncated_changes_buffer :
    TruncatedPixelData sampleConfig (memOf (wireHeader 3 1 1 9 1)) 24 ∧
    ProcessIncomingData sampleConfig (memOf (wireHeader 3 1 1 9 1)) 24
        { g_aptrBufferManager := [{ depth := 2, frames := [greyFrame 5 7, greyFrame 6 7] }],
          peakBytes := [] } =
      (false,
        { g_aptrBufferManager := [{ depth := 2, frames := [greyFrame 6 7, LEDBuffer.blank] }],
          peakBytes := [] }) := by
  decide

/-- C4: the command code is the little-endian 16-bit value of the first two
payload bytes, and a payload whose command code is neither
WIFI_COMMAND_PEAKDATA nor WIFI_COMMAND_PIXELDATA64 makes the call return false
and leaves the globals, hence every channel buffer, as they were. -/
theorem ProcessIncomingData_unknown_command (cfg : Config) (p : Memory) (len : Nat)
    (g : Globals)
    (h1 : command16 p ≠ cfg.WIFI_COMMAND_PEAKDATA)
    (h2 : command16 p ≠ cfg.WIFI_COMMAND_PIXELDATA64) :
    command16 p = (p 0).toNat + 256 * (p 1).toNat ∧
    command16 p = WORDFromMemory p 0 ∧
    (ProcessIncomingData cfg p len g).1 = false ∧
    (ProcessIncomingData cfg p len g).2 = g := by
  refine ⟨command16_eq p, ?_, ?_, ?_⟩
  · rw [command16_eq]; simp [WORDFromMemory, readLE]
  · rw [ProcessIncomingData_unknown cfg p len g h1 h2]
  · rw [ProcessIncomingData_unknown cfg p len g h1 h2]

/-- Witness for C4: command code 0x0107 is rejected on the sample state. -/
theorem ProcessIncomingData_unknown_command_witness :
    command16 (memOf [7, 1]) ≠ sampleConfig.WIFI_COMMAND_PEAKDATA ∧
    command16 (memOf [7, 1]) ≠ sampleConfig.WIFI_COMMAND_PIXELDATA64 ∧
    command16 (memOf [7, 1]) = ((memOf [7, 1]) 0).toNat + 256 * ((memOf [7, 1]) 1).toNat ∧
    command16 (memOf [7, 1]) = WORDFromMemory (memOf [7, 1]) 0 ∧
    (ProcessIncomingData sampleConfig (memOf [7, 1]) 2 sampleGlobals).1 = false ∧
    (ProcessIncomingData sampleConfig (memOf [7, 1]) 2 sampleGlobals).2 = sampleGlobals :=
  ⟨by decide, by decide,
    ProcessIncomingData_unknown_command sampleConfig (memOf [7, 1]) 2 sampleGlobals
      (by decide) (by decide)⟩

/-- C5 as stated fails, in two ways.  With `payloadLength = 1` two memory
images that agree on the only payload byte give different results, because
byte 1 is read as the high byte of the command code; and the one-byte payload
whose out-of-range neighbour completes the PEAKDATA code is accepted with true
instead of being rejected.  In a build with audio, a PEAKDATA payload of
exactly the 24 header bytes is accepted and the peaks are copied from the 8
bytes behind it: two memory images that agree on all 24 payload bytes give
different peaks. -/
theorem ProcessIncomingData_reads_past_short_payload :
    (memOf [4, 0]) 0 = (memOf [4, 1]) 0 ∧
    (ProcessIncomingData sampleConfig (memOf [4, 0]) 1 sampleGlobals).1 = true ∧
    (ProcessIncomingData sampleConfig (memOf [4, 1]) 1 sampleGlobals).1 = false ∧
    audioConfig.ENABLE_AUDIO = true ∧
    (∀ i, i < 24 →
      memOf (wireHeader 4 0 0 0 0 ++ [1]) i = memOf (wireHeader 4 0 0 0 0 ++ [2]) i) ∧
    (ProcessIncomingData audioConfig (memOf (wireHeader 4 0 0 0 0 ++ [1])) 24 sampleGlobals).1
      = true ∧
    (ProcessIncomingData audioConfig (memOf (wireHeader 4 0 0 0 0 ++ [1])) 24
      sampleGlobals).2.peakBytes = [1, 0, 0, 0, 0, 0, 0, 0] ∧
    (ProcessIncomingData audioConfig (memOf (wireHeader 4 0 0 0 0 ++ [2])) 24
      sampleGlobals).2.peakBytes = [2, 0, 0, 0, 0, 0, 0, 0] := by
  decide

/-- C5 (amended): for every payload of at least 24 bytes (and, for a PEAKDATA
command in a build with audio, of at least 24 + 8 * NUM_BANDS bytes), the call
reads no byte at an index at or beyond `payloadLength`: two memory images that
agree below `payloadLength` give the same returned flag and the same
globals. -/
theorem ProcessIncomingData_reads_below_length (cfg : Config) (p q : Memory) (len : Nat)
    (g : Globals)
    (hlen : STANDARD_DATA_HEADER_SIZE ≤ len)
    (hpeak : cfg.ENABLE_AUDIO = true → command16 p = cfg.WIFI_COMMAND_PEAKDATA →
      STANDARD_DATA_HEADER_SIZE + 8 * cfg.NUM_BANDS ≤ len)
    (hagree : ∀ i, i < len → p i = q i) :
    ProcessIncomingData cfg p len g = ProcessIncomingData cfg q len g := by
  unfold STANDARD_DATA_HEADER_SIZE at hlen
  have hcmd : command16 p = command16 q :=
    command16_congr p q (hagree 0 (by omega)) (hagree 1 (by omega))
  cases hw : cfg.INCOMING_WIFI_ENABLED
  · rw [ProcessIncomingData_disabled cfg hw, ProcessIncomingData_disabled cfg hw]
  · by_cases h1 : command16 p = cfg.WIFI_COMMAND_PEAKDATA
    · rw [ProcessIncomingData_peak cfg hw p len g h1,
        ProcessIncomingData_peak cfg hw q len g (hcmd ▸ h1)]
      cases ha : cfg.ENABLE_AUDIO
      · rfl
      · have hb := hpeak ha h1
        have : peakBytesFromWire p cfg.NUM_BANDS = peakBytesFromWire q cfg.NUM_BANDS := by
          unfold peakBytesFromWire
          apply List.map_congr_left
          intro k hk
          have hk' : k < 8 * cfg.NUM_BANDS := List.mem_range.mp hk
          exact hagree _ (by omega)
        simp [this]
    · by_cases h2 : command16 p = cfg.WIFI_COMMAND_PIXELDATA64
      · rw [ProcessIncomingData_pixel_eq cfg hw p len g h2,
          ProcessIncomingData_pixel_eq cfg hw q len g (hcmd ▸ h2)]
        have hmask : channelMaskOf p = channelMaskOf q := by
          unfold channelMaskOf WORDFromMemory
          rw [readLE_congr p q 2 2 (fun i hi => hagree i (by omega))]
        have hs : ULONGFromMemory p 8 = ULONGFromMemory q 8 :=
          readLE_congr p q 8 8 (fun i hi => hagree i (by omega))
        have hm : ULONGFromMemory p 16 = ULONGFromMemory q 16 :=
          readLE_congr p q 8 16 (fun i hi => hagree i (by omega))
        rw [hmask, hs, hm,
          channelLoop_congr p q len _ _ _ (UpdateFromWire_congr p q len hagree)]
      · rw [ProcessIncomingData_unknown cfg p len g h1 h2,
          ProcessIncomingData_unknown cfg q len g (hcmd ▸ h1) (hcmd ▸ h2)]

/-- Witness for C5 (amended): a 27-byte frame followed in memory by different
bytes gives the same result. -/
theorem ProcessIncomingData_reads_below_length_witness :
    STANDARD_DATA_HEADER_SIZE ≤ 27 ∧
    (∀ i, i < 27 → onePixelPayload 3 6 1 i = memOf (wireHeader 3 3 1 6 1 ++ [1, 2, 3, 8, 8]) i) ∧
    ProcessIncomingData sampleConfig (onePixelPayload 3 6 1) 27 sampleGlobals =
      ProcessIncomingData sampleConfig (memOf (wireHeader 3 3 1 6 1 ++ [1, 2, 3, 8, 8])) 27
        sampleGlobals :=
  ⟨by decide, by decide,
    ProcessIncomingData_reads_below_length sampleConfig (onePixelPayload 3 6 1)
      (memOf (wireHeader 3 3 1 6 1 ++ [1, 2, 3, 8, 8])) 27 sampleGlobals (by decide)
      (by decide) (by decide)⟩

/-- Frames in strict timestamp order differ in seconds or in microseconds. -/
theorem tsLt_ne (a b : LEDBuffer) (h : tsLt a b) : a.micros ≠ b.micros ∨ a.seconds ≠ b.seconds := by
  unfold tsLt at h
  omega

/-- C6: for every sequence of well-formed pixel frames with strictly
increasing timestamps dispatched to channel `c` (whose buffer starts within its
depth, the depth being at least 1), after each dispatch the frame count of the
channel is at most its depth and its newest frame is the frame just
dispatched.  A dispatch either overwrites a newest frame that carries the same
timestamp or appends, and from the second dispatch on it appends; on an append
into a full buffer the frame given up is the oldest one. -/
theorem channel_bounded_and_newest (cfg : Config) (hw : cfg.INCOMING_WIFI_ENABLED = true)
    (c : Nat) (g : Globals) (mgr : LEDBufferManager)
    (hc : g.g_aptrBufferManager[c]? = some mgr)
    (hd : 0 < mgr.depth) (hb : mgr.BufferCount ≤ mgr.depth)
    (ps : List (Memory × Nat)) (p : Memory × Nat)
    (hall : ∀ q ∈ ps ++ [p],
      WellFormedPixelData cfg q.1 q.2 ∧ (channelMaskOf q.1).testBit c = true)
    (hinc : (ps ++ [p]).Pairwise (fun a b => tsLt (decodeFrame a.1) (decodeFrame b.1))) :
    ∃ before after,
      (dispatchAll cfg ps g).g_aptrBufferManager[c]? = some before ∧
      (dispatchAll cfg (ps ++ [p]) g).g_aptrBufferManager[c]? = some after ∧
      after.depth = mgr.depth ∧
      after.BufferCount ≤ after.depth ∧
      after.PeekNewestBuffer = some (decodeFrame p.1) ∧
      ((∃ nb, before.PeekNewestBuffer = some nb ∧ nb.seconds = (decodeFrame p.1).seconds ∧
          nb.micros = (decodeFrame p.1).micros ∧
          after.frames = before.frames.dropLast ++ [decodeFrame p.1]) ∨
        after.frames =
          (if before.BufferCount = before.depth then before.frames.drop 1 else before.frames)
            ++ [decodeFrame p.1]) ∧
      (ps ≠ [] → after.frames =
        (if before.BufferCount = before.depth then before.frames.drop 1 else before.frames)
          ++ [decodeFrame p.1]) := by
  obtain ⟨m, hm, hmd, hmb, hlast⟩ := dispatchAll_channel_inv cfg hw c g mgr hc hd hb ps
    (fun q hq => hall q (List.mem_append_left _ hq))
  obtain ⟨hwf, hsel⟩ := hall p (by simp)
  have hstep := step_channel cfg hw p.1 p.2 (dispatchAll cfg ps g) hwf c m hm
  rw [hsel] at hstep
  simp only [↓reduceIte] at hstep
  have hinv := processChannel_inv p.1 p.2 (ULONGFromMemory p.1 8) (ULONGFromMemory p.1 16) m
    hwf.2 (by omega) hmb
  have happ : ∀ r : Bool × LEDBufferManager,
      r = (true, { m with frames :=
        (if m.depth ≤ m.frames.length then m.frames.drop 1 else m.frames)
          ++ [decodeFrame p.1] }) →
      r.2.frames =
        (if m.BufferCount = m.depth then m.frames.drop 1 else m.frames) ++ [decodeFrame p.1] := by
    intro r hr
    rw [hr]
    simp only [LEDBufferManager.BufferCount]
    by_cases hfull : m.frames.length = m.depth
    · simp [hfull]
    · have : ¬ m.depth ≤ m.frames.length := by omega
      simp [hfull, this]
  refine ⟨m, _, hm, by rw [dispatchAll_snoc]; exact hstep, by rw [hinv.1, hmd], ?_, hinv.2.2,
    ?_, ?_⟩
  · show (processChannel _ _ _ _ m).2.frames.length ≤ (processChannel _ _ _ _ m).2.depth
    rw [hinv.1]; exact hinv.2.1
  · rcases processChannel_cases p.1 p.2 (ULONGFromMemory p.1 8) (ULONGFromMemory p.1 16) m hwf.2
      with ⟨nb, h1, _, h3, h4, he⟩ | ⟨_, he⟩
    · exact Or.inl ⟨nb, h1, h3, h4, by rw [he]; rfl⟩
    · exact Or.inr (happ _ he)
  · intro hne
    obtain ⟨q, hq⟩ : ∃ q, ps.getLast? = some q := by
      cases hl : ps.getLast? with
      | none => exact absurd (List.getLast?_eq_none_iff.mp hl) hne
      | some q => exact ⟨q, rfl⟩
    have hnewest := hlast q hq
    have hqmem : q ∈ ps := List.mem_of_getLast?_eq_some hq
    have hlt : tsLt (decodeFrame q.1) (decodeFrame p.1) :=
      (List.pairwise_append.mp hinc).2.2 q hqmem p (by simp)
    have hdiff := tsLt_ne _ _ hlt
    rcases processChannel_cases p.1 p.2 (ULONGFromMemory p.1 8) (ULONGFromMemory p.1 16) m hwf.2
      with ⟨nb, h1, _, h3, h4, _⟩ | ⟨_, he⟩
    · rw [hnewest] at h1
      cases h1
      exfalso
      rcases hdiff with h | h
      · exact h h4
      · exact h h3
    · exact happ _ he

/-- Witness for C6: two frames stamped `(6, 1)` and `(7, 1)` dispatched to
channel 0 of the sample state (depth 2, one frame held). -/
theorem channel_bounded_and_newest_witness :
    (∀ q ∈ [(onePixelPayload 1 6 1, 27)] ++ [(onePixelPayload 1 7 1, 27)],
      WellFormedPixelData sampleConfig q.1 q.2 ∧ (channelMaskOf q.1).testBit 0 = true) ∧
    List.Pairwise (fun (a b : Memory × Nat) => tsLt (decodeFrame a.1) (decodeFrame b.1))
      ([(onePixelPayload 1 6 1, 27)] ++ [(onePixelPayload 1 7 1, 27)]) ∧
    ∃ before after,
      (dispatchAll sampleConfig [(onePixelPayload 1 6 1, 27)]
        sampleGlobals).g_aptrBufferManager[0]? = some before ∧
      (dispatchAll sampleConfig ([(onePixelPayload 1 6 1, 27)] ++ [(onePixelPayload 1 7 1, 27)])
        sampleGlobals).g_aptrBufferManager[0]? = some after ∧
      after.depth = (LEDBufferManager.mk 2 [greyFrame 5 7]).depth ∧
      after.BufferCount ≤ after.depth ∧
      after.PeekNewestBuffer = some (decodeFrame (onePixelPayload 1 7 1)) ∧
      ((∃ nb, before.PeekNewestBuffer = some nb ∧
          nb.seconds = (decodeFrame (onePixelPayload 1 7 1)).seconds ∧
          nb.micros = (decodeFrame (onePixelPayload 1 7 1)).micros ∧
          after.frames = before.frames.dropLast ++ [decodeFrame (onePixelPayload 1 7 1)]) ∨
        after.frames =
          (if before.BufferCount = before.depth then before.frames.drop 1 else before.frames)
            ++ [decodeFrame (onePixelPayload 1 7 1)]) ∧
      ([(onePixelPayload 1 6 1, 27)] ≠ [] → after.frames =
        (if before.BufferCount = before.depth then before.frames.drop 1 else before.frames)
          ++ [decodeFrame (onePixelPayload 1 7 1)]) :=
  ⟨by decide, by decide,
    channel_bounded_and_newest sampleConfig (by decide) 0 sampleGlobals
      { depth := 2, frames := [greyFrame 5 7] } (by decide) (by decide) (by decide)
      [(onePixelPayload 1 6 1, 27)] (onePixelPayload 1 7 1, 27) (by decide) (by decide)⟩

/-- Frames of one channel stay in timestamp order when every frame that is
dispatched to the channel is at least as late as the frames already held and
as the frames dispatched before it. -/
theorem dispatchAll_sorted (cfg : Config) (hw : cfg.INCOMING_WIFI_ENABLED = true) (c : Nat) :
    ∀ (ps : List (Memory × Nat)) (g : Globals) (mgr : LEDBufferManager),
      g.g_aptrBufferManager[c]? = some mgr →
      mgr.frames.Pairwise tsLe →
      (∀ q ∈ ps, WellFormedPixelData cfg q.1 q.2) →
      ((ps.filter (fun q => (channelMaskOf q.1).testBit c)).map
        (fun q => decodeFrame q.1)).Pairwise tsLe →
      (∀ f ∈ mgr.frames, ∀ q ∈ ps, (channelMaskOf q.1).testBit c = true →
        tsLe f (decodeFrame q.1)) →
      ∃ m, (dispatchAll cfg ps g).g_aptrBufferManager[c]? = some m ∧ m.frames.Pairwise tsLe := by
  intro ps
  induction ps with
  | nil =>
    intro g mgr hc hs _ _ _
    exact ⟨mgr, hc, hs⟩
  | cons q ps ih =>
    intro g mgr hc hs hwf hord hbound
    have hq := hwf q (by simp)
    have hstep := step_channel cfg hw q.1 q.2 g hq c mgr hc
    rw [dispatchAll_cons]
    cases hsel : (channelMaskOf q.1).testBit c with
    | false =>
      rw [hsel] at hstep
      simp only [Bool.false_eq_true, ↓reduceIte] at hstep
      simp only [List.filter_cons, hsel, Bool.false_eq_true, ↓reduceIte] at hord
      exact ih _ mgr hstep hs (fun r hr => hwf r (List.mem_cons_of_mem _ hr)) hord
        (fun f hf r hr hb => hbound f hf r (List.mem_cons_of_mem _ hr) hb)
    | true =>
      rw [hsel] at hstep
      simp only [↓reduceIte] at hstep
      simp only [List.filter_cons, hsel, ↓reduceIte, List.map_cons, List.pairwise_cons] at hord
      have hle : ∀ f ∈ mgr.frames, tsLe f (decodeFrame q.1) :=
        fun f hf => hbound f hf q (by simp) hsel
      have hlater : ∀ r ∈ ps, (channelMaskOf r.1).testBit c = true →
          tsLe (decodeFrame q.1) (decodeFrame r.1) := by
        intro r hr hb
        apply hord.1
        exact List.mem_map.mpr ⟨r, List.mem_filter.mpr ⟨hr, hb⟩, rfl⟩
      have key : ∀ (l : List LEDBuffer), l.Sublist mgr.frames →
          (l ++ [decodeFrame q.1]).Pairwise tsLe ∧
          ∀ f ∈ l ++ [decodeFrame q.1], ∀ r ∈ ps, (channelMaskOf r.1).testBit c = true →
            tsLe f (decodeFrame r.1) := by
        intro l hl
        constructor
        · rw [List.pairwise_append]
          refine ⟨hs.sublist hl, List.pairwise_singleton _ _, ?_⟩
          intro a ha b hb
          simp only [List.mem_singleton] at hb
          subst hb
          exact hle a (hl.subset ha)
        · intro f hf r hr hb
          rcases List.mem_append.mp hf with h | h
          · exact hbound f (hl.subset h) r (List.mem_cons_of_mem _ hr) hb
          · simp only [List.mem_singleton] at h
            subst h
            exact hlater r hr hb
      rcases processChannel_cases q.1 q.2 (ULONGFromMemory q.1 8) (ULONGFromMemory q.1 16) mgr
        hq.2 with ⟨nb, _, _, _, _, he⟩ | ⟨_, he⟩
      · rw [he] at hstep
        have hk := key mgr.frames.dropLast (List.dropLast_sublist _)
        exact ih _ _ hstep hk.1 (fun r hr => hwf r (List.mem_cons_of_mem _ hr)) hord.2 hk.2
      · rw [he] at hstep
        have hk := key (if mgr.depth ≤ mgr.frames.length then mgr.frames.drop 1 else mgr.frames)
          (by split
              · exact List.drop_sublist _ _
              · exact List.Sublist.refl _)
        exact ih _ _ hstep hk.1 (fun r hr => hwf r (List.mem_cons_of_mem _ hr)) hord.2 hk.2

/-- C7 as stated fails: two complete frames for channel 0, the first stamped
`(9, 1)` and the second `(6, 1)`, dispatched to an empty buffer, are held in
arrival order, which is not timestamp order. -/
theorem frames_out_of_order_after_late_frame :
    WellFormedPixelData sampleConfig (onePixelPayload 1 9 1) 27 ∧
    WellFormedPixelData sampleConfig (onePixelPayload 1 6 1) 27 ∧
    (dispatchAll sampleConfig [(onePixelPayload 1 9 1, 27), (onePixelPayload 1 6 1, 27)]
        { g_aptrBufferManager := [{ depth := 4, frames := [] }],
          peakBytes := [] }).g_aptrBufferManager =
      [{ depth := 4,
         frames := [decodeFrame (onePixelPayload 1 9 1), decodeFrame (onePixelPayload 1 6 1)] }] ∧
    ¬ List.Pairwise tsLe
      [decodeFrame (onePixelPayload 1 9 1), decodeFrame (onePixelPayload 1 6 1)] := by
  decide

/-- C7 (amended): starting from an empty buffer of channel `c`, after every
sequence of calls carrying well-formed pixel frames in which the frames
addressed to channel `c` arrive with non-decreasing sender timestamps, the
frames held by channel `c` are in non-decreasing timestamp order from oldest to
newest. -/
theorem frames_sorted_when_sent_in_order (cfg : Config)
    (hw : cfg.INCOMING_WIFI_ENABLED = true) (c : Nat) (g : Globals) (mgr : LEDBufferManager)
    (hc : g.g_aptrBufferManager[c]? = some mgr) (hempty : mgr.frames = [])
    (ps : List (Memory × Nat))
    (hwf : ∀ q ∈ ps, WellFormedPixelData cfg q.1 q.2)
    (hord : ((ps.filter (fun q => (channelMaskOf q.1).testBit c)).map
      (fun q => decodeFrame q.1)).Pairwise tsLe) :
    ∃ m, (dispatchAll cfg ps g).g_aptrBufferManager[c]? = some m ∧ m.frames.Pairwise tsLe := by
  apply dispatchAll_sorted cfg hw c ps g mgr hc _ hwf hord
  · intro f hf
    rw [hempty] at hf
    simp at hf
  · rw [hempty]
    exact List.Pairwise.nil

/-- Witness for C7 (amended): frames stamped `(6, 1)`, `(6, 1)`, `(7, 0)`
dispatched to the empty channel 1 of the sample state. -/
theorem frames_sorted_when_sent_in_order_witness :
    (∀ q ∈ [(onePixelPayload 2 6 1, 27), (onePixelPayload 3 6 1, 27), (onePixelPayload 2 7 0, 27)],
      WellFormedPixelData sampleConfig q.1 q.2) ∧
    (([(onePixelPayload 2 6 1, 27), (onePixelPayload 3 6 1, 27),
        (onePixelPayload 2 7 0, 27)].filter (fun q => (channelMaskOf q.1).testBit 1)).map
      (fun q => decodeFrame q.1)).Pairwise tsLe ∧
    ∃ m, (dispatchAll sampleConfig
        [(onePixelPayload 2 6 1, 27), (onePixelPayload 3 6 1, 27), (onePixelPayload 2 7 0, 27)]
        sampleGlobals).g_aptrBufferManager[1]? = some m ∧ m.frames.Pairwise tsLe :=
  ⟨by decide, by decide,
    frames_sorted_when_sent_in_order sampleConfig (by decide) 1 sampleGlobals
      { depth := 2, frames := [] } (by decide) rfl
      [(onePixelPayload 2 6 1, 27), (onePixelPayload 3 6 1, 27), (onePixelPayload 2 7 0, 27)]
      (by decide) (by decide)⟩

/-! ## Lemmas about the effect manager -/

namespace EffectManager

/-- The index check of `EnableEffect`. -/
theorem EnableEffect_out_of_range (i : Nat) (m : EffectManager) (h : m._vEffects.length ≤ i) :
    EnableEffect i m = m := by
  unfold EnableEffect
  simp [h]

/-- Enabling an entry that is already enabled changes nothing. -/
theorem EnableEffect_of_enabled (i : Nat) (m : EffectManager)
    (h : m._abEffectEnabled.getD i false = true) : EnableEffect i m = m := by
  unfold EnableEffect
  simp only [h, Bool.not_true, Bool.false_eq_true, ↓reduceIte, ite_self]

/-- Enabling an in-range entry whose flag is clear. -/
theorem EnableEffect_of_disabled (i : Nat) (m : EffectManager) (hi : i < m._vEffects.length)
    (h : m._abEffectEnabled.getD i false = false) :
    (EnableEffect i m)._vEffects = m._vEffects ∧
    (EnableEffect i m)._abEffectEnabled = m._abEffectEnabled.set i true ∧
    (EnableEffect i m)._cEnabled = (m._cEnabled + 1) % SIZE_T_MOD ∧
    (EnableEffect i m)._iCurrentEffect = m._iCurrentEffect ∧
    (EnableEffect i m)._ptrRemoteEffect =
      (if m._cEnabled < 1 then none else m._ptrRemoteEffect) := by
  have hi' : ¬ m._vEffects.length ≤ i := by omega
  unfold EnableEffect
  simp only [ge_iff_le, hi', ↓reduceIte, h, Bool.not_false]
  by_cases hc : m._cEnabled < 1
  · simp only [hc, ↓reduceIte, ClearRemoteColor, and_self]
  · simp only [hc, ↓reduceIte, and_self]

/-- The catalog, the flags, the counter and the current index are not touched by
`SetGlobalColor`. -/
theorem SetGlobalColor_frame (cfg : EffectConfig) (now : Nat) (color : CRGB) (m : EffectManager) :
    (SetGlobalColor cfg now color m)._vEffects = m._vEffects ∧
    (SetGlobalColor cfg now color m)._abEffectEnabled = m._abEffectEnabled ∧
    (SetGlobalColor cfg now color m)._cEnabled = m._cEnabled ∧
    (SetGlobalColor cfg now color m)._iCurrentEffect = m._iCurrentEffect := by
  unfold SetGlobalColor
  simp only
  by_cases hm : cfg.USE_MATRIX = true
  · simp only [hm, ↓reduceIte, and_self]
  · simp only [hm, Bool.false_eq_true, ↓reduceIte]
    generalize (if color = CRGB.White then cfg.colorFillWhite
      else cfg.customColorEffect color m.lastManualColor) = effect
    by_cases h : effect.initOk = true
    · simp only [h, ↓reduceIte, StartEffect, and_self]
    · simp only [h, Bool.false_eq_true, ↓reduceIte, and_self]

/-- The index check of `DisableEffect`. -/
theorem DisableEffect_out_of_range (cfg : EffectConfig) (now i : Nat) (m : EffectManager)
    (h : m._vEffects.length ≤ i) : DisableEffect cfg now i m = m := by
  unfold DisableEffect
  simp [h]

/-- Disabling an entry that is already disabled changes nothing. -/
theorem DisableEffect_of_disabled (cfg : EffectConfig) (now i : Nat) (m : EffectManager)
    (h : m._abEffectEnabled.getD i false = false) : DisableEffect cfg now i m = m := by
  unfold DisableEffect
  simp only [h, Bool.false_eq_true, ↓reduceIte, ite_self]

/-- Disabling an in-range entry whose flag is set. -/
theorem DisableEffect_of_enabled (cfg : EffectConfig) (now i : Nat) (m : EffectManager)
    (hi : i < m._vEffects.length) (h : m._abEffectEnabled.getD i false = true) :
    (DisableEffect cfg now i m)._vEffects = m._vEffects ∧
    (DisableEffect cfg now i m)._abEffectEnabled = m._abEffectEnabled.set i false ∧
    (DisableEffect cfg now i m)._cEnabled = (m._cEnabled + SIZE_T_MOD - 1) % SIZE_T_MOD ∧
    (DisableEffect cfg now i m)._iCurrentEffect = m._iCurrentEffect := by
  have hi' : ¬ m._vEffects.length ≤ i := by omega
  unfold DisableEffect
  simp only [ge_iff_le, hi', ↓reduceIte, h]
  split
  · have hf := SetGlobalColor_frame cfg now CRGB.Black
      { m with _abEffectEnabled := m._abEffectEnabled.set i false,
               _cEnabled := (m._cEnabled + SIZE_T_MOD - 1) % SIZE_T_MOD }
    exact ⟨hf.1, hf.2.1, hf.2.2.1, hf.2.2.2⟩
  · exact ⟨rfl, rfl, rfl, rfl⟩

/-- Reading a flag array after one entry was written. -/
theorem getD_set_bool (l : List Bool) (i j : Nat) (b : Bool) (hi : i < l.length) :
    (l.set i b).getD j false = if j = i then b else l.getD j false := by
  simp only [List.getD_eq_getElem?_getD, List.getElem?_set]
  by_cases h : i = j
  · subst h; simp [hi]
  · have : ¬ j = i := fun e => h e.symm
    simp [h, this]

/-- Counting over a range depends only on the values inside the range. -/
theorem countP_range_congr (P Q : Nat → Bool) (n : Nat) (h : ∀ j, j < n → Q j = P j) :
    (List.range n).countP Q = (List.range n).countP P := by
  apply List.countP_congr
  intro j hj
  rw [h j (List.mem_range.mp hj)]

/-- Switching one counted position from false to true raises the count by one. -/
theorem countP_range_flip (P Q : Nat → Bool) :
    ∀ (n i : Nat), i < n → P i = false → Q i = true → (∀ j, j ≠ i → Q j = P j) →
      (List.range n).countP Q = (List.range n).countP P + 1 := by
  intro n
  induction n with
  | zero => intro i hi; omega
  | succ n ih =>
    intro i hi hP hQ hne
    rw [List.range_succ, List.countP_append, List.countP_append]
    by_cases hin : i = n
    · subst hin
      rw [countP_range_congr P Q i (fun j hj => hne j (by omega))]
      simp [hP, hQ]
    · have hn : Q n = P n := hne n (fun e => hin e.symm)
      have hc : List.countP Q [n] = List.countP P [n] := by
        simp only [List.countP_cons, List.countP_nil, hn]
      rw [ih i (by omega) hP hQ hne, hc]
      omega

/-- No more entries are enabled than there are effects. -/
theorem enabledEntries_le (m : EffectManager) : m.enabledEntries ≤ m._vEffects.length := by
  unfold enabledEntries EffectCount
  calc (List.range m._vEffects.length).countP (fun i => m.IsEffectEnabled i)
      ≤ (List.range m._vEffects.length).length := List.countP_le_length _
    _ = m._vEffects.length := List.length_range _

/-- Setting the flag of an in-range entry that was clear raises the number of
enabled entries by one; clearing one that was set lowers it by one. -/
theorem enabledEntries_flip (m r : EffectManager) (i : Nat) (b : Bool)
    (hv : r._vEffects = m._vEffects)
    (hf : r._abEffectEnabled = m._abEffectEnabled.set i b)
    (hlen : m._abEffectEnabled.length = m._vEffects.length)
    (hi : i < m._vEffects.length) (hold : m._abEffectEnabled.getD i false = !b) :
    (if b then m.enabledEntries + 1 else m.enabledEntries) =
      (if b then r.enabledEntries else r.enabledEntries + 1) := by
  have hi2 : i < m._abEffectEnabled.length := by omega
  have hr : ∀ j, r.IsEffectEnabled j =
      if j ≥ m._vEffects.length then false
      else if j = i then b else m._abEffectEnabled.getD j false := by
    intro j
    unfold IsEffectEnabled
    rw [hv, hf, getD_set_bool _ _ _ _ hi2]
  have hm : ∀ j, m.IsEffectEnabled j =
      if j ≥ m._vEffects.length then false else m._abEffectEnabled.getD j false := by
    intro j; rfl
  have hni : ¬ i ≥ m._vEffects.length := by omega
  unfold enabledEntries EffectCount
  rw [hv]
  cases b with
  | true =>
    simp only [↓reduceIte]
    symm
    apply countP_range_flip _ _ _ i hi
    · rw [hm, hold]; simp only [hni, ↓reduceIte, Bool.not_true]
    · rw [hr]; simp only [hni, ↓reduceIte]
    · intro j hj
      rw [hr, hm]; simp only [hj, ↓reduceIte]
  | false =>
    simp only [Bool.false_eq_true, ↓reduceIte]
    apply countP_range_flip _ _ _ i hi
    · rw [hr]; simp only [hni, ↓reduceIte]
    · rw [hm, hold]; simp only [hni, ↓reduceIte, Bool.not_false]
    · intro j hj
      rw [hm, hr]; simp only [hj, ↓reduceIte]

/-- Flags after `EnableEffect(i)`, whatever the state of entry `i`. -/
theorem EnableEffect_flags (i : Nat) (m : EffectManager)
    (hlen : m._abEffectEnabled.length = m._vEffects.length) :
    (EnableEffect i m)._vEffects = m._vEffects ∧
    (EnableEffect i m)._abEffectEnabled.length = m._vEffects.length ∧
    ∀ j, (EnableEffect i m)._abEffectEnabled.getD j false =
      if j = i ∧ i < m._vEffects.length then true else m._abEffectEnabled.getD j false := by
  by_cases hi : m._vEffects.length ≤ i
  · rw [EnableEffect_out_of_range i m hi]
    refine ⟨rfl, hlen, fun j => ?_⟩
    have : ¬ (j = i ∧ i < m._vEffects.length) := by omega
    simp only [this, ↓reduceIte]
  · have hi' : i < m._vEffects.length := by omega
    cases hf : m._abEffectEnabled.getD i false with
    | true =>
      rw [EnableEffect_of_enabled i m hf]
      refine ⟨rfl, hlen, fun j => ?_⟩
      by_cases hj : j = i
      · subst hj; simp only [hi', and_self, ↓reduceIte, hf]
      · simp only [hj, false_and, ↓reduceIte]
    | false =>
      obtain ⟨h1, h2, _⟩ := EnableEffect_of_disabled i m hi' hf
      refine ⟨h1, by rw [h2, List.length_set, hlen], fun j => ?_⟩
      rw [h2, getD_set_bool _ _ _ _ (by omega)]
      by_cases hj : j = i
      · simp only [hj, hi', and_self, ↓reduceIte]
      · simp only [hj, false_and, ↓reduceIte]

/-- The loop `for (i = 0; i < k; i++) EnableEffect(i)` sets the first `k` flags and
keeps the catalog. -/
theorem foldl_EnableEffect_range (m : EffectManager)
    (hlen : m._abEffectEnabled.length = m._vEffects.length) :
    ∀ k, k ≤ m._vEffects.length →
      ((List.range k).foldl (fun acc i => EnableEffect i acc) m)._vEffects = m._vEffects ∧
      ((List.range k).foldl (fun acc i => EnableEffect i acc) m)._abEffectEnabled.length =
        m._vEffects.length ∧
      (∀ i, i < k →
        ((List.range k).foldl (fun acc i => EnableEffect i acc) m)._abEffectEnabled.getD i false =
          true) := by
  intro k
  induction k with
  | zero =>
    intro _
    exact ⟨rfl, hlen, fun i hi => absurd hi (Nat.not_lt_zero i)⟩
  | succ k ih =>
    intro hk
    obtain ⟨h1, h2, h3⟩ := ih (by omega)
    rw [List.range_succ, List.foldl_append]
    simp only [List.foldl_cons, List.foldl_nil]
    obtain ⟨e1, e2, e3⟩ := EnableEffect_flags k
      ((List.range k).foldl (fun acc i => EnableEffect i acc) m) (by rw [h2, h1])
    refine ⟨by rw [e1, h1], by rw [e2, h1], fun i hi => ?_⟩
    rw [e3 i, h1]
    by_cases hik : i = k
    · have : k < m._vEffects.length := by omega
      simp only [hik, this, and_self, ↓reduceIte]
    · have : ¬ (i = k ∧ k < m._vEffects.length) := fun h => hik h.1
      simp only [this, ↓reduceIte]
      exact h3 i (by omega)

/-- C8: after `LoadEffectArray` with `n >= 1` effects the catalog holds exactly
those `n` effects in the given order, `IsEffectEnabled(i)` is true for every
`i < n`, the current effect index is 0 and play-all mode is off. -/
theorem LoadEffectArray_catalog (cfg : EffectConfig) (now : Nat)
    (pEffects : Nat → LEDStripEffect) (n : Nat) (m : EffectManager) (_hn : 1 ≤ n) :
    (LoadEffectArray cfg now pEffects n m)._vEffects = (List.range n).map pEffects ∧
    (LoadEffectArray cfg now pEffects n m).EffectCount = n ∧
    (∀ i, i < n → (LoadEffectArray cfg now pEffects n m)._vEffects[i]? = some (pEffects i)) ∧
    (∀ i, i < n → (LoadEffectArray cfg now pEffects n m).IsEffectEnabled i = true) ∧
    (LoadEffectArray cfg now pEffects n m).GetCurrentEffectIndex = 0 ∧
    (LoadEffectArray cfg now pEffects n m)._bPlayAll = false := by
  have hfold := foldl_EnableEffect_range
    { m with _vEffects := (List.range n).map pEffects,
             _abEffectEnabled := List.replicate ((List.range n).map pEffects).length false }
    (by simp) n (by simp)
  simp only at hfold
  obtain ⟨h1, _, h3⟩ := hfold
  have hv : (LoadEffectArray cfg now pEffects n m)._vEffects = (List.range n).map pEffects := by
    simp only [LoadEffectArray, ClearEffects, construct, SetInterval, List.nil_append,
      List.length_map, List.length_range] at h1 ⊢
    exact h1
  refine ⟨hv, by simp [EffectCount, hv], ?_, ?_, rfl, rfl⟩
  · intro i hi
    rw [hv]
    simp [hi]
  · intro i hi
    have hnot : ¬ i ≥ (LoadEffectArray cfg now pEffects n m)._vEffects.length := by
      rw [hv]; simp [hi]
    unfold IsEffectEnabled
    simp only [hnot, ↓reduceIte]
    simp only [LoadEffectArray, ClearEffects, construct, SetInterval, List.nil_append,
      List.length_map, List.length_range] at h3 ⊢
    exact h3 i hi

/-- Witness for C8: loading two effects into a blank manager. -/
theorem LoadEffectArray_catalog_witness :
    1 ≤ 2 ∧
    (LoadEffectArray sampleEffectConfig 7 sampleEffect 2 blankManager)._vEffects =
      (List.range 2).map sampleEffect ∧
    (LoadEffectArray sampleEffectConfig 7 sampleEffect 2 blankManager).EffectCount = 2 ∧
    (∀ i, i < 2 → (LoadEffectArray sampleEffectConfig 7 sampleEffect 2
      blankManager)._vEffects[i]? = some (sampleEffect i)) ∧
    (∀ i, i < 2 → (LoadEffectArray sampleEffectConfig 7 sampleEffect 2
      blankManager).IsEffectEnabled i = true) ∧
    (LoadEffectArray sampleEffectConfig 7 sampleEffect 2 blankManager).GetCurrentEffectIndex = 0 ∧
    (LoadEffectArray sampleEffectConfig 7 sampleEffect 2 blankManager)._bPlayAll = false :=
  ⟨by decide, LoadEffectArray_catalog sampleEffectConfig 7 sampleEffect 2 blankManager (by decide)⟩

/-- C9, the code at a failing input: after `LoadEffectArray` with two effects
both entries are enabled and `EnabledCount()` is 0, not 2, because
`construct()` resets `_cEnabled` after the `EnableEffect` loop has run.  After
a successful `DeserializeFromJSON` of two effects whose flags are both true,
`EnabledCount()` is 0 as well, while one entry is enabled. -/
theorem load_resets_enabled_count :
    (LoadEffectArray sampleEffectConfig 7 sampleEffect 2 blankManager).EnabledCount = 0 ∧
    (LoadEffectArray sampleEffectConfig 7 sampleEffect 2 blankManager).enabledEntries = 2 ∧
    (DeserializeFromJSON sampleEffectConfig 7 (fun k : Nat => some (sampleEffect k))
      { efs := some [0, 1], eef := some [true, true] } blankManager).1 = true ∧
    (DeserializeFromJSON sampleEffectConfig 7 (fun k : Nat => some (sampleEffect k))
      { efs := some [0, 1], eef := some [true, true] } blankManager).2.EnabledCount = 0 ∧
    (DeserializeFromJSON sampleEffectConfig 7 (fun k : Nat => some (sampleEffect k))
      { efs := some [0, 1], eef := some [true, true] } blankManager).2.enabledEntries = 1 := by
  decide

/-- C10: `EnableEffect(i)` and `DisableEffect(i)` preserve the counter
invariant.  In every state whose flag array has one entry per effect and in
which `EnabledCount()` equals the number of enabled entries, and for every
index `i`, in range or not, the equality holds again after the call, and the
count goes up by one (enable) or down by one (disable) exactly when the flag of
entry `i` flipped, and is unchanged otherwise. -/
theorem EnableEffect_DisableEffect_preserve_count (cfg : EffectConfig) (now : Nat)
    (m : EffectManager) (i : Nat)
    (hlen : m._abEffectEnabled.length = m._vEffects.length)
    (hsz : m._vEffects.length < SIZE_T_MOD)
    (hinv : m.EnabledCount = m.enabledEntries) :
    (EnableEffect i m).EnabledCount = (EnableEffect i m).enabledEntries ∧
    (EnableEffect i m).EnabledCount =
      m.EnabledCount + (if (EnableEffect i m).IsEffectEnabled i ≠ m.IsEffectEnabled i then 1 else 0) ∧
    (DisableEffect cfg now i m).EnabledCount = (DisableEffect cfg now i m).enabledEntries ∧
    (DisableEffect cfg now i m).EnabledCount +
      (if (DisableEffect cfg now i m).IsEffectEnabled i ≠ m.IsEffectEnabled i then 1 else 0) =
        m.EnabledCount := by
  have hle := enabledEntries_le m
  unfold EnabledCount at *
  by_cases hi : m._vEffects.length ≤ i
  · rw [EnableEffect_out_of_range i m hi, DisableEffect_out_of_range cfg now i m hi]
    simp [hinv]
  · have hi' : i < m._vEffects.length := by omega
    have hi2 : i < m._abEffectEnabled.length := by omega
    have hge : ¬ i ≥ m._vEffects.length := by omega
    have hmi : m.IsEffectEnabled i = m._abEffectEnabled.getD i false := by
      unfold IsEffectEnabled; simp only [hge, ↓reduceIte]
    cases hf : m._abEffectEnabled.getD i false with
    | true =>
      rw [EnableEffect_of_enabled i m hf]
      obtain ⟨d1, d2, d3, _⟩ := DisableEffect_of_enabled cfg now i m hi' hf
      have hflip := enabledEntries_flip m (DisableEffect cfg now i m) i false d1 d2 hlen hi'
        (by rw [hf]; rfl)
      simp only [Bool.false_eq_true, ↓reduceIte] at hflip
      have hdi : (DisableEffect cfg now i m).IsEffectEnabled i = false := by
        unfold IsEffectEnabled
        rw [d1, d2, getD_set_bool _ _ _ _ hi2]
        simp only [hge, ↓reduceIte]
      rw [hdi, hmi, hf, d3]
      unfold SIZE_T_MOD at *
      refine ⟨hinv, by simp, ?_, ?_⟩
      · omega
      · simp only [ne_eq, Bool.false_eq_true, not_false_eq_true, ↓reduceIte]
        omega
    | false =>
      rw [DisableEffect_of_disabled cfg now i m hf]
      obtain ⟨e1, e2, e3, _⟩ := EnableEffect_of_disabled i m hi' hf
      have hflip := enabledEntries_flip m (EnableEffect i m) i true e1 e2 hlen hi'
        (by rw [hf]; rfl)
      simp only [↓reduceIte] at hflip
      have hle2 := enabledEntries_le (EnableEffect i m)
      rw [e1] at hle2
      have hei : (EnableEffect i m).IsEffectEnabled i = true := by
        unfold IsEffectEnabled
        rw [e1, e2, getD_set_bool _ _ _ _ hi2]
        simp only [hge, ↓reduceIte]
      rw [hei, hmi, hf, e3]
      unfold SIZE_T_MOD at *
      refine ⟨?_, ?_, hinv, by simp⟩
      · omega
      · simp only [ne_eq, Bool.true_eq_false, not_false_eq_true, ↓reduceIte]
        omega

/-- Witness for C10: entry 2 of the three-effect manager (flags true, true,
false and a count of 2) is enabled, and disabling it changes nothing. -/
theorem EnableEffect_DisableEffect_preserve_count_witness :
    threeEffectManager._abEffectEnabled.length = threeEffectManager._vEffects.length ∧
    threeEffectManager._vEffects.length < SIZE_T_MOD ∧
    threeEffectManager.EnabledCount = threeEffectManager.enabledEntries ∧
    (EnableEffect 2 threeEffectManager).EnabledCount =
      (EnableEffect 2 threeEffectManager).enabledEntries ∧
    (EnableEffect 2 threeEffectManager).EnabledCount =
      threeEffectManager.EnabledCount +
        (if (EnableEffect 2 threeEffectManager).IsEffectEnabled 2 ≠
          threeEffectManager.IsEffectEnabled 2 then 1 else 0) ∧
    (DisableEffect sampleEffectConfig 9 2 threeEffectManager).EnabledCount =
      (DisableEffect sampleEffectConfig 9 2 threeEffectManager).enabledEntries ∧
    (DisableEffect sampleEffectConfig 9 2 threeEffectManager).EnabledCount +
      (if (DisableEffect sampleEffectConfig 9 2 threeEffectManager).IsEffectEnabled 2 ≠
        threeEffectManager.IsEffectEnabled 2 then 1 else 0) =
        threeEffectManager.EnabledCount :=
  ⟨by decide, by decide, by decide,
    EnableEffect_DisableEffect_preserve_count sampleEffectConfig 9 threeEffectManager 2
      (by decide) (by decide) (by decide)⟩

/-- The catalog is not touched by `EnableEffect`. -/
theorem EnableEffect_vEffects (i : Nat) (m : EffectManager) :
    (EnableEffect i m)._vEffects = m._vEffects := by
  by_cases hi : m._vEffects.length ≤ i
  · rw [EnableEffect_out_of_range i m hi]
  · cases hf : m._abEffectEnabled.getD i false with
    | true => rw [EnableEffect_of_enabled i m hf]
    | false => exact (EnableEffect_of_disabled i m (by omega) hf).1

/-- A loop of `EnableEffect` calls, whatever the indices, keeps the catalog. -/
theorem foldl_EnableEffect_vEffects (f : Nat → Nat) (l : List Nat) :
    ∀ m : EffectManager,
      (l.foldl (fun acc i => EnableEffect (f i) acc) m)._vEffects = m._vEffects := by
  induction l with
  | nil => intro m; rfl
  | cons a l ih =>
    intro m
    rw [List.foldl_cons, ih, EnableEffect_vEffects]

/-- `DeserializeFromJSON` on a document without an `"efs"` array. -/
theorem DeserializeFromJSON_no_efs {J : Type} (cfg : EffectConfig) (now : Nat)
    (create : J → Option LEDStripEffect) (doc : JsonDocument J) (m : EffectManager)
    (h : doc.efs = none) :
    DeserializeFromJSON cfg now create doc m = (false, ClearEffects m) := by
  unfold DeserializeFromJSON
  rw [h]

/-- `DeserializeFromJSON` on a document none of whose entries yields an
effect. -/
theorem DeserializeFromJSON_no_effect {J : Type} (cfg : EffectConfig) (now : Nat)
    (create : J → Option LEDStripEffect) (doc : JsonDocument J) (m : EffectManager)
    (arr : List J) (h : doc.efs = some arr) (hnil : arr.filterMap create = []) :
    DeserializeFromJSON cfg now create doc m = (false, ClearEffects m) := by
  unfold DeserializeFromJSON
  rw [h]
  simp only [hnil, List.length_nil, ↓reduceIte, ClearEffects]

/-- `DeserializeFromJSON` on a document with at least one usable effect. -/
theorem DeserializeFromJSON_some_effect {J : Type} (cfg : EffectConfig) (now : Nat)
    (create : J → Option LEDStripEffect) (doc : JsonDocument J) (m : EffectManager)
    (arr : List J) (h : doc.efs = some arr) (hne : arr.filterMap create ≠ []) :
    (DeserializeFromJSON cfg now create doc m).1 = true ∧
    (DeserializeFromJSON cfg now create doc m).2._vEffects = arr.filterMap create := by
  have hlen : ¬ (arr.filterMap create).length = 0 := by
    intro h0
    exact hne (List.length_eq_zero.mp h0)
  unfold DeserializeFromJSON
  rw [h]
  simp only [ClearEffects, hlen, ↓reduceIte, construct, SetInterval, true_and]
  exact foldl_EnableEffect_vEffects _ _ _

/-- C11: `DeserializeFromJSON` returns false if and only if the document has no
`"efs"` array or `CreateEffectFromJSON` returns null for every entry of it;
otherwise it returns true and the catalog consists of the successfully created
effects in document order. -/
theorem DeserializeFromJSON_result {J : Type} (cfg : EffectConfig) (now : Nat)
    (create : J → Option LEDStripEffect) (doc : JsonDocument J) (m : EffectManager) :
    ((DeserializeFromJSON cfg now create doc m).1 = false ↔
      (doc.efs = none ∨ ∃ arr, doc.efs = some arr ∧ ∀ x ∈ arr, create x = none)) ∧
    (∀ arr, doc.efs = some arr → (∃ x ∈ arr, create x ≠ none) →
      (DeserializeFromJSON cfg now create doc m).1 = true ∧
      (DeserializeFromJSON cfg now create doc m).2._vEffects = arr.filterMap create) := by
  have key : ∀ arr : List J, (arr.filterMap create = [] ↔ ∀ x ∈ arr, create x = none) :=
    fun arr => List.filterMap_eq_nil_iff
  constructor
  · cases hefs : doc.efs with
    | none =>
      rw [DeserializeFromJSON_no_efs cfg now create doc m hefs]
      simp
    | some arr =>
      by_cases hnil : arr.filterMap create = []
      · rw [DeserializeFromJSON_no_effect cfg now create doc m arr hefs hnil]
        simp only [true_iff]
        exact Or.inr ⟨arr, rfl, (key arr).mp hnil⟩
      · rw [(DeserializeFromJSON_some_effect cfg now create doc m arr hefs hnil).1]
        simp only [Bool.true_eq_false, false_iff, not_or, not_exists, not_and]
        refine ⟨by simp, ?_⟩
        intro arr2 harr2 hall
        cases harr2
        exact hnil ((key arr).mpr hall)
  · intro arr hefs hex
    apply DeserializeFromJSON_some_effect cfg now create doc m arr hefs
    intro hnil
    obtain ⟨x, hx, hxn⟩ := hex
    exact hxn ((key arr).mp hnil x hx)

/-- Witness for C11: a document whose second entry is not usable. -/
theorem DeserializeFromJSON_result_witness :
    ((DeserializeFromJSON sampleEffectConfig 7
        (fun k : Nat => if k = 1 then none else some (sampleEffect k))
        { efs := some [0, 1, 2], eef := none } blankManager).1 = true ∧
      (DeserializeFromJSON sampleEffectConfig 7
        (fun k : Nat => if k = 1 then none else some (sampleEffect k))
        { efs := some [0, 1, 2], eef := none } blankManager).2._vEffects =
          [0, 1, 2].filterMap (fun k : Nat => if k = 1 then none else some (sampleEffect k))) :=
  (DeserializeFromJSON_result sampleEffectConfig 7
    (fun k : Nat => if k = 1 then none else some (sampleEffect k))
    { efs := some [0, 1, 2], eef := none } blankManager).2 [0, 1, 2] rfl ⟨0, by decide, by decide⟩

/-- C12, the code at a failing input: a document with three usable effects and
`"eef" = [false]`.  The loop passes the flag itself, converted to an index, to
`EnableEffect`: `EnableEffect(0)` for the entry read as false and
`EnableEffect(1)` for the two defaulted entries.  The enabled state after the
load is `[true, true, false]`, not `[false, true, true]`. -/
theorem DeserializeFromJSON_enables_by_flag_value :
    (DeserializeFromJSON sampleEffectConfig 7 (fun k : Nat => some (sampleEffect k))
      { efs := some [0, 1, 2], eef := some [false] } blankManager).1 = true ∧
    (DeserializeFromJSON sampleEffectConfig 7 (fun k : Nat => some (sampleEffect k))
      { efs := some [0, 1, 2], eef := some [false] } blankManager).2.EffectCount = 3 ∧
    (List.range 3).map (fun i =>
      (DeserializeFromJSON sampleEffectConfig 7 (fun k : Nat => some (sampleEffect k))
        { efs := some [0, 1, 2], eef := some [false] } blankManager).2.IsEffectEnabled i) =
      [true, true, false] := by
  decide

/-- C13 as stated fails: a manager holding three effects is given a document
without an `"efs"` array.  The call returns false and the catalog is empty
afterwards. -/
theorem DeserializeFromJSON_failure_empties_catalog :
    threeEffectManager.EffectCount = 3 ∧
    (DeserializeFromJSON sampleEffectConfig 7 (fun k : Nat => some (sampleEffect k))
      { efs := none, eef := none } threeEffectManager).1 = false ∧
    (DeserializeFromJSON sampleEffectConfig 7 (fun k : Nat => some (sampleEffect k))
      { efs := none, eef := none } threeEffectManager).2.EffectCount = 0 := by
  decide

/-- C13 (amended): whenever `DeserializeFromJSON` returns false, the catalog has
been emptied by `ClearEffects()` and every other member of the manager,
among them the flag array, the enabled count and the current index, is as it
was before the call. -/
theorem DeserializeFromJSON_failure_state {J : Type} (cfg : EffectConfig) (now : Nat)
    (create : J → Option LEDStripEffect) (doc : JsonDocument J) (m : EffectManager)
    (h : (DeserializeFromJSON cfg now create doc m).1 = false) :
    (DeserializeFromJSON cfg now create doc m).2 = { m with _vEffects := [] } ∧
    (DeserializeFromJSON cfg now create doc m).2._abEffectEnabled = m._abEffectEnabled ∧
    (DeserializeFromJSON cfg now create doc m).2.EnabledCount = m.EnabledCount ∧
    (DeserializeFromJSON cfg now create doc m).2.GetCurrentEffectIndex =
      m.GetCurrentEffectIndex ∧
    (DeserializeFromJSON cfg now create doc m).2.EffectCount = 0 := by
  have hres : DeserializeFromJSON cfg now create doc m = (false, ClearEffects m) := by
    cases hefs : doc.efs with
    | none => exact DeserializeFromJSON_no_efs cfg now create doc m hefs
    | some arr =>
      by_cases hnil : arr.filterMap create = []
      · exact DeserializeFromJSON_no_effect cfg now create doc m arr hefs hnil
      · rw [(DeserializeFromJSON_some_effect cfg now create doc m arr hefs hnil).1] at h
        exact absurd h (by decide)
  rw [hres]
  exact ⟨rfl, rfl, rfl, rfl, rfl⟩

/-- Witness for C13 (amended): the three-effect manager and a document whose
only entry is not usable. -/
theorem DeserializeFromJSON_failure_state_witness :
    (DeserializeFromJSON sampleEffectConfig 7 (fun _ : Nat => none)
      { efs := some [0], eef := none } threeEffectManager).1 = false ∧
    (DeserializeFromJSON sampleEffectConfig 7 (fun _ : Nat => none)
      { efs := some [0], eef := none } threeEffectManager).2 =
        { threeEffectManager with _vEffects := [] } ∧
    (DeserializeFromJSON sampleEffectConfig 7 (fun _ : Nat => none)
      { efs := some [0], eef := none } threeEffectManager).2._abEffectEnabled =
        threeEffectManager._abEffectEnabled ∧
    (DeserializeFromJSON sampleEffectConfig 7 (fun _ : Nat => none)
      { efs := some [0], eef := none } threeEffectManager).2.EnabledCount =
        threeEffectManager.EnabledCount ∧
    (DeserializeFromJSON sampleEffectConfig 7 (fun _ : Nat => none)
      { efs := some [0], eef := none } threeEffectManager).2.GetCurrentEffectIndex =
        threeEffectManager.GetCurrentEffectIndex ∧
    (DeserializeFromJSON sampleEffectConfig 7 (fun _ : Nat => none)
      { efs := some [0], eef := none } threeEffectManager).2.EffectCount = 0 :=
  ⟨by decide,
    DeserializeFromJSON_failure_state sampleEffectConfig 7 (fun _ : Nat => none)
      { efs := some [0], eef := none } threeEffectManager (by decide)⟩

/-- The index check of `SetCurrentEffectIndex`. -/
theorem SetCurrentEffectIndex_out_of_range (now i : Nat) (m : EffectManager)
    (h : m._vEffects.length ≤ i) : SetCurrentEffectIndex now i m = m := by
  unfold SetCurrentEffectIndex
  simp [h]

/-- C14: for every index `i >= EffectCount()`, `EnableEffect(i)`,
`DisableEffect(i)` and `SetCurrentEffectIndex(i)` leave the whole manager
state unchanged, and `IsEffectEnabled(i)` returns false. -/
theorem out_of_range_index_changes_nothing (cfg : EffectConfig) (now : Nat)
    (m : EffectManager) (i : Nat) (h : m.EffectCount ≤ i) :
    EnableEffect i m = m ∧
    DisableEffect cfg now i m = m ∧
    SetCurrentEffectIndex now i m = m ∧
    m.IsEffectEnabled i = false := by
  unfold EffectCount at h
  refine ⟨EnableEffect_out_of_range i m h, DisableEffect_out_of_range cfg now i m h,
    SetCurrentEffectIndex_out_of_range now i m h, ?_⟩
  unfold IsEffectEnabled
  simp [h]

/-- Witness for C14: index 3 on the three-effect manager. -/
theorem out_of_range_index_changes_nothing_witness :
    threeEffectManager.EffectCount ≤ 3 ∧
    EnableEffect 3 threeEffectManager = threeEffectManager ∧
    DisableEffect sampleEffectConfig 9 3 threeEffectManager = threeEffectManager ∧
    SetCurrentEffectIndex 9 3 threeEffectManager = threeEffectManager ∧
    threeEffectManager.IsEffectEnabled 3 = false :=
  ⟨by decide,
    out_of_range_index_changes_nothing sampleEffectConfig 9 threeEffectManager 3 (by decide)⟩

/-- `DisableEffect` on an in-range entry whose flag is set, in full. -/
theorem DisableEffect_of_enabled_eq (cfg : EffectConfig) (now i : Nat) (m : EffectManager)
    (hi : i < m._vEffects.length) (h : m._abEffectEnabled.getD i false = true) :
    DisableEffect cfg now i m =
      if (m._cEnabled + SIZE_T_MOD - 1) % SIZE_T_MOD < 1 then
        SetGlobalColor cfg now CRGB.Black
          { m with _abEffectEnabled := m._abEffectEnabled.set i false,
                   _cEnabled := (m._cEnabled + SIZE_T_MOD - 1) % SIZE_T_MOD }
      else
        { m with _abEffectEnabled := m._abEffectEnabled.set i false,
                 _cEnabled := (m._cEnabled + SIZE_T_MOD - 1) % SIZE_T_MOD } := by
  have hi' : ¬ m._vEffects.length ≤ i := by omega
  unfold DisableEffect
  simp only [ge_iff_le, hi', ↓reduceIte, h]

/-- `SetGlobalColor` in a strip build when the transient effect initialises:
the effect becomes the override and is started. -/
theorem SetGlobalColor_installs (cfg : EffectConfig) (now : Nat) (color : CRGB)
    (m : EffectManager) (hstrip : cfg.USE_MATRIX = false)
    (hinit : (if color = CRGB.White then cfg.colorFillWhite
      else cfg.customColorEffect color m.lastManualColor).initOk = true) :
    SetGlobalColor cfg now color m =
      { m with
        lastManualColor := color
        _ptrRemoteEffect := some (if color = CRGB.White then cfg.colorFillWhite
          else cfg.customColorEffect color m.lastManualColor)
        _effectStartTime := now } := by
  unfold SetGlobalColor
  simp only [hstrip, Bool.false_eq_true, ↓reduceIte, hinit, StartEffect]

/-- `SetGlobalColor` in a strip build when the transient effect fails to
initialise: only the remembered colour changes. -/
theorem SetGlobalColor_init_fails (cfg : EffectConfig) (now : Nat) (color : CRGB)
    (m : EffectManager) (hstrip : cfg.USE_MATRIX = false)
    (hinit : (if color = CRGB.White then cfg.colorFillWhite
      else cfg.customColorEffect color m.lastManualColor).initOk = false) :
    SetGlobalColor cfg now color m = { m with lastManualColor := color } := by
  unfold SetGlobalColor
  simp only [hstrip, Bool.false_eq_true, ↓reduceIte, hinit]

/-- When entry `i` is enabled and in range, the flag read by `IsEffectEnabled`
is the array entry. -/
theorem getD_of_IsEffectEnabled (m : EffectManager) (i : Nat)
    (h : m.IsEffectEnabled i = true) :
    i < m._vEffects.length ∧ m._abEffectEnabled.getD i false = true := by
  unfold IsEffectEnabled at h
  by_cases hi : i ≥ m._vEffects.length
  · simp only [hi, ↓reduceIte] at h
    exact absurd h (by decide)
  · simp only [hi, ↓reduceIte] at h
    exact ⟨by omega, h⟩

/-- C15, the claim at a concrete input: a matrix build whose transient effects
would initialise, and a three-effect manager whose only enabled entry is 0,
the counter in step with the flags.  `DisableEffect(0)` brings the counter to 0
and calls `SetGlobalColor(CRGB::Black)`, which in a matrix build changes the
palette only: no remote override is installed. -/
theorem DisableEffect_last_enabled_matrix_build_installs_nothing :
    ({ sampleEffectConfig with USE_MATRIX := true }).USE_MATRIX = true ∧
    (({ sampleEffectConfig with USE_MATRIX := true }).customColorEffect CRGB.Black
      oneEnabledManager.lastManualColor).initOk = true ∧
    oneEnabledManager.EnabledCount = oneEnabledManager.enabledEntries ∧
    oneEnabledManager.enabledEntries = 1 ∧
    oneEnabledManager.IsEffectEnabled 0 = true ∧
    (DisableEffect { sampleEffectConfig with USE_MATRIX := true } 9 0
      oneEnabledManager).EnabledCount = 0 ∧
    (DisableEffect { sampleEffectConfig with USE_MATRIX := true } 9 0
      oneEnabledManager)._ptrRemoteEffect = none := by
  decide

/-- C15 as amended: in every state that satisfies the counter invariant with
exactly one enabled entry `i`, `DisableEffect(i)` makes `EnabledCount()` equal
0, in every build and whatever the transient effect does; in a strip build
whose transient effect for black initialises it leaves that effect installed
as the remote override, and in a matrix build it leaves the remote override
as it was; disabling an entry while another entry is enabled leaves the
remote override as it was. -/
theorem DisableEffect_last_enabled_installs_override (cfg : EffectConfig) (now : Nat)
    (m : EffectManager) (i : Nat)
    (hlen : m._abEffectEnabled.length = m._vEffects.length)
    (hsz : m._vEffects.length < SIZE_T_MOD)
    (hinv : m.EnabledCount = m.enabledEntries) :
    (m.enabledEntries = 1 → m.IsEffectEnabled i = true →
      (DisableEffect cfg now i m).EnabledCount = 0 ∧
      (cfg.USE_MATRIX = false →
        (cfg.customColorEffect CRGB.Black m.lastManualColor).initOk = true →
        (DisableEffect cfg now i m)._ptrRemoteEffect =
          some (cfg.customColorEffect CRGB.Black m.lastManualColor)) ∧
      (cfg.USE_MATRIX = true →
        (DisableEffect cfg now i m)._ptrRemoteEffect = m._ptrRemoteEffect)) ∧
    (∀ j, j ≠ i → m.IsEffectEnabled j = true →
      (DisableEffect cfg now i m)._ptrRemoteEffect = m._ptrRemoteEffect) := by
  unfold EnabledCount at *
  constructor
  · intro hone hi
    obtain ⟨hir, hflag⟩ := getD_of_IsEffectEnabled m i hi
    have hc : m._cEnabled = 1 := by rw [hinv, hone]
    have hzero : (m._cEnabled + SIZE_T_MOD - 1) % SIZE_T_MOD = 0 := by
      rw [hc]; unfold SIZE_T_MOD; decide
    have hbw : CRGB.Black ≠ CRGB.White := by decide
    refine ⟨?_, ?_, ?_⟩
    · rw [(DisableEffect_of_enabled cfg now i m hir hflag).2.2.1, hzero]
    · intro hstrip hinit
      rw [DisableEffect_of_enabled_eq cfg now i m hir hflag, hzero]
      simp only [Nat.lt_one_iff, ↓reduceIte]
      rw [SetGlobalColor_installs cfg now CRGB.Black _ hstrip
        (by simpa only [hbw, ↓reduceIte] using hinit)]
      simp only [hbw, ↓reduceIte]
    · intro hmatrix
      rw [DisableEffect_of_enabled_eq cfg now i m hir hflag, hzero]
      simp only [Nat.lt_one_iff, ↓reduceIte]
      unfold SetGlobalColor
      simp only [hmatrix, ↓reduceIte]
  · intro j hji hj
    by_cases hi : m.IsEffectEnabled i = true
    · obtain ⟨hir, hflag⟩ := getD_of_IsEffectEnabled m i hi
      obtain ⟨hjr, hjflag⟩ := getD_of_IsEffectEnabled m j hj
      obtain ⟨d1, d2, _, _⟩ := DisableEffect_of_enabled cfg now i m hir hflag
      have hflip := enabledEntries_flip m (DisableEffect cfg now i m) i false d1 d2 hlen hir
        (by rw [hflag]; rfl)
      simp only [Bool.false_eq_true, ↓reduceIte] at hflip
      have hjafter : (DisableEffect cfg now i m).IsEffectEnabled j = true := by
        unfold IsEffectEnabled
        rw [d1, d2, getD_set_bool _ _ _ _ (by omega)]
        have : ¬ j ≥ m._vEffects.length := by omega
        simp only [this, ↓reduceIte, hji, hjflag]
      have hpos : 0 < (DisableEffect cfg now i m).enabledEntries := by
        unfold enabledEntries
        rw [List.countP_pos_iff]
        refine ⟨j, List.mem_range.mpr ?_, hjafter⟩
        unfold EffectCount
        rw [d1]; exact hjr
      have hle := enabledEntries_le m
      have hnz : ¬ (m._cEnabled + SIZE_T_MOD - 1) % SIZE_T_MOD < 1 := by
        unfold SIZE_T_MOD at *
        omega
      rw [DisableEffect_of_enabled_eq cfg now i m hir hflag]
      simp only [hnz, ↓reduceIte]
    · by_cases hir : m._vEffects.length ≤ i
      · rw [DisableEffect_out_of_range cfg now i m hir]
      · have hflag : m._abEffectEnabled.getD i false = false := by
          unfold IsEffectEnabled at hi
          have : ¬ i ≥ m._vEffects.length := by omega
          simp only [this, ↓reduceIte] at hi
          cases hb : m._abEffectEnabled.getD i false with
          | true => exact absurd hb hi
          | false => rfl
        rw [DisableEffect_of_disabled cfg now i m hflag]

/-- Witness for C15 as amended: disabling the only enabled entry of a
three-effect manager in a strip build, and disabling entry 0 of one in which
entry 1 is enabled as well. -/
theorem DisableEffect_last_enabled_installs_override_witness :
    oneEnabledManager._abEffectEnabled.length = oneEnabledManager._vEffects.length ∧
    oneEnabledManager._vEffects.length < SIZE_T_MOD ∧
    oneEnabledManager.EnabledCount = oneEnabledManager.enabledEntries ∧
    oneEnabledManager.enabledEntries = 1 ∧
    oneEnabledManager.IsEffectEnabled 0 = true ∧
    ((DisableEffect sampleEffectConfig 9 0 oneEnabledManager).EnabledCount = 0 ∧
      (sampleEffectConfig.USE_MATRIX = false →
        (sampleEffectConfig.customColorEffect CRGB.Black
          oneEnabledManager.lastManualColor).initOk = true →
        (DisableEffect sampleEffectConfig 9 0 oneEnabledManager)._ptrRemoteEffect =
          some (sampleEffectConfig.customColorEffect CRGB.Black
            oneEnabledManager.lastManualColor)) ∧
      (sampleEffectConfig.USE_MATRIX = true →
        (DisableEffect sampleEffectConfig 9 0 oneEnabledManager)._ptrRemoteEffect =
          oneEnabledManager._ptrRemoteEffect)) ∧
    (DisableEffect sampleEffectConfig 9 0 oneEnabledManager)._ptrRemoteEffect =
      some (sampleEffectConfig.customColorEffect CRGB.Black oneEnabledManager.lastManualColor) ∧
    threeEffectManager.IsEffectEnabled 1 = true ∧
    (DisableEffect sampleEffectConfig 9 0 threeEffectManager)._ptrRemoteEffect =
      threeEffectManager._ptrRemoteEffect :=
  ⟨by decide, by decide, by decide, by decide, by decide,
    (DisableEffect_last_enabled_installs_override sampleEffectConfig 9 oneEnabledManager 0
      (by decide) (by decide) (by decide)).1 (by decide) (by decide),
    by decide, by decide,
    (DisableEffect_last_enabled_installs_override sampleEffectConfig 9 threeEffectManager 0
      (by decide) (by decide) (by decide)).2 1 (by decide) (by decide)⟩

/-- C16, the code at a failing input: two effects are loaded with
`LoadEffectArray` and both are disabled, in a strip build whose transient
effects initialise.  The load leaves `EnabledCount()` at 0, so the two
decrements wrap around to 2^32 - 2: the count is not 0 and no remote override
is installed. -/
theorem disable_all_after_load_installs_nothing :
    (DisableEffect sampleEffectConfig 9 1
      (DisableEffect sampleEffectConfig 8 0
        (LoadEffectArray sampleEffectConfig 7 sampleEffect 2 blankManager))).EnabledCount =
      4294967294 ∧
    (DisableEffect sampleEffectConfig 9 1
      (DisableEffect sampleEffectConfig 8 0
        (LoadEffectArray sampleEffectConfig 7 sampleEffect 2 blankManager)))._ptrRemoteEffect =
      none ∧
    (List.range 2).map (fun i =>
      (DisableEffect sampleEffectConfig 9 1
        (DisableEffect sampleEffectConfig 8 0
          (LoadEffectArray sampleEffectConfig 7 sampleEffect 2 blankManager))).IsEffectEnabled i) =
      [false, false] := by
  decide

/-- C17: in every state with `EnabledCount() == 0` and entry `i` in range and
disabled, `EnableEffect(i)` removes any installed remote override and makes
`EnabledCount()` equal 1; when `EnabledCount() >= 1` before the call,
`EnableEffect` leaves the remote override as it was. -/
theorem EnableEffect_first_clears_override (m : EffectManager) (i : Nat) :
    (m.EnabledCount = 0 → i < m.EffectCount → m.IsEffectEnabled i = false →
      (EnableEffect i m)._ptrRemoteEffect = none ∧ (EnableEffect i m).EnabledCount = 1) ∧
    (1 ≤ m.EnabledCount → (EnableEffect i m)._ptrRemoteEffect = m._ptrRemoteEffect) := by
  unfold EnabledCount EffectCount
  constructor
  · intro hc hi hdis
    have hflag : m._abEffectEnabled.getD i false = false := by
      unfold IsEffectEnabled at hdis
      have : ¬ i ≥ m._vEffects.length := by omega
      simpa only [this, ↓reduceIte] using hdis
    obtain ⟨_, _, e3, _, e5⟩ := EnableEffect_of_disabled i m hi hflag
    rw [e3, e5, hc]
    exact ⟨by simp, by unfold SIZE_T_MOD; decide⟩
  · intro hc
    by_cases hi : m._vEffects.length ≤ i
    · rw [EnableEffect_out_of_range i m hi]
    · cases hf : m._abEffectEnabled.getD i false with
      | true => rw [EnableEffect_of_enabled i m hf]
      | false =>
        obtain ⟨_, _, _, _, e5⟩ := EnableEffect_of_disabled i m (by omega) hf
        rw [e5]
        have : ¬ m._cEnabled < 1 := by omega
        simp only [this, ↓reduceIte]

/-- Witness for C17: enabling entry 1 of a manager with nothing enabled and an
override installed, and enabling entry 2 of one whose count is 2. -/
theorem EnableEffect_first_clears_override_witness :
    allDisabledManager.EnabledCount = 0 ∧
    1 < allDisabledManager.EffectCount ∧
    allDisabledManager.IsEffectEnabled 1 = false ∧
    allDisabledManager._ptrRemoteEffect ≠ none ∧
    ((EnableEffect 1 allDisabledManager)._ptrRemoteEffect = none ∧
      (EnableEffect 1 allDisabledManager).EnabledCount = 1) ∧
    1 ≤ threeEffectManager.EnabledCount ∧
    (EnableEffect 2 threeEffectManager)._ptrRemoteEffect = threeEffectManager._ptrRemoteEffect :=
  ⟨by decide, by decide, by decide, by decide,
    (EnableEffect_first_clears_override allDisabledManager 1).1 (by decide) (by decide)
      (by decide),
    by decide,
    (EnableEffect_first_clears_override threeEffectManager 2).2 (by decide)⟩

/-- C18 as stated fails: in a strip build whose transient effect does not
initialise, `SetGlobalColor(CRGB::Black)` leaves a state that differs from the
one before: the remembered last manual colour has changed from red to
black. -/
theorem SetGlobalColor_failed_init_changes_colour :
    failingInitConfig.USE_MATRIX = false ∧
    (failingInitConfig.customColorEffect CRGB.Black threeEffectManager.lastManualColor).initOk =
      false ∧
    SetGlobalColor failingInitConfig 9 CRGB.Black threeEffectManager ≠ threeEffectManager ∧
    threeEffectManager.lastManualColor = CRGB.Red ∧
    (SetGlobalColor failingInitConfig 9 CRGB.Black threeEffectManager).lastManualColor =
      CRGB.Black := by
  decide

/-- C18 (amended): if the transient effect built by `SetGlobalColor(color)`
fails to initialise, the state after the call is the state before it with the
remembered last manual colour set to `color`: the installed override (or its
absence), the current index and the effect start time are unchanged. -/
theorem SetGlobalColor_failed_init_state (cfg : EffectConfig) (now : Nat) (color : CRGB)
    (m : EffectManager) (hstrip : cfg.USE_MATRIX = false)
    (hinit : (if color = CRGB.White then cfg.colorFillWhite
      else cfg.customColorEffect color m.lastManualColor).initOk = false) :
    SetGlobalColor cfg now color m = { m with lastManualColor := color } ∧
    (SetGlobalColor cfg now color m)._ptrRemoteEffect = m._ptrRemoteEffect ∧
    (SetGlobalColor cfg now color m).GetCurrentEffectIndex = m.GetCurrentEffectIndex ∧
    (SetGlobalColor cfg now color m)._effectStartTime = m._effectStartTime := by
  rw [SetGlobalColor_init_fails cfg now color m hstrip hinit]
  exact ⟨rfl, rfl, rfl, rfl⟩

/-- Witness for C18 (amended): white requested from a manager with an override
installed, in the build whose transient effects do not initialise. -/
theorem SetGlobalColor_failed_init_state_witness :
    failingInitConfig.USE_MATRIX = false ∧
    (if CRGB.White = CRGB.White then failingInitConfig.colorFillWhite
      else failingInitConfig.customColorEffect CRGB.White
        allDisabledManager.lastManualColor).initOk = false ∧
    SetGlobalColor failingInitConfig 9 CRGB.White allDisabledManager =
      { allDisabledManager with lastManualColor := CRGB.White } ∧
    (SetGlobalColor failingInitConfig 9 CRGB.White allDisabledManager)._ptrRemoteEffect =
      allDisabledManager._ptrRemoteEffect ∧
    (SetGlobalColor failingInitConfig 9 CRGB.White allDisabledManager).GetCurrentEffectIndex =
      allDisabledManager.GetCurrentEffectIndex ∧
    (SetGlobalColor failingInitConfig 9 CRGB.White allDisabledManager)._effectStartTime =
      allDisabledManager._effectStartTime :=
  ⟨by decide, by decide,
    SetGlobalColor_failed_init_state failingInitConfig 9 CRGB.White allDisabledManager
      (by decide) (by decide)⟩

/-- C19: `SetGlobalColor`, whether or not the transient effect initialises and
in every build, and `ClearRemoteColor` never change the current effect index,
the catalog, the enabled flags or the enabled count; `ClearRemoteColor` always
leaves no override installed. -/
theorem override_does_not_touch_selection (cfg : EffectConfig) (now : Nat) (color : CRGB)
    (m : EffectManager) :
    ((SetGlobalColor cfg now color m).GetCurrentEffectIndex = m.GetCurrentEffectIndex ∧
      (SetGlobalColor cfg now color m)._vEffects = m._vEffects ∧
      (SetGlobalColor cfg now color m)._abEffectEnabled = m._abEffectEnabled ∧
      (SetGlobalColor cfg now color m).EnabledCount = m.EnabledCount ∧
      (SetGlobalColor cfg now color m)._bPlayAll = m._bPlayAll) ∧
    ((ClearRemoteColor m).GetCurrentEffectIndex = m.GetCurrentEffectIndex ∧
      (ClearRemoteColor m)._vEffects = m._vEffects ∧
      (ClearRemoteColor m)._abEffectEnabled = m._abEffectEnabled ∧
      (ClearRemoteColor m).EnabledCount = m.EnabledCount ∧
      (ClearRemoteColor m)._bPlayAll = m._bPlayAll ∧
      (ClearRemoteColor m)._ptrRemoteEffect = none) := by
  obtain ⟨h1, h2, h3, h4⟩ := SetGlobalColor_frame cfg now color m
  refine ⟨⟨h4, h1, h2, h3, ?_⟩, rfl, rfl, rfl, rfl, rfl, rfl⟩
  unfold SetGlobalColor
  simp only
  by_cases hm : cfg.USE_MATRIX = true
  · simp only [hm, ↓reduceIte]
  · simp only [hm, Bool.false_eq_true, ↓reduceIte]
    generalize (if color = CRGB.White then cfg.colorFillWhite
      else cfg.customColorEffect color m.lastManualColor) = effect
    by_cases h : effect.initOk = true
    · simp only [h, ↓reduceIte, StartEffect]
    · simp only [h, Bool.false_eq_true, ↓reduceIte]

/-- The first pass of the `NextEffect` loop ends the loop when the loop
condition is false after it. -/
theorem nextEffectLoop_one_pass (now fuel : Nat) (m : EffectManager)
    (hne : m.EffectCount ≠ 0)
    (h : skipCondition (nextEffectBody now m) = false) :
    nextEffectLoop now (fuel + 1) m = some (nextEffectBody now m, 1) := by
  rw [nextEffectLoop]
  simp only [hne, h, Bool.false_eq_true, ↓reduceIte]

/-- C20: for every catalog of size `n >= 1` and every current index `i < n`,
when play-all is on, or `EnabledCount() == 0`, or every entry is enabled,
`NextEffect` returns (for every positive amount of fuel), having set the
current index to `(i + 1) mod n` and the effect start time to the clock value,
and its loop body has run exactly once. -/
theorem NextEffect_advances_by_one (now fuel : Nat) (m : EffectManager)
    (hn : 1 ≤ m.EffectCount) (hi : m.GetCurrentEffectIndex < m.EffectCount)
    (hsz : m.EffectCount < SIZE_T_MOD)
    (hcase : m._bPlayAll = true ∨ m.EnabledCount = 0 ∨
      ∀ j, j < m.EffectCount → m.IsEffectEnabled j = true) :
    nextEffectLoop now (fuel + 1) m =
      some ({ m with
        _iCurrentEffect := (m.GetCurrentEffectIndex + 1) % m.EffectCount
        _effectStartTime := now }, 1) ∧
    ∃ r, NextEffect (fuel + 1) now m = some r ∧
      r.GetCurrentEffectIndex = (m.GetCurrentEffectIndex + 1) % m.EffectCount ∧
      r._effectStartTime = now ∧
      r = { m with
        _iCurrentEffect := (m.GetCurrentEffectIndex + 1) % m.EffectCount
        _effectStartTime := now } := by
  unfold GetCurrentEffectIndex at *
  have hmod : (m._iCurrentEffect + 1) % SIZE_T_MOD = m._iCurrentEffect + 1 :=
    Nat.mod_eq_of_lt (by omega)
  have hbody : nextEffectBody now m =
      { m with
        _iCurrentEffect := (m._iCurrentEffect + 1) % m.EffectCount
        _effectStartTime := now } := by
    unfold nextEffectBody
    rw [hmod]
  have hlt : (m._iCurrentEffect + 1) % m.EffectCount < m.EffectCount :=
    Nat.mod_lt _ (by omega)
  have hskip : skipCondition (nextEffectBody now m) = false := by
    rw [hbody]
    unfold skipCondition
    rcases hcase with hp | hz | hall
    · simp [hp]
    · unfold EnabledCount at hz
      simp [hz]
    · have he : IsEffectEnabled ((m._iCurrentEffect + 1) % m.EffectCount)
          { m with
            _iCurrentEffect := (m._iCurrentEffect + 1) % m.EffectCount
            _effectStartTime := now } = true := hall _ hlt
      simp only [he]
      simp
  have hloop := nextEffectLoop_one_pass now fuel m (by omega) hskip
  rw [hbody] at hloop
  refine ⟨hloop, _, ?_, rfl, rfl, rfl⟩
  unfold NextEffect
  rw [hloop]
  rfl

/-- Witness for C20: from the last index of a three-effect manager in which
every entry is enabled, `NextEffect` wraps to index 0 after one pass. -/
theorem NextEffect_advances_by_one_witness :
    1 ≤ allEnabledManager.EffectCount ∧
    allEnabledManager.GetCurrentEffectIndex < allEnabledManager.EffectCount ∧
    allEnabledManager.EffectCount < SIZE_T_MOD ∧
    (∀ j, j < allEnabledManager.EffectCount → allEnabledManager.IsEffectEnabled j = true) ∧
    nextEffectLoop 11 (0 + 1) allEnabledManager =
      some ({ allEnabledManager with _iCurrentEffect := 0, _effectStartTime := 11 }, 1) ∧
    ∃ r, NextEffect (0 + 1) 11 allEnabledManager = some r ∧
      r.GetCurrentEffectIndex = 0 ∧
      r._effectStartTime = 11 ∧
      r = { allEnabledManager with _iCurrentEffect := 0, _effectStartTime := 11 } :=
  ⟨by decide, by decide, by decide, by decide,
    NextEffect_advances_by_one 11 0 allEnabledManager (by decide) (by decide) (by decide)
      (Or.inr (Or.inr (by decide)))⟩

/-- The loop condition holds when the counter is positive, play-all is off and
the current entry is not enabled. -/
theorem skipCondition_of_disabled (m : EffectManager) (hc : 0 < m._cEnabled)
    (hp : m._bPlayAll = false) (he : m.IsEffectEnabled m._iCurrentEffect = false) :
    skipCondition m = true := by
  unfold skipCondition
  rw [he, hp]
  simp [hc]

/-- The loop condition fails when the current entry is enabled. -/
theorem skipCondition_of_enabled (m : EffectManager)
    (he : m.IsEffectEnabled m._iCurrentEffect = true) : skipCondition m = false := by
  unfold skipCondition
  rw [he]
  simp

/-- The `NextEffect` loop stops after exactly `k` passes when the `k`-th entry
after the current one is the first enabled one met. -/
theorem nextEffectLoop_first_enabled (now : Nat) :
    ∀ (k : Nat) (m : EffectManager) (fuel : Nat),
      k + 1 ≤ fuel → m._iCurrentEffect < m.EffectCount → m.EffectCount < SIZE_T_MOD →
      0 < m._cEnabled → m._bPlayAll = false →
      (∀ t, 1 ≤ t → t < k + 1 →
        m.IsEffectEnabled ((m._iCurrentEffect + t) % m.EffectCount) = false) →
      m.IsEffectEnabled ((m._iCurrentEffect + (k + 1)) % m.EffectCount) = true →
      nextEffectLoop now fuel m =
        some ({ m with
          _iCurrentEffect := (m._iCurrentEffect + (k + 1)) % m.EffectCount
          _effectStartTime := now }, k + 1) := by
  intro k
  induction k with
  | zero =>
    intro m fuel hf hi hsz _ _ _ hen
    obtain ⟨f, rfl⟩ : ∃ f, fuel = f + 1 := ⟨fuel - 1, by omega⟩
    have hmod : (m._iCurrentEffect + 1) % SIZE_T_MOD = m._iCurrentEffect + 1 :=
      Nat.mod_eq_of_lt (by omega)
    have hbody : nextEffectBody now m =
        { m with
          _iCurrentEffect := (m._iCurrentEffect + (0 + 1)) % m.EffectCount
          _effectStartTime := now } := by
      unfold nextEffectBody
      rw [hmod]
    have hskip : skipCondition (nextEffectBody now m) = false := by
      rw [hbody]
      exact skipCondition_of_enabled _ hen
    rw [nextEffectLoop_one_pass now f m (by omega) hskip, hbody]
  | succ k ih =>
    intro m fuel hf hi hsz hc hp hnot hen
    obtain ⟨f, rfl⟩ : ∃ f, fuel = f + 1 := ⟨fuel - 1, by omega⟩
    have hmod : (m._iCurrentEffect + 1) % SIZE_T_MOD = m._iCurrentEffect + 1 :=
      Nat.mod_eq_of_lt (by omega)
    have hbody : nextEffectBody now m =
        { m with
          _iCurrentEffect := (m._iCurrentEffect + 1) % m.EffectCount
          _effectStartTime := now } := by
      unfold nextEffectBody
      rw [hmod]
    have hn : 0 < m.EffectCount := by omega
    have hshift : ∀ t, ((m._iCurrentEffect + 1) % m.EffectCount + t) % m.EffectCount =
        (m._iCurrentEffect + (t + 1)) % m.EffectCount := by
      intro t
      rw [Nat.add_mod, Nat.mod_mod, ← Nat.add_mod]
      congr 1
      omega
    have hskip : skipCondition (nextEffectBody now m) = true := by
      rw [hbody]
      exact skipCondition_of_disabled _ hc hp (hnot 1 (by omega) (by omega))
    have hrec := ih (nextEffectBody now m) f (by omega)
      (by rw [hbody]; exact Nat.mod_lt _ hn)
      (by rw [hbody]; exact hsz)
      (by rw [hbody]; exact hc)
      (by rw [hbody]; exact hp)
      (by
        rw [hbody]
        intro t ht1 ht2
        have := hnot (t + 1) (by omega) (by omega)
        show m.IsEffectEnabled (((m._iCurrentEffect + 1) % m.EffectCount + t) % m.EffectCount)
          = false
        rw [hshift t]
        exact this)
      (by
        rw [hbody]
        show m.IsEffectEnabled
          (((m._iCurrentEffect + 1) % m.EffectCount + (k + 1)) % m.EffectCount) = true
        rw [hshift (k + 1)]
        exact hen)
    have hne : m.EffectCount ≠ 0 := by omega
    rw [nextEffectLoop]
    simp only [hne, hskip, ↓reduceIte]
    rw [hrec, hbody]
    simp only [Option.map_some']
    have := hshift (k + 1)
    simp only [EffectCount] at this ⊢
    rw [this]

/-- With a positive number of enabled entries some entry within one full turn
after the current one is enabled. -/
theorem exists_enabled_step (m : EffectManager) (i : Nat) (hi : i < m.EffectCount)
    (hpos : 0 < m.enabledEntries) :
    ∃ k, 1 ≤ k ∧ k ≤ m.EffectCount ∧ m.IsEffectEnabled ((i + k) % m.EffectCount) = true := by
  unfold enabledEntries at hpos
  rw [List.countP_pos_iff] at hpos
  obtain ⟨j, hj, hen⟩ := hpos
  have hjn : j < m.EffectCount := List.mem_range.mp hj
  by_cases hji : i < j
  · refine ⟨j - i, by omega, by omega, ?_⟩
    have : (i + (j - i)) % m.EffectCount = j := by
      rw [show i + (j - i) = j by omega]
      exact Nat.mod_eq_of_lt hjn
    rw [this]; exact hen
  · refine ⟨j + m.EffectCount - i, by omega, by omega, ?_⟩
    have : (i + (j + m.EffectCount - i)) % m.EffectCount = j := by
      rw [show i + (j + m.EffectCount - i) = j + m.EffectCount by omega,
        Nat.add_mod_right]
      exact Nat.mod_eq_of_lt hjn
    rw [this]; exact hen

/-- C23: in every state that satisfies the counter invariant with
`EnabledCount() > 0`, play-all off and current index `i < n`, `NextEffect`
returns after `k` passes of its loop for some `1 <= k <= n` (for every amount
of fuel of at least `n`), `(i + k) mod n` is the first enabled index met when
stepping `i+1, i+2, ...` cyclically, and the current index is left there; it
is an enabled index. -/
theorem NextEffect_stops_on_first_enabled (now : Nat) (m : EffectManager)
    (hinv : m.EnabledCount = m.enabledEntries) (hpos : 0 < m.EnabledCount)
    (hplay : m._bPlayAll = false)
    (hi : m.GetCurrentEffectIndex < m.EffectCount) (hsz : m.EffectCount < SIZE_T_MOD) :
    ∃ k, 1 ≤ k ∧ k ≤ m.EffectCount ∧
      (∀ t, 1 ≤ t → t < k →
        m.IsEffectEnabled ((m.GetCurrentEffectIndex + t) % m.EffectCount) = false) ∧
      m.IsEffectEnabled ((m.GetCurrentEffectIndex + k) % m.EffectCount) = true ∧
      ∀ fuel, m.EffectCount ≤ fuel →
        nextEffectLoop now fuel m =
          some ({ m with
            _iCurrentEffect := (m.GetCurrentEffectIndex + k) % m.EffectCount
            _effectStartTime := now }, k) ∧
        ∃ r, NextEffect fuel now m = some r ∧
          r.GetCurrentEffectIndex = (m.GetCurrentEffectIndex + k) % m.EffectCount ∧
          r.IsEffectEnabled r.GetCurrentEffectIndex = true := by
  unfold GetCurrentEffectIndex EnabledCount at *
  have hex : ∃ k, 1 ≤ k ∧
      m.IsEffectEnabled ((m._iCurrentEffect + k) % m.EffectCount) = true := by
    obtain ⟨k, h1, _, h3⟩ := exists_enabled_step m m._iCurrentEffect hi (by omega)
    exact ⟨k, h1, h3⟩
  obtain ⟨kb, hb1, hbn, hben⟩ := exists_enabled_step m m._iCurrentEffect hi (by omega)
  have hspec := Nat.find_spec hex
  have hle : Nat.find hex ≤ kb := Nat.find_min' hex ⟨hb1, hben⟩
  have hmin : ∀ t, 1 ≤ t → t < Nat.find hex →
      m.IsEffectEnabled ((m._iCurrentEffect + t) % m.EffectCount) = false := by
    intro t ht1 ht2
    have := Nat.find_min hex ht2
    cases hv : m.IsEffectEnabled ((m._iCurrentEffect + t) % m.EffectCount) with
    | false => rfl
    | true => exact absurd ⟨ht1, hv⟩ this
  obtain ⟨k0, hk0⟩ : ∃ k0, Nat.find hex = k0 + 1 := ⟨Nat.find hex - 1, by omega⟩
  rw [hk0] at hspec hle hmin
  refine ⟨k0 + 1, by omega, by omega, hmin, hspec.2, ?_⟩
  intro fuel hfuel
  have hloop := nextEffectLoop_first_enabled now k0 m fuel (by omega) hi hsz hpos hplay hmin
    hspec.2
  refine ⟨hloop, StartEffect now { m with
      _iCurrentEffect := (m._iCurrentEffect + (k0 + 1)) % m.EffectCount
      _effectStartTime := now }, ?_, rfl, hspec.2⟩
  unfold NextEffect
  rw [hloop]
  rfl

/-- Witness for C23: from index 0 of a three-effect manager whose only enabled
entry is the last one. -/
theorem NextEffect_stops_on_first_enabled_witness :
    lastOnlyManager.EnabledCount = lastOnlyManager.enabledEntries ∧
    0 < lastOnlyManager.EnabledCount ∧
    lastOnlyManager._bPlayAll = false ∧
    lastOnlyManager.GetCurrentEffectIndex < lastOnlyManager.EffectCount ∧
    (NextEffect 3 11 lastOnlyManager).map GetCurrentEffectIndex = some 2 ∧
    ∃ k, 1 ≤ k ∧ k ≤ lastOnlyManager.EffectCount ∧
      (∀ t, 1 ≤ t → t < k →
        lastOnlyManager.IsEffectEnabled
          ((lastOnlyManager.GetCurrentEffectIndex + t) % lastOnlyManager.EffectCount) = false) ∧
      lastOnlyManager.IsEffectEnabled
        ((lastOnlyManager.GetCurrentEffectIndex + k) % lastOnlyManager.EffectCount) = true ∧
      ∀ fuel, lastOnlyManager.EffectCount ≤ fuel →
        nextEffectLoop 11 fuel lastOnlyManager =
          some ({ lastOnlyManager with
            _iCurrentEffect :=
              (lastOnlyManager.GetCurrentEffectIndex + k) % lastOnlyManager.EffectCount
            _effectStartTime := 11 }, k) ∧
        ∃ r, NextEffect fuel 11 lastOnlyManager = some r ∧
          r.GetCurrentEffectIndex =
            (lastOnlyManager.GetCurrentEffectIndex + k) % lastOnlyManager.EffectCount ∧
          r.IsEffectEnabled r.GetCurrentEffectIndex = true :=
  ⟨by decide, by decide, by decide, by decide, by decide,
    NextEffect_stops_on_first_enabled 11 lastOnlyManager (by decide) (by decide) (by decide)
      (by decide) (by decide)⟩

/-- The body of the `NextEffect` loop writes the index and the start time
only. -/
theorem nextEffectBody_frame (now : Nat) (m : EffectManager) :
    (nextEffectBody now m)._cEnabled = m._cEnabled ∧
    (nextEffectBody now m)._bPlayAll = m._bPlayAll ∧
    (nextEffectBody now m).EffectCount = m.EffectCount ∧
    ∀ j, (nextEffectBody now m).IsEffectEnabled j = m.IsEffectEnabled j :=
  ⟨rfl, rfl, rfl, fun _ => rfl⟩

/-- The body of the `PreviousEffect` loop writes the index and the start time
only. -/
theorem previousEffectBody_frame (now : Nat) (m : EffectManager) :
    (previousEffectBody now m)._cEnabled = m._cEnabled ∧
    (previousEffectBody now m)._bPlayAll = m._bPlayAll ∧
    (previousEffectBody now m).EffectCount = m.EffectCount ∧
    ∀ j, (previousEffectBody now m).IsEffectEnabled j = m.IsEffectEnabled j := by
  unfold previousEffectBody EffectCount IsEffectEnabled
  exact ⟨rfl, rfl, rfl, fun _ => rfl⟩

/-- With a positive counter, play-all off and no entry enabled, the loop of
`NextEffect` is still running after any number of passes. -/
theorem nextEffectLoop_never_ends (now : Nat) :
    ∀ (fuel : Nat) (m : EffectManager), 0 < m._cEnabled → m._bPlayAll = false →
      (∀ j, m.IsEffectEnabled j = false) → nextEffectLoop now fuel m = none := by
  intro fuel
  induction fuel with
  | zero => intro m _ _ _; rfl
  | succ f ih =>
    intro m hc hp hall
    obtain ⟨f1, f2, _, f4⟩ := nextEffectBody_frame now m
    have hskip : skipCondition (nextEffectBody now m) = true :=
      skipCondition_of_disabled _ (by rw [f1]; exact hc) (by rw [f2]; exact hp)
        (by rw [f4]; exact hall _)
    rw [nextEffectLoop]
    by_cases h0 : m.EffectCount = 0
    · simp only [h0, ↓reduceIte]
    · simp only [h0, hskip, ↓reduceIte]
      rw [ih (nextEffectBody now m) (by rw [f1]; exact hc) (by rw [f2]; exact hp)
        (fun j => by rw [f4]; exact hall j)]
      rfl

/-- With a positive counter, play-all off and no entry enabled, the loop of
`PreviousEffect` is still running after any number of passes. -/
theorem previousEffectLoop_never_ends (now : Nat) :
    ∀ (fuel : Nat) (m : EffectManager), 0 < m._cEnabled → m._bPlayAll = false →
      (∀ j, m.IsEffectEnabled j = false) → previousEffectLoop now fuel m = none := by
  intro fuel
  induction fuel with
  | zero => intro m _ _ _; rfl
  | succ f ih =>
    intro m hc hp hall
    obtain ⟨f1, f2, _, f4⟩ := previousEffectBody_frame now m
    have hskip : skipCondition (previousEffectBody now m) = true :=
      skipCondition_of_disabled _ (by rw [f1]; exact hc) (by rw [f2]; exact hp)
        (by rw [f4]; exact hall _)
    unfold previousEffectLoop
    simp only [hskip, ↓reduceIte]
    rw [ih (previousEffectBody now m) (by rw [f1]; exact hc) (by rw [f2]; exact hp)
      (fun j => by rw [f4]; exact hall j)]
    rfl

/-- The body of the `PreviousEffect` loop, started on an index inside a
catalog of at least two entries, leaves the index below the last one. -/
theorem previousEffectBody_index (now : Nat) (m : EffectManager)
    (hn : 2 ≤ m.EffectCount) (hsz : m.EffectCount < SIZE_T_MOD)
    (hi : m._iCurrentEffect < m.EffectCount) :
    (previousEffectBody now m)._iCurrentEffect + 1 < m.EffectCount ∧
    (previousEffectBody now m)._iCurrentEffect =
      (if m._iCurrentEffect = 0 then m.EffectCount - 2 else m._iCurrentEffect - 1) := by
  unfold previousEffectBody
  unfold SIZE_T_MOD at *
  by_cases h0 : m._iCurrentEffect = 0
  · simp only [h0, ↓reduceIte]
    have h1 : (m.EffectCount + 2 ^ 32 - 1) % 2 ^ 32 = m.EffectCount - 1 := by omega
    rw [h1]
    omega
  · simp only [h0, ↓reduceIte]
    omega

/-- In a catalog of at least two entries whose entries other than the last are
all disabled, with a positive counter and play-all off, the loop of
`PreviousEffect` is still running after any number of passes: it never
visits the last entry. -/
theorem previousEffectLoop_never_reaches_last (now : Nat) :
    ∀ (fuel : Nat) (m : EffectManager), 2 ≤ m.EffectCount → m.EffectCount < SIZE_T_MOD →
      m._iCurrentEffect < m.EffectCount → 0 < m._cEnabled → m._bPlayAll = false →
      (∀ j, j + 1 < m.EffectCount → m.IsEffectEnabled j = false) →
      previousEffectLoop now fuel m = none := by
  intro fuel
  induction fuel with
  | zero => intro m _ _ _ _ _ _; rfl
  | succ f ih =>
    intro m hn hsz hi hc hp hall
    have hidx := (previousEffectBody_index now m hn hsz hi).1
    obtain ⟨f1, f2, f3, f4⟩ := previousEffectBody_frame now m
    have hskip : skipCondition (previousEffectBody now m) = true :=
      skipCondition_of_disabled _ (by rw [f1]; exact hc) (by rw [f2]; exact hp)
        (by rw [f4]; exact hall _ hidx)
    unfold previousEffectLoop
    simp only [hskip, ↓reduceIte]
    rw [ih (previousEffectBody now m) (by rw [f3]; exact hn) (by rw [f3]; exact hsz)
      (by rw [f3]; omega) (by rw [f1]; exact hc) (by rw [f2]; exact hp)
      (fun j hj => by rw [f4]; exact hall j (by rw [f3] at hj; exact hj))]
    rfl

/-- C21, the code at a failing input: three effects, all enabled, current index
0.  `PreviousEffect` sets the index to `EffectCount() - 1` and then decrements
it all the same: the index after the call is 1, not 2. -/
theorem PreviousEffect_from_zero_skips_last :
    (∀ j, j < 3 → ({ allEnabledManager with _iCurrentEffect := 0 }).IsEffectEnabled j = true) ∧
    (PreviousEffect sampleEffectConfig 1 11 { allEnabledManager with _iCurrentEffect := 0 }).map
      GetCurrentEffectIndex = some 1 ∧
    (0 + 3 - 1) % 3 = 2 := by
  decide

/-- C22, the code at a failing input: three effects, all enabled, current index
2.  Three calls of `NextEffect` return the index to 2; three calls of
`PreviousEffect` visit 1, 0, 1 and leave the index at 1. -/
theorem PreviousEffect_three_times_does_not_return :
    (((NextEffect 1 11 allEnabledManager).bind (NextEffect 1 12)).bind (NextEffect 1 13)).map
      GetCurrentEffectIndex = some 2 ∧
    (PreviousEffect sampleEffectConfig 1 11 allEnabledManager).map GetCurrentEffectIndex = some 1 ∧
    ((PreviousEffect sampleEffectConfig 1 11 allEnabledManager).bind (PreviousEffect sampleEffectConfig 1 12)).map
      GetCurrentEffectIndex = some 0 ∧
    (((PreviousEffect sampleEffectConfig 1 11 allEnabledManager).bind (PreviousEffect sampleEffectConfig 1 12)).bind
      (PreviousEffect sampleEffectConfig 1 13)).map GetCurrentEffectIndex = some 1 ∧
    allEnabledManager.GetCurrentEffectIndex = 2 := by
  decide

/-- C24, the code at a failing input: three effects of which only the last one
(index 2) is enabled, the counter at 1 in step with the flags, play-all off,
current index 0.  The loop of `PreviousEffect` visits 1, 0, 1, 0, ... and
never index 2: for every amount of fuel the loop is still running and the call
has not returned. -/
theorem PreviousEffect_never_reaches_last_entry :
    lastOnlyManager.EnabledCount = lastOnlyManager.enabledEntries ∧
    0 < lastOnlyManager.EnabledCount ∧
    lastOnlyManager._bPlayAll = false ∧
    lastOnlyManager.IsEffectEnabled 2 = true ∧
    ∀ fuel, previousEffectLoop 11 fuel lastOnlyManager = none ∧
      PreviousEffect sampleEffectConfig fuel 11 lastOnlyManager = none := by
  refine ⟨by decide, by decide, by decide, by decide, ?_⟩
  intro fuel
  have hloop := previousEffectLoop_never_reaches_last 11 fuel lastOnlyManager (by decide)
    (by decide) (by decide) (by decide) (by decide) (by
      intro j hj
      have hj2 : j < 2 := by
        have : lastOnlyManager.EffectCount = 3 := by decide
        omega
      interval_cases j <;> decide)
  refine ⟨hloop, ?_⟩
  unfold PreviousEffect
  rw [hloop]
  rfl

/-- C25, the code at a failing input: one effect is loaded with
`LoadEffectArray` in a strip build, `SetGlobalColor(CRGB::White)` installs the
remote override, and `PreviousEffect` is called.  The index is set to
`EffectCount() - 1 = 0` and decremented: it wraps around to 2^32 - 1.  The
counter is 0 after the load, so the loop ends after this pass; `StartEffect`
starts the override and the call returns with the index at 2^32 - 1, which is
not below `EffectCount() = 1`.  Without the override the loop ends on the same
index and `StartEffect` reads `_vEffects[4294967295]`, outside the vector. -/
theorem PreviousEffect_single_effect_invalid_index :
    sampleEffectConfig.USE_MATRIX = false ∧
    (LoadEffectArray sampleEffectConfig 7 sampleEffect 1 blankManager).EffectCount = 1 ∧
    (LoadEffectArray sampleEffectConfig 7 sampleEffect 1 blankManager).GetCurrentEffectIndex =
      0 ∧
    (SetGlobalColor sampleEffectConfig 8 CRGB.White
      (LoadEffectArray sampleEffectConfig 7 sampleEffect 1 blankManager))._ptrRemoteEffect.isSome
      = true ∧
    (SetGlobalColor sampleEffectConfig 8 CRGB.White
      (LoadEffectArray sampleEffectConfig 7 sampleEffect 1 blankManager)).GetCurrentEffectIndex
      = 0 ∧
    (PreviousEffect sampleEffectConfig 1 11
      (SetGlobalColor sampleEffectConfig 8 CRGB.White
        (LoadEffectArray sampleEffectConfig 7 sampleEffect 1 blankManager))).map
        (fun r => (r.GetCurrentEffectIndex, r.EffectCount)) = some (4294967295, 1) ∧
    (previousEffectLoop 11 1
      (LoadEffectArray sampleEffectConfig 7 sampleEffect 1 blankManager)).map
        (fun r => (r.1.GetCurrentEffectIndex, StartEffectFaults sampleEffectConfig r.1)) =
      some (4294967295, true) ∧
    PreviousEffect sampleEffectConfig 1 11
      (LoadEffectArray sampleEffectConfig 7 sampleEffect 1 blankManager) = none := by
  decide

/-- C26, the code at a failing input: one effect is loaded with
`LoadEffectArray` and disabled with `DisableEffect(0)`.  The load left the
counter at 0, so the decrement wraps it to 2^32 - 1: the counter is positive
while no entry is enabled, and for every amount of fuel the loops of
`NextEffect` and of `PreviousEffect` are still running and neither call has
returned. -/
theorem rotation_never_ends_after_load_and_disable :
    (DisableEffect sampleEffectConfig 8 0
      (LoadEffectArray sampleEffectConfig 7 sampleEffect 1 blankManager)).EnabledCount =
        4294967295 ∧
    (DisableEffect sampleEffectConfig 8 0
      (LoadEffectArray sampleEffectConfig 7 sampleEffect 1 blankManager)).IsEffectEnabled 0 =
        false ∧
    (DisableEffect sampleEffectConfig 8 0
      (LoadEffectArray sampleEffectConfig 7 sampleEffect 1 blankManager))._bPlayAll = false ∧
    (∀ fuel, nextEffectLoop 11 fuel (DisableEffect sampleEffectConfig 8 0
        (LoadEffectArray sampleEffectConfig 7 sampleEffect 1 blankManager)) = none ∧
      NextEffect fuel 11 (DisableEffect sampleEffectConfig 8 0
        (LoadEffectArray sampleEffectConfig 7 sampleEffect 1 blankManager)) = none) ∧
    (∀ fuel, previousEffectLoop 11 fuel (DisableEffect sampleEffectConfig 8 0
        (LoadEffectArray sampleEffectConfig 7 sampleEffect 1 blankManager)) = none ∧
      PreviousEffect sampleEffectConfig fuel 11 (DisableEffect sampleEffectConfig 8 0
        (LoadEffectArray sampleEffectConfig 7 sampleEffect 1 blankManager)) = none) := by
  have hall : ∀ j, (DisableEffect sampleEffectConfig 8 0
      (LoadEffectArray sampleEffectConfig 7 sampleEffect 1 blankManager)).IsEffectEnabled j =
        false := by
    intro j
    cases j with
    | zero => decide
    | succ j =>
      have hv : (DisableEffect sampleEffectConfig 8 0
          (LoadEffectArray sampleEffectConfig 7 sampleEffect 1
            blankManager))._vEffects.length = 1 := by decide
      unfold IsEffectEnabled
      rw [hv]
      have : j + 1 ≥ 1 := by omega
      simp only [this, ↓reduceIte]
  refine ⟨by decide, by decide, by decide, ?_, ?_⟩
  · intro fuel
    have hloop := nextEffectLoop_never_ends 11 fuel _ (by decide) (by decide) hall
    refine ⟨hloop, ?_⟩
    unfold NextEffect
    rw [hloop]
    rfl
  · intro fuel
    have hloop := previousEffectLoop_never_ends 11 fuel _ (by decide) (by decide) hall
    refine ⟨hloop, ?_⟩
    unfold PreviousEffect
    rw [hloop]
    rfl

/-- Whatever the number of passes, the loop of `NextEffect` writes the index
and the start time only. -/
theorem nextEffectLoop_frame (now : Nat) :
    ∀ (fuel : Nat) (m r : EffectManager) (k : Nat), nextEffectLoop now fuel m = some (r, k) →
      r = { m with _iCurrentEffect := r._iCurrentEffect, _effectStartTime := now } := by
  intro fuel
  induction fuel with
  | zero => intro m r k h; simp [nextEffectLoop] at h
  | succ f ih =>
    intro m r k h
    rw [nextEffectLoop] at h
    have h0 : m.EffectCount ≠ 0 := by
      intro h0
      simp only [h0, ↓reduceIte] at h
      exact absurd h (by simp)
    simp only [h0, ↓reduceIte] at h
    by_cases hs : skipCondition (nextEffectBody now m) = true
    · simp only [hs, ↓reduceIte] at h
      cases hrec : nextEffectLoop now f (nextEffectBody now m) with
      | none => rw [hrec] at h; simp at h
      | some p =>
        rw [hrec] at h
        simp only [Option.map_some', Option.some.injEq, Prod.mk.injEq] at h
        have := ih (nextEffectBody now m) p.1 p.2 hrec
        rw [← h.1]
        rw [this]
        rfl
    · simp only [hs, Bool.false_eq_true, ↓reduceIte, Option.some.injEq, Prod.mk.injEq] at h
      rw [← h.1]
      rfl

/-- `NextEffect`, when it returns, has written the index and the start time
only. -/
theorem NextEffect_frame (fuel now : Nat) (m r : EffectManager)
    (h : NextEffect fuel now m = some r) :
    r = { m with _iCurrentEffect := r._iCurrentEffect, _effectStartTime := now } := by
  unfold NextEffect at h
  cases hl : nextEffectLoop now fuel m with
  | none => rw [hl] at h; simp at h
  | some p =>
    rw [hl] at h
    simp only [Option.map_some', Option.some.injEq] at h
    have := nextEffectLoop_frame now fuel m p.1 p.2 hl
    rw [← h, this]
    rfl

/-- `CheckEffectTimerExpired`, when it returns, has either changed nothing or
written the index and the start time only. -/
theorem CheckEffectTimerExpired_frame (fuel now : Nat) (m r : EffectManager)
    (h : CheckEffectTimerExpired fuel now m = some r) :
    r = m ∨ r = { m with _iCurrentEffect := r._iCurrentEffect, _effectStartTime := now } := by
  unfold CheckEffectTimerExpired at h
  by_cases h0 : m._effectInterval = 0
  · simp only [h0, ↓reduceIte, Option.some.injEq] at h
    exact Or.inl h.symm
  · simp only [h0, ↓reduceIte] at h
    cases hg : GetInterval now m with
    | none => rw [hg] at h; simp at h
    | some interval =>
      rw [hg] at h
      simp only at h
      by_cases hexp : GetTimeUsedByCurrentEffect now m ≥ interval
      · simp only [hexp, ↓reduceIte] at h
        exact Or.inr (NextEffect_frame fuel now m r h)
      · simp only [hexp, ↓reduceIte, Option.some.injEq] at h
        exact Or.inl h.symm

/-- C27: when the rotation interval is 0, `CheckEffectTimerExpired` returns
with the manager unchanged, so neither the current effect index nor the
effect start time moves, whatever the clock and whatever the current effect;
`GetInterval()` then reports the largest unsigned value. -/
theorem CheckEffectTimerExpired_interval_zero (fuel now : Nat) (m : EffectManager)
    (h : m._effectInterval = 0) :
    CheckEffectTimerExpired fuel now m = some m ∧
    GetInterval now m = some 4294967295 := by
  unfold CheckEffectTimerExpired GetInterval
  simp only [h, ↓reduceIte, true_and]
  rfl

/-- Witness for C27: a manager with interval 0, long after the effect
started. -/
theorem CheckEffectTimerExpired_interval_zero_witness :
    ({ allEnabledManager with _effectInterval := 0 })._effectInterval = 0 ∧
    CheckEffectTimerExpired 3 4000000000 { allEnabledManager with _effectInterval := 0 } =
      some { allEnabledManager with _effectInterval := 0 } ∧
    GetInterval 4000000000 { allEnabledManager with _effectInterval := 0 } = some 4294967295 :=
  ⟨rfl, CheckEffectTimerExpired_interval_zero 3 4000000000
    { allEnabledManager with _effectInterval := 0 } rfl⟩

/-- C28: with a non-zero rotation interval `I`, elapsed time `e` since the
effect start and current effect maximum time `M`, `CheckEffectTimerExpired`
does what `NextEffect` does when `e >= min(I, M - e)`, the subtraction being
that of unsigned 32-bit numbers, and otherwise leaves the manager state
unchanged. -/
theorem CheckEffectTimerExpired_rotates_iff (fuel now : Nat) (m : EffectManager)
    (effect : LEDStripEffect) (hI : m._effectInterval ≠ 0)
    (hcur : m.GetCurrentEffect = some effect) :
    (GetTimeUsedByCurrentEffect now m ≥
        min m._effectInterval
          ((effect.maximumEffectTime % SIZE_T_MOD + SIZE_T_MOD
            - GetTimeUsedByCurrentEffect now m) % SIZE_T_MOD) →
      CheckEffectTimerExpired fuel now m = NextEffect fuel now m) ∧
    (GetTimeUsedByCurrentEffect now m <
        min m._effectInterval
          ((effect.maximumEffectTime % SIZE_T_MOD + SIZE_T_MOD
            - GetTimeUsedByCurrentEffect now m) % SIZE_T_MOD) →
      CheckEffectTimerExpired fuel now m = some m) ∧
    GetTimeUsedByCurrentEffect now m =
      (now % SIZE_T_MOD + SIZE_T_MOD - m._effectStartTime % SIZE_T_MOD) % SIZE_T_MOD := by
  have hg : GetInterval now m = some (min m._effectInterval
      ((effect.maximumEffectTime % SIZE_T_MOD + SIZE_T_MOD
        - GetTimeUsedByCurrentEffect now m) % SIZE_T_MOD)) := by
    unfold GetInterval
    simp only [hI, ↓reduceIte, hcur, Option.map_some']
  refine ⟨?_, ?_, rfl⟩
  · intro hge
    unfold CheckEffectTimerExpired
    simp only [hI, ↓reduceIte, hg, hge]
  · intro hlt
    have hnot : ¬ GetTimeUsedByCurrentEffect now m ≥ min m._effectInterval
        ((effect.maximumEffectTime % SIZE_T_MOD + SIZE_T_MOD
          - GetTimeUsedByCurrentEffect now m) % SIZE_T_MOD) := by omega
    unfold CheckEffectTimerExpired
    simp only [hI, ↓reduceIte, hg, hnot]

/-- Witness for C28: the three-effect manager (interval 30000, started at 0)
at clock value 30000. -/
theorem CheckEffectTimerExpired_rotates_iff_witness :
    allEnabledManager._effectInterval ≠ 0 ∧
    allEnabledManager.GetCurrentEffect = some (sampleEffect 2) ∧
    GetTimeUsedByCurrentEffect 30000 allEnabledManager = 30000 ∧
    (GetTimeUsedByCurrentEffect 30000 allEnabledManager ≥
        min allEnabledManager._effectInterval
          (((sampleEffect 2).maximumEffectTime % SIZE_T_MOD + SIZE_T_MOD
            - GetTimeUsedByCurrentEffect 30000 allEnabledManager) % SIZE_T_MOD)) ∧
    CheckEffectTimerExpired 3 30000 allEnabledManager = NextEffect 3 30000 allEnabledManager :=
  ⟨by decide, by decide, by decide, by decide,
    (CheckEffectTimerExpired_rotates_iff 3 30000 allEnabledManager (sampleEffect 2)
      (by decide) (by decide)).1 (by decide)⟩

/-- The loop condition fails when the counter is 0. -/
theorem skipCondition_of_zero_count (m : EffectManager) (hc : m._cEnabled = 0) :
    skipCondition m = false := by
  unfold skipCondition
  rw [hc]
  simp

/-- A valid current index gives a current effect. -/
theorem GetCurrentEffect_isSome (m : EffectManager) (hi : m._iCurrentEffect < m._vEffects.length) :
    m.GetCurrentEffect.isNone = false := by
  unfold GetCurrentEffect
  rw [List.getElem?_eq_getElem hi]
  rfl

/-- `CheckEffectTimerExpired` with interval 0 returns at once. -/
theorem CheckEffectTimerExpired_zero (fuel now : Nat) (m : EffectManager)
    (h : m._effectInterval = 0) : CheckEffectTimerExpired fuel now m = some m := by
  unfold CheckEffectTimerExpired
  simp only [h, ↓reduceIte]

/-- `CheckEffectTimerExpired` with a non-zero interval and a current effect:
either nothing happens or `NextEffect` runs. -/
theorem CheckEffectTimerExpired_cases (fuel now : Nat) (m : EffectManager)
    (effect : LEDStripEffect) (hI : m._effectInterval ≠ 0)
    (hcur : m.GetCurrentEffect = some effect) :
    CheckEffectTimerExpired fuel now m = some m ∨
    CheckEffectTimerExpired fuel now m = NextEffect fuel now m := by
  have hg : GetInterval now m = some (min m._effectInterval
      ((effect.maximumEffectTime % SIZE_T_MOD + SIZE_T_MOD
        - GetTimeUsedByCurrentEffect now m) % SIZE_T_MOD)) := by
    unfold GetInterval
    simp only [hI, ↓reduceIte, hcur, Option.map_some']
  unfold CheckEffectTimerExpired
  simp only [hI, ↓reduceIte, hg]
  split
  · exact Or.inr rfl
  · exact Or.inl rfl

/-- In a catalog of one effect whose counter is in step with its flag,
`NextEffect` returns after one pass and leaves the index at 0. -/
theorem NextEffect_single_effect (fuel now : Nat) (m : EffectManager)
    (hn1 : m.EffectCount = 1) (hinv : m.EnabledCount = m.enabledEntries) :
    ∃ r, NextEffect (fuel + 1) now m = some r ∧ r._iCurrentEffect = 0 ∧
      r._vEffects = m._vEffects := by
  obtain ⟨f1, _, _, f4⟩ := nextEffectBody_frame now m
  have hidx : (nextEffectBody now m)._iCurrentEffect = 0 := by
    simp only [nextEffectBody, hn1, Nat.mod_one]
  have hskip : skipCondition (nextEffectBody now m) = false := by
    by_cases hc : m._cEnabled = 0
    · exact skipCondition_of_zero_count _ (by rw [f1]; exact hc)
    · have hpos : 0 < m.enabledEntries := by
        unfold EnabledCount at hinv
        omega
      unfold enabledEntries at hpos
      rw [List.countP_pos_iff] at hpos
      obtain ⟨j, hj, hen⟩ := hpos
      have hj0 : j = 0 := by
        have := List.mem_range.mp hj
        omega
      subst hj0
      apply skipCondition_of_enabled
      rw [f4, hidx]
      exact hen
  refine ⟨StartEffect now (nextEffectBody now m), ?_, hidx, rfl⟩
  unfold NextEffect
  rw [nextEffectLoop_one_pass now fuel m (by omega) hskip]
  rfl

/-- `Update` with at least one LED, once `CheckEffectTimerExpired` has returned
`m1` with a current effect to draw, and fewer than two effects or interval 0:
the fader is set to 255. -/
theorem Update_of_check (cfg : EffectConfig) (fade : Int → Nat) (ledCount fuel now : Nat)
    (m m1 : EffectManager) (g_Fader : Nat) (hled : 0 < ledCount)
    (hcheck : CheckEffectTimerExpired fuel now m = some m1)
    (hdraw : m1.GetCurrentEffect.isNone = false)
    (hcase : m1.EffectCount < 2 ∨ m1._effectInterval = 0) :
    Update cfg fade ledCount fuel now m g_Fader = some (m1, 255) := by
  have hl : ¬ ledCount = 0 := by omega
  unfold Update
  simp only [hl, ↓reduceIte, hcheck, hdraw, Bool.and_false, Bool.false_eq_true]
  by_cases h2 : m1.EffectCount < 2
  · simp only [h2, ↓reduceIte]
  · simp only [h2, ↓reduceIte]
    rcases hcase with h | h
    · exact absurd h h2
    · simp only [h, ↓reduceIte]

/-- With at least one LED on the drawing surface, whenever the catalog has
fewer than two entries or the rotation interval is 0, every return of `Update`
leaves the global fader at 255, whatever the clock; and `Update` does return
(for every positive amount of fuel) when the current index is valid and, for
a non-zero interval, the counter invariant holds. -/
theorem Update_fader_is_full (cfg : EffectConfig) (fade : Int → Nat)
    (ledCount fuel now : Nat) (m : EffectManager) (g_Fader : Nat)
    (hled : 0 < ledCount) (hcase : m.EffectCount < 2 ∨ m._effectInterval = 0) :
    (∀ r f, Update cfg fade ledCount fuel now m g_Fader = some (r, f) → f = 255) ∧
    (m.GetCurrentEffectIndex < m.EffectCount →
      (m._effectInterval = 0 ∨ m.EnabledCount = m.enabledEntries) → 1 ≤ fuel →
      ∃ r, Update cfg fade ledCount fuel now m g_Fader = some (r, 255)) := by
  have hl : ¬ ledCount = 0 := by omega
  constructor
  · intro r f h
    unfold Update at h
    simp only [hl, ↓reduceIte] at h
    cases hc : CheckEffectTimerExpired fuel now m with
    | none => rw [hc] at h; simp at h
    | some m1 =>
      rw [hc] at h
      simp only at h
      have hsame : m1.EffectCount = m.EffectCount ∧ m1._effectInterval = m._effectInterval := by
        rcases CheckEffectTimerExpired_frame fuel now m m1 hc with e | e
        · rw [e]; exact ⟨rfl, rfl⟩
        · rw [e]; exact ⟨rfl, rfl⟩
      by_cases hd : (m1._ptrRemoteEffect.isNone && m1.GetCurrentEffect.isNone) = true
      · simp only [hd, ↓reduceIte] at h
        exact absurd h (by simp)
      · simp only [hd, Bool.false_eq_true, ↓reduceIte] at h
        by_cases h2 : m1.EffectCount < 2
        · simp only [h2, ↓reduceIte, Option.some.injEq, Prod.mk.injEq] at h
          exact h.2.symm
        · simp only [h2, ↓reduceIte] at h
          have h0 : m1._effectInterval = 0 := by
            rcases hcase with hc2 | hc0
            · rw [hsame.1] at h2; exact absurd hc2 h2
            · rw [hsame.2]; exact hc0
          simp only [h0, ↓reduceIte, Option.some.injEq, Prod.mk.injEq] at h
          exact h.2.symm
  · intro hi hinv hfuel
    unfold GetCurrentEffectIndex EffectCount at hi
    by_cases h0 : m._effectInterval = 0
    · refine ⟨m, Update_of_check cfg fade ledCount fuel now m m g_Fader hled ?_
        (GetCurrentEffect_isSome m hi) hcase⟩
      exact CheckEffectTimerExpired_zero fuel now m h0
    · have hn2 : m.EffectCount < 2 := by
        rcases hcase with h | h
        · exact h
        · exact absurd h h0
      have hinv2 : m.EnabledCount = m.enabledEntries := by
        rcases hinv with h | h
        · exact absurd h h0
        · exact h
      have hn1 : m.EffectCount = 1 := by unfold EffectCount at *; omega
      have hidx : m._iCurrentEffect = 0 := by unfold EffectCount at hn1; omega
      cases hcur : m.GetCurrentEffect with
      | none =>
        have := GetCurrentEffect_isSome m hi
        rw [hcur] at this
        exact absurd this (by simp)
      | some effect =>
        rcases CheckEffectTimerExpired_cases fuel now m effect h0 hcur with hc | hc
        · exact ⟨m, Update_of_check cfg fade ledCount fuel now m m g_Fader hled hc
            (GetCurrentEffect_isSome m hi) (Or.inl hn2)⟩
        · obtain ⟨f, rfl⟩ : ∃ f, fuel = f + 1 := ⟨fuel - 1, by omega⟩
          obtain ⟨r, hr, hr0, hrv⟩ := NextEffect_single_effect f now m hn1 hinv2
          rw [hr] at hc
          refine ⟨r, Update_of_check cfg fade ledCount (f + 1) now m r g_Fader hled hc
            (GetCurrentEffect_isSome r ?_) (Or.inl ?_)⟩
          · rw [hr0, hrv]; omega
          · unfold EffectCount at *
            rw [hrv]; exact hn2

/-- An instance of `Update_fader_is_full`: a single enabled effect, interval
30000, at clock value 39500, with 10 LEDs and the fader at 3 before the
call. -/
theorem Update_fader_is_full_witness :
    0 < 10 ∧
    (singleEffectManager.EffectCount < 2 ∨ singleEffectManager._effectInterval = 0) ∧
    singleEffectManager.GetCurrentEffectIndex < singleEffectManager.EffectCount ∧
    singleEffectManager.EnabledCount = singleEffectManager.enabledEntries ∧
    (Update sampleEffectConfig (fun _ => 0) 10 1 39500 singleEffectManager 3).map Prod.snd =
      some 255 ∧
    ∃ r, Update sampleEffectConfig (fun _ => 0) 10 1 39500 singleEffectManager 3 =
      some (r, 255) :=
  ⟨by decide, by decide, by decide, by decide, by decide,
    (Update_fader_is_full sampleEffectConfig (fun _ => 0) 10 1 39500 singleEffectManager 3
      (by decide) (by decide)).2 (by decide) (Or.inr (by decide)) (by decide)⟩

/-- `CheckEffectTimerExpired` with a non-zero interval once the elapsed time has
reached the effective interval: the call is that of `NextEffect`. -/
theorem CheckEffectTimerExpired_expired (fuel now : Nat) (m : EffectManager) (iv : Nat)
    (hI : m._effectInterval ≠ 0) (hg : GetInterval now m = some iv)
    (hge : GetTimeUsedByCurrentEffect now m ≥ iv) :
    CheckEffectTimerExpired fuel now m = NextEffect fuel now m := by
  unfold CheckEffectTimerExpired
  simp only [hI, ↓reduceIte, hg, hge]

/-- `Update` with at least one LED does not return when
`CheckEffectTimerExpired` does not. -/
theorem Update_of_check_none (cfg : EffectConfig) (fade : Int → Nat)
    (ledCount fuel now : Nat) (m : EffectManager) (g_Fader : Nat) (hled : 0 < ledCount)
    (hcheck : CheckEffectTimerExpired fuel now m = none) :
    Update cfg fade ledCount fuel now m g_Fader = none := by
  have hl : ¬ ledCount = 0 := by omega
  unfold Update
  simp only [hl, ↓reduceIte, hcheck]

/-- C29, the code at a failing input: one effect is loaded with
`LoadEffectArray` and disabled with `DisableEffect(0)`; the surface has 10
LEDs and the clock is at 40000.  The catalog has fewer than two entries.  The
rotation interval of 30000 ms has expired, so `Update` calls `NextEffect`
through `CheckEffectTimerExpired`; the counter wrapped to 2^32 - 1 while no
entry is enabled, so the loop of `NextEffect` never ends: for every amount of
fuel `Update` has not returned, and the fader is not set to 255. -/
theorem Update_never_returns_after_load_and_disable :
    (DisableEffect sampleEffectConfig 8 0
      (LoadEffectArray sampleEffectConfig 7 sampleEffect 1 blankManager)).EffectCount = 1 ∧
    (DisableEffect sampleEffectConfig 8 0
      (LoadEffectArray sampleEffectConfig 7 sampleEffect 1 blankManager)).GetCurrentEffectIndex
      = 0 ∧
    (DisableEffect sampleEffectConfig 8 0
      (LoadEffectArray sampleEffectConfig 7 sampleEffect 1 blankManager)).EnabledCount =
        4294967295 ∧
    GetInterval 40000 (DisableEffect sampleEffectConfig 8 0
      (LoadEffectArray sampleEffectConfig 7 sampleEffect 1 blankManager)) = some 30000 ∧
    GetTimeUsedByCurrentEffect 40000 (DisableEffect sampleEffectConfig 8 0
      (LoadEffectArray sampleEffectConfig 7 sampleEffect 1 blankManager)) = 39993 ∧
    ∀ (fade : Int → Nat) (fuel g_Fader : Nat),
      nextEffectLoop 40000 fuel (DisableEffect sampleEffectConfig 8 0
        (LoadEffectArray sampleEffectConfig 7 sampleEffect 1 blankManager)) = none ∧
      Update sampleEffectConfig fade 10 fuel 40000 (DisableEffect sampleEffectConfig 8 0
        (LoadEffectArray sampleEffectConfig 7 sampleEffect 1 blankManager)) g_Fader = none := by
  have hall : ∀ j, (DisableEffect sampleEffectConfig 8 0
      (LoadEffectArray sampleEffectConfig 7 sampleEffect 1 blankManager)).IsEffectEnabled j =
        false := by
    intro j
    cases j with
    | zero => decide
    | succ j =>
      have hv : (DisableEffect sampleEffectConfig 8 0
          (LoadEffectArray sampleEffectConfig 7 sampleEffect 1
            blankManager))._vEffects.length = 1 := by decide
      unfold IsEffectEnabled
      rw [hv]
      have : j + 1 ≥ 1 := by omega
      simp only [this, ↓reduceIte]
  refine ⟨by decide, by decide, by decide, by decide, by decide, ?_⟩
  intro fade fuel g_Fader
  have hloop := nextEffectLoop_never_ends 40000 fuel _ (by decide) (by decide) hall
  refine ⟨hloop, ?_⟩
  apply Update_of_check_none _ _ _ _ _ _ _ (by decide)
  rw [CheckEffectTimerExpired_expired fuel 40000 _ 30000 (by decide) (by decide) (by decide)]
  unfold NextEffect
  rw [hloop]
  rfl

/-- Conversion to `int` keeps a value below 2^31. -/
theorem toInt32_of_lt (x : Nat) (h : x < 2 ^ 31) : toInt32 x = (x : Int) := by
  unfold toInt32 SIZE_T_MOD
  have h1 : x % 2 ^ 32 = x := Nat.mod_eq_of_lt (by omega)
  rw [h1]
  simp only [h, ↓reduceIte]

/-- Which fade branch `Update` takes.  With at least two effects, a non-zero
interval `I` below 2^31 that the maximum time of the current effect does not
cap, and an elapsed time `e < I`, no rotation happens and the fader is the
fade value of `e` when `e` is below the cross-fade time, the fade value of
`I - e` when `e` is not but `I - e` is, and 255 otherwise.  The fade value
itself is the floating-point expression of the source, which `fade` stands
for. -/
theorem Update_fade_branches (cfg : EffectConfig) (fade : Int → Nat)
    (ledCount fuel now : Nat) (m : EffectManager) (g_Fader : Nat) (effect : LEDStripEffect)
    (hled : 0 < ledCount) (hn : 2 ≤ m.EffectCount) (hI : m._effectInterval ≠ 0)
    (hI31 : m._effectInterval < 2 ^ 31)
    (hcur : m.GetCurrentEffect = some effect)
    (hnow : now < SIZE_T_MOD) (hstart : m._effectStartTime ≤ now)
    (hM : effect.maximumEffectTime < SIZE_T_MOD)
    (hcap : (now - m._effectStartTime) + m._effectInterval ≤ effect.maximumEffectTime)
    (he : now - m._effectStartTime < m._effectInterval) :
    Update cfg fade ledCount fuel now m g_Fader =
      some (m,
        if ((now - m._effectStartTime : Nat) : Int) < (cfg.EFFECT_CROSS_FADE_TIME : Int) then
          fade ((now - m._effectStartTime : Nat) : Int)
        else if ((m._effectInterval - (now - m._effectStartTime) : Nat) : Int)
            < (cfg.EFFECT_CROSS_FADE_TIME : Int) then
          fade ((m._effectInterval - (now - m._effectStartTime) : Nat) : Int)
        else 255) := by
  have hl : ¬ ledCount = 0 := by omega
  have hused : GetTimeUsedByCurrentEffect now m = now - m._effectStartTime := by
    unfold GetTimeUsedByCurrentEffect SIZE_T_MOD at *
    omega
  have hmin : min m._effectInterval
      ((effect.maximumEffectTime % SIZE_T_MOD + SIZE_T_MOD
        - GetTimeUsedByCurrentEffect now m) % SIZE_T_MOD) = m._effectInterval := by
    rw [hused]
    unfold SIZE_T_MOD at *
    omega
  have hg : GetInterval now m = some m._effectInterval := by
    unfold GetInterval
    simp only [hI, ↓reduceIte, hcur, Option.map_some', hmin]
  have hcheck : CheckEffectTimerExpired fuel now m = some m := by
    unfold CheckEffectTimerExpired
    have hnot : ¬ GetTimeUsedByCurrentEffect now m ≥ m._effectInterval := by
      rw [hused]; omega
    simp only [hI, ↓reduceIte, hg, hnot]
  have hrem : GetTimeRemainingForCurrentEffect now m =
      some (m._effectInterval - (now - m._effectStartTime)) := by
    unfold GetTimeRemainingForCurrentEffect
    have hnot : ¬ now - m._effectStartTime > m._effectInterval := by omega
    simp only [hg, Option.map_some', hused, hnot, ↓reduceIte]
  have hdraw : m.GetCurrentEffect.isNone = false := by rw [hcur]; rfl
  have h2 : ¬ m.EffectCount < 2 := by omega
  unfold Update
  simp only [hl, ↓reduceIte, hcheck, hdraw, Bool.and_false, Bool.false_eq_true, h2, hI, hrem,
    hused]
  rw [toInt32_of_lt _ (by omega), toInt32_of_lt _ (by omega)]
  split_ifs <;> rfl

/-- C31 as amended: for every non-zero rotation interval `I` and every current
effect whose `MaximumEffectTime()` `M` is at most `I`, while the elapsed time
`e` is at most `M`, `CheckEffectTimerExpired` compares `e` with `M - e`: it
changes nothing while `2 * e < M` and does what `NextEffect` does at the first
tick where `2 * e >= M`.  A capped effect runs for half of `M`. -/
theorem CheckEffectTimerExpired_capped (fuel now : Nat) (m : EffectManager)
    (effect : LEDStripEffect) (hI : m._effectInterval ≠ 0)
    (hcur : m.GetCurrentEffect = some effect)
    (hMI : effect.maximumEffectTime ≤ m._effectInterval)
    (hI32 : m._effectInterval < SIZE_T_MOD)
    (hnow : now < SIZE_T_MOD) (hstart : m._effectStartTime ≤ now)
    (he : now - m._effectStartTime ≤ effect.maximumEffectTime) :
    CheckEffectTimerExpired fuel now m =
      if effect.maximumEffectTime ≤ 2 * (now - m._effectStartTime) then NextEffect fuel now m
      else some m := by
  have hused : GetTimeUsedByCurrentEffect now m = now - m._effectStartTime := by
    unfold GetTimeUsedByCurrentEffect SIZE_T_MOD at *
    omega
  have hmin : min m._effectInterval
      ((effect.maximumEffectTime % SIZE_T_MOD + SIZE_T_MOD
        - GetTimeUsedByCurrentEffect now m) % SIZE_T_MOD) =
      effect.maximumEffectTime - (now - m._effectStartTime) := by
    rw [hused]
    unfold SIZE_T_MOD at *
    omega
  have hg : GetInterval now m =
      some (effect.maximumEffectTime - (now - m._effectStartTime)) := by
    unfold GetInterval
    simp only [hI, ↓reduceIte, hcur, Option.map_some', hmin]
  unfold CheckEffectTimerExpired
  simp only [hI, ↓reduceIte, hg, hused]
  by_cases h2 : effect.maximumEffectTime ≤ 2 * (now - m._effectStartTime)
  · have h3 : now - m._effectStartTime ≥
        effect.maximumEffectTime - (now - m._effectStartTime) := by omega
    simp only [h2, h3, ↓reduceIte]
  · have h3 : ¬ now - m._effectStartTime ≥
        effect.maximumEffectTime - (now - m._effectStartTime) := by omega
    simp only [h2, h3, ↓reduceIte]

/-- Witness for C31 as amended: rotation interval 30000 ms, current effect with
`MaximumEffectTime()` 1000 ms started at clock value 0, at clock value 500. -/
theorem CheckEffectTimerExpired_capped_witness :
    cappedManager._effectInterval ≠ 0 ∧
    cappedManager.GetCurrentEffect =
      some { effectNumber := 0, maximumEffectTime := 1000, initOk := true } ∧
    (1000 : Nat) ≤ cappedManager._effectInterval ∧
    500 - cappedManager._effectStartTime ≤ 1000 ∧
    CheckEffectTimerExpired 3 500 cappedManager =
      (if (1000 : Nat) ≤ 2 * (500 - cappedManager._effectStartTime) then
        NextEffect 3 500 cappedManager
      else some cappedManager) :=
  ⟨by decide, by decide, by decide, by decide,
    CheckEffectTimerExpired_capped 3 500 cappedManager
      { effectNumber := 0, maximumEffectTime := 1000, initOk := true }
      (by decide) (by decide) (by decide) (by decide) (by decide) (by decide) (by decide)⟩

/-- C31, the claim at a concrete input: rotation interval 30000 ms, current
effect 0 with `MaximumEffectTime()` 1000 ms, started at clock value 0.  At
clock value 500 the elapsed time 500 is below the cap, and
`CheckEffectTimerExpired` rotates all the same, from index 0 to index 1: it
compares the elapsed time with `min(I, M - elapsed) = 500`.  One millisecond
earlier it changes nothing. -/
theorem effect_cap_rotates_at_half_of_maximum_time :
    cappedManager._effectInterval = 30000 ∧
    cappedManager.GetCurrentEffect.map (fun e => e.maximumEffectTime) = some 1000 ∧
    cappedManager.GetCurrentEffectIndex = 0 ∧
    GetTimeUsedByCurrentEffect 500 cappedManager = 500 ∧
    GetInterval 500 cappedManager = some 500 ∧
    (CheckEffectTimerExpired 3 500 cappedManager).map GetCurrentEffectIndex = some 1 ∧
    CheckEffectTimerExpired 3 499 cappedManager = some cappedManager := by
  decide

/-- C34, the code at a failing input: three effects, all enabled.  From index
2, `NextEffect` goes to 0 and `PreviousEffect` then goes to 1, not back to 2;
from index 0, `PreviousEffect` goes to 1 and `NextEffect` then goes to 2, not
back to 0. -/
theorem PreviousEffect_does_not_undo_NextEffect :
    (∀ j, j < 3 → allEnabledManager.IsEffectEnabled j = true) ∧
    allEnabledManager.EffectCount = 3 ∧
    allEnabledManager.GetCurrentEffectIndex = 2 ∧
    (NextEffect 1 5 allEnabledManager).map GetCurrentEffectIndex = some 0 ∧
    ((NextEffect 1 5 allEnabledManager).bind (PreviousEffect sampleEffectConfig 1 6)).map
      GetCurrentEffectIndex = some 1 ∧
    (PreviousEffect sampleEffectConfig 1 5 { allEnabledManager with _iCurrentEffect := 0 }).map
      GetCurrentEffectIndex = some 1 ∧
    ((PreviousEffect sampleEffectConfig 1 5 { allEnabledManager with _iCurrentEffect := 0 }).bind
      (NextEffect 1 6)).map GetCurrentEffectIndex = some 2 := by
  decide

/-- C35, the code at a failing input: the manager holding one enabled effect
is serialized, every effect serializing with success, and the document is
loaded into a blank manager, every effect object deserializing with success.
The document holds the flag `true`, and the loaded manager has one effect
whose flag is false: the flag read from the document is passed to
`EnableEffect` as the index, here 1, which is out of range.  With three
enabled effects the loaded flags are false, true, false. -/
theorem enabled_flags_do_not_round_trip :
    singleEffectManager.EffectCount = 1 ∧
    singleEffectManager.IsEffectEnabled 0 = true ∧
    (SerializeToJSON (fun e => (true, e)) singleEffectManager).1 = true ∧
    (SerializeToJSON (fun e => (true, e)) singleEffectManager).2.eef = some [true] ∧
    (DeserializeFromJSON sampleEffectConfig 7 (fun e => some e)
      (SerializeToJSON (fun e => (true, e)) singleEffectManager).2 blankManager).1 = true ∧
    (DeserializeFromJSON sampleEffectConfig 7 (fun e => some e)
      (SerializeToJSON (fun e => (true, e)) singleEffectManager).2 blankManager).2.EffectCount
      = 1 ∧
    (DeserializeFromJSON sampleEffectConfig 7 (fun e => some e)
      (SerializeToJSON (fun e => (true, e)) singleEffectManager).2
      blankManager).2.IsEffectEnabled 0 = false ∧
    (∀ i, i < 3 → allEnabledManager.IsEffectEnabled i = true) ∧
    (List.range 3).map (fun i =>
      (DeserializeFromJSON sampleEffectConfig 7 (fun e => some e)
        (SerializeToJSON (fun e => (true, e)) allEnabledManager).2
        blankManager).2.IsEffectEnabled i) = [false, true, false] := by
  decide

/-- C32, the claim at a concrete input: three effects, all enabled, index 2,
interval 30000 ms, effect started at clock value 0.  `SetGlobalColor` installs
the override at clock value 0; one `Update` at clock value 30000 finds the
timer expired and runs `NextEffect`; after `ClearRemoteColor` the index is 0,
not 2. -/
theorem override_tick_moves_index :
    (SetGlobalColor sampleEffectConfig 0 CRGB.White allEnabledManager)._ptrRemoteEffect.isSome
      = true ∧
    allEnabledManager.GetCurrentEffectIndex = 2 ∧
    allEnabledManager._effectInterval = 30000 ∧
    (renderTicks sampleEffectConfig (fun _ => 0) 10 3 [RenderTick.update 30000]
      (SetGlobalColor sampleEffectConfig 0 CRGB.White allEnabledManager, 255)).map
      (fun s => ((ClearRemoteColor s.1).GetCurrentEffectIndex, s.1._ptrRemoteEffect.isSome))
      = some (0, true) := by
  decide

/-- A tick that finds the elapsed time below the effective interval changes
no member of the manager. -/
theorem renderTick_timer_running (cfg : EffectConfig) (fade : Int → Nat)
    (ledCount fuel : Nat) (t : RenderTick) (m : EffectManager) (f iv : Nat)
    (hI : m._effectInterval ≠ 0)
    (hg : GetInterval t.now m = some iv)
    (hlt : GetTimeUsedByCurrentEffect t.now m < iv) :
    ∃ f2, renderTick cfg fade ledCount fuel t (m, f) = some (m, f2) := by
  have hnot : ¬ GetTimeUsedByCurrentEffect t.now m ≥ iv := by omega
  have hcheck : CheckEffectTimerExpired fuel t.now m = some m := by
    unfold CheckEffectTimerExpired
    simp only [hI, ↓reduceIte, hg, hnot]
  have hcur : m.GetCurrentEffect.isNone = false := by
    unfold GetInterval at hg
    simp only [hI, ↓reduceIte] at hg
    cases hc : m.GetCurrentEffect with
    | none => rw [hc] at hg; simp at hg
    | some e => rfl
  cases t with
  | check now =>
    refine ⟨f, ?_⟩
    simp only [RenderTick.now] at hcheck
    simp only [renderTick, hcheck, Option.map_some']
  | update now =>
    simp only [RenderTick.now] at hcheck hg
    simp only [renderTick]
    unfold Update
    by_cases hl : ledCount = 0
    · exact ⟨f, by simp only [hl, ↓reduceIte]⟩
    · simp only [hl, ↓reduceIte, hcheck, hcur, Bool.and_false, Bool.false_eq_true, hI]
      by_cases h2 : m.EffectCount < 2
      · exact ⟨255, by simp only [h2, ↓reduceIte]⟩
      · simp only [h2, ↓reduceIte]
        unfold GetTimeRemainingForCurrentEffect
        simp only [hg, Option.map_some']
        split_ifs <;> exact ⟨_, rfl⟩

/-- A sequence of ticks that all find the elapsed time below the effective
interval changes no member of the manager. -/
theorem renderTicks_timer_running (cfg : EffectConfig) (fade : Int → Nat)
    (ledCount fuel : Nat) (m : EffectManager) (hI : m._effectInterval ≠ 0) :
    ∀ (ticks : List RenderTick) (f : Nat),
      (∀ t ∈ ticks, ∃ iv, GetInterval t.now m = some iv ∧
        GetTimeUsedByCurrentEffect t.now m < iv) →
      ∃ f2, renderTicks cfg fade ledCount fuel ticks (m, f) = some (m, f2) := by
  intro ticks
  induction ticks with
  | nil => intro f _; exact ⟨f, rfl⟩
  | cons t ts ih =>
    intro f h
    obtain ⟨iv, hg, hlt⟩ := h t (List.mem_cons_self t ts)
    obtain ⟨f1, h1⟩ := renderTick_timer_running cfg fade ledCount fuel t m f iv hI hg hlt
    obtain ⟨f2, h2⟩ := ih f1 (fun t2 ht2 => h t2 (List.mem_cons_of_mem t ht2))
    refine ⟨f2, ?_⟩
    simp only [renderTicks, h1, h2]

/-- C32 as amended: between a `SetGlobalColor` that leaves an override
installed and the following `ClearRemoteColor`, with a non-zero rotation
interval, a sequence of `Update` / `CheckEffectTimerExpired` calls each of
which finds the elapsed time below the effective interval returns with the
manager unchanged, the override still installed, and the current effect index
after the clear is the index before the override was installed. -/
theorem override_keeps_index_while_timer_runs (cfg : EffectConfig) (fade : Int → Nat)
    (ledCount fuel now0 : Nat) (color : CRGB) (m : EffectManager) (ticks : List RenderTick)
    (g_Fader : Nat)
    (hinst : (SetGlobalColor cfg now0 color m)._ptrRemoteEffect.isSome = true)
    (hI : m._effectInterval ≠ 0)
    (hticks : ∀ t ∈ ticks, ∃ iv,
      GetInterval t.now (SetGlobalColor cfg now0 color m) = some iv ∧
      GetTimeUsedByCurrentEffect t.now (SetGlobalColor cfg now0 color m) < iv) :
    ∃ f2 r, renderTicks cfg fade ledCount fuel ticks (SetGlobalColor cfg now0 color m, g_Fader)
        = some (r, f2) ∧
      r = SetGlobalColor cfg now0 color m ∧
      r._ptrRemoteEffect.isSome = true ∧
      (ClearRemoteColor r).GetCurrentEffectIndex = m.GetCurrentEffectIndex := by
  have hI2 : (SetGlobalColor cfg now0 color m)._effectInterval ≠ 0 := by
    have : (SetGlobalColor cfg now0 color m)._effectInterval = m._effectInterval := by
      unfold SetGlobalColor
      simp only
      split_ifs <;> rfl
    rw [this]
    exact hI
  obtain ⟨f2, h2⟩ := renderTicks_timer_running cfg fade ledCount fuel
    (SetGlobalColor cfg now0 color m) hI2 ticks g_Fader hticks
  refine ⟨f2, _, h2, rfl, hinst, ?_⟩
  have := (SetGlobalColor_frame cfg now0 color m).2.2.2
  unfold ClearRemoteColor GetCurrentEffectIndex
  exact this

/-- Witness for C32 as amended: the override installed at clock value 0 on the
three-effect manager, then three ticks within the 30 seconds of the interval. -/
theorem override_keeps_index_while_timer_runs_witness :
    (SetGlobalColor sampleEffectConfig 0 CRGB.White allEnabledManager)._ptrRemoteEffect.isSome
      = true ∧
    allEnabledManager._effectInterval ≠ 0 ∧
    ∃ f2 r, renderTicks sampleEffectConfig (fun _ => 0) 10 3
        [RenderTick.update 100, RenderTick.check 15000, RenderTick.update 29999]
        (SetGlobalColor sampleEffectConfig 0 CRGB.White allEnabledManager, 255) = some (r, f2) ∧
      r = SetGlobalColor sampleEffectConfig 0 CRGB.White allEnabledManager ∧
      r._ptrRemoteEffect.isSome = true ∧
      (ClearRemoteColor r).GetCurrentEffectIndex = allEnabledManager.GetCurrentEffectIndex :=
  ⟨by decide, by decide,
    override_keeps_index_while_timer_runs sampleEffectConfig (fun _ => 0) 10 3 0 CRGB.White
      allEnabledManager [RenderTick.update 100, RenderTick.check 15000, RenderTick.update 29999]
      255 (by decide) (by decide) (by
        intro t ht
        simp only [List.mem_cons, List.mem_singleton, List.not_mem_nil, or_false] at ht
        rcases ht with h | h | h
        · subst h; exact ⟨30000, by decide, by decide⟩
        · subst h; exact ⟨30000, by decide, by decide⟩
        · subst h; exact ⟨30000, by decide, by decide⟩)⟩

/-- When the loop of `NextEffect` ends, the index is below `EffectCount()`. -/
theorem nextEffectLoop_index_valid (now : Nat) :
    ∀ (fuel : Nat) (m r : EffectManager) (k : Nat), nextEffectLoop now fuel m = some (r, k) →
      r._iCurrentEffect < r.EffectCount := by
  intro fuel
  induction fuel with
  | zero => intro m r k h; simp [nextEffectLoop] at h
  | succ f ih =>
    intro m r k h
    rw [nextEffectLoop] at h
    have h0 : m.EffectCount ≠ 0 := by
      intro h0
      simp only [h0, ↓reduceIte] at h
      exact absurd h (by simp)
    simp only [h0, ↓reduceIte] at h
    by_cases hs : skipCondition (nextEffectBody now m) = true
    · simp only [hs, ↓reduceIte] at h
      cases hrec : nextEffectLoop now f (nextEffectBody now m) with
      | none => rw [hrec] at h; simp at h
      | some p =>
        rw [hrec] at h
        simp only [Option.map_some', Option.some.injEq, Prod.mk.injEq] at h
        rw [← h.1]
        exact ih (nextEffectBody now m) p.1 p.2 hrec
    · simp only [hs, Bool.false_eq_true, ↓reduceIte, Option.some.injEq, Prod.mk.injEq] at h
      rw [← h.1]
      obtain ⟨_, _, f3, _⟩ := nextEffectBody_frame now m
      rw [f3]
      show ((m._iCurrentEffect + 1) % SIZE_T_MOD) % m.EffectCount < m.EffectCount
      exact Nat.mod_lt _ (by omega)

/-- `StartEffect()` at the end of `NextEffect` reads `_vEffects[_iCurrentEffect]`
inside the vector, in every build and with or without an override. -/
theorem NextEffect_StartEffect_reads_inside (cfg : EffectConfig) (now fuel : Nat)
    (m r : EffectManager) (k : Nat) (h : nextEffectLoop now fuel m = some (r, k)) :
    StartEffectFaults cfg r = false := by
  have hi := nextEffectLoop_index_valid now fuel m r k h
  unfold StartEffectFaults
  rw [GetCurrentEffect_isSome r hi, Bool.and_false]

/-- `StartEffect()` at the end of `SetCurrentEffectIndex` reads
`_vEffects[_iCurrentEffect]` inside the vector: the index has been checked. -/
theorem SetCurrentEffectIndex_StartEffect_reads_inside (cfg : EffectConfig) (now i : Nat)
    (m : EffectManager) (hi : i < m._vEffects.length) :
    StartEffectFaults cfg { m with _iCurrentEffect := i, _effectStartTime := now } = false := by
  unfold StartEffectFaults
  rw [GetCurrentEffect_isSome _ hi, Bool.and_false]

/-- `StartEffect()` inside `SetGlobalColor`, which is called in a strip build
with the override just installed, does not read `_vEffects`. -/
theorem SetGlobalColor_StartEffect_reads_nothing (cfg : EffectConfig) (m : EffectManager)
    (effect : LEDStripEffect) (hstrip : cfg.USE_MATRIX = false) :
    StartEffectFaults cfg { m with _ptrRemoteEffect := some effect } = false := by
  unfold StartEffectFaults
  simp only [hstrip, Option.isNone_some, Bool.or_self, Bool.false_and]

end EffectManager

/-! ## Lemmas about the drawing surface -/

namespace GFXBase

/-- Quotient and remainder by the line length are unique. -/
theorem line_offset_unique (h a b r s : Nat) (hr : r < h) (hs : s < h)
    (heq : a * h + r = b * h + s) : a = b ∧ r = s := by
  rcases Nat.lt_trichotomy a b with hab | hab | hab
  · have h1 := Nat.mul_le_mul_right h (Nat.succ_le_of_lt hab)
    rw [Nat.succ_mul] at h1
    omega
  · subst hab
    omega
  · have h1 := Nat.mul_le_mul_right h (Nat.succ_le_of_lt hab)
    rw [Nat.succ_mul] at h1
    omega

/-- The start of line `x` and the line after it lie inside the index range. -/
theorem line_in_range (g : GFXBase) (x : Nat) (hx : x < g._width) :
    x * g._height + g._height ≤ g._width * g._height := by
  have h1 := Nat.mul_le_mul_right g._height (Nat.succ_le_of_lt hx)
  rw [Nat.succ_mul] at h1
  exact h1

/-- Inside the grid no conversion of `xy` loses anything: the index is the
start of line `x` plus the offset `y`, counted from the far end on odd
lines. -/
theorem xy_eq (g : GFXBase) (x y : Nat) (hh : g._height ≤ 256)
    (hwh : g._width * g._height ≤ 65536) (hx : x < g._width) (hy : y < g._height) :
    g.xy x y = x * g._height + (if x % 2 = 1 then g._height - 1 - y else y) := by
  have h1 := line_in_range g x hx
  have hw : g._width ≤ g._width * g._height := Nat.le_mul_of_pos_right _ (by omega)
  have hx16 : x % 65536 = x := Nat.mod_eq_of_lt (by omega)
  have hy16 : y % 65536 = y := Nat.mod_eq_of_lt (by omega)
  unfold xy SIZE_T_MOD
  simp only [hx16, hy16]
  by_cases hodd : x % 2 = 1
  · simp only [hodd, ↓reduceIte]
    omega
  · simp only [hodd, ↓reduceIte]
    omega

/-- The offset inside a line is below the line length. -/
theorem offset_lt (g : GFXBase) (x y : Nat) (hy : y < g._height) :
    (if x % 2 = 1 then g._height - 1 - y else y) < g._height := by
  split_ifs <;> omega

/-- Inside the grid `xy` stays inside the index range. -/
theorem xy_lt (g : GFXBase) (x y : Nat) (hh : g._height ≤ 256)
    (hwh : g._width * g._height ≤ 65536) (hx : x < g._width) (hy : y < g._height) :
    g.xy x y < g._width * g._height := by
  rw [xy_eq g x y hh hwh hx hy]
  have h1 := line_in_range g x hx
  have h2 := offset_lt g x y hy
  omega

/-- Inside the grid two cells with the same index are the same cell. -/
theorem xy_inj (g : GFXBase) (x y x2 y2 : Nat) (hh : g._height ≤ 256)
    (hwh : g._width * g._height ≤ 65536) (hx : x < g._width) (hy : y < g._height)
    (hx2 : x2 < g._width) (hy2 : y2 < g._height) (heq : g.xy x y = g.xy x2 y2) :
    x = x2 ∧ y = y2 := by
  rw [xy_eq g x y hh hwh hx hy, xy_eq g x2 y2 hh hwh hx2 hy2] at heq
  obtain ⟨hxx, hrr⟩ := line_offset_unique g._height x x2 _ _ (offset_lt g x y hy)
    (offset_lt g x2 y2 hy2) heq
  subst hxx
  refine ⟨rfl, ?_⟩
  split_ifs at hrr <;> omega

/-- Every index of the range is the index of a cell of the grid. -/
theorem xy_surj (g : GFXBase) (k : Nat) (hh : g._height ≤ 256)
    (hwh : g._width * g._height ≤ 65536) (hk : k < g._width * g._height) :
    ∃ x y, x < g._width ∧ y < g._height ∧ g.xy x y = k := by
  have hpos : 0 < g._height := by
    rcases Nat.eq_zero_or_pos g._height with h0 | h0
    · rw [h0] at hk; simp at hk
    · exact h0
  have hx : k / g._height < g._width := by
    rw [Nat.div_lt_iff_lt_mul hpos]
    exact hk
  have hr : k % g._height < g._height := Nat.mod_lt _ hpos
  have hdm : k / g._height * g._height + k % g._height = k := Nat.div_add_mod' k g._height
  by_cases hodd : (k / g._height) % 2 = 1
  · refine ⟨k / g._height, g._height - 1 - k % g._height, hx, by omega, ?_⟩
    rw [xy_eq g _ _ hh hwh hx (by omega)]
    simp only [hodd, ↓reduceIte]
    omega
  · refine ⟨k / g._height, k % g._height, hx, hr, ?_⟩
    rw [xy_eq g _ _ hh hwh hx hr]
    simp only [hodd, ↓reduceIte]
    omega

/-- Inside the grid, the cell whose index follows that of `(x, y)` is the next
cell of line `x`, upwards on an even line and downwards on an odd line, or, at
the end of line `x`, the cell of line `x + 1` at the same `y`. -/
theorem xy_succ (g : GFXBase) (x y x2 y2 : Nat) (hh : g._height ≤ 256)
    (hwh : g._width * g._height ≤ 65536) (hx : x < g._width) (hy : y < g._height)
    (hx2 : x2 < g._width) (hy2 : y2 < g._height) (heq : g.xy x2 y2 = g.xy x y + 1) :
    (x2 = x ∧ ((x % 2 = 0 ∧ y2 = y + 1) ∨ (x % 2 = 1 ∧ y = y2 + 1))) ∨
    (x2 = x + 1 ∧ y2 = y) := by
  rw [xy_eq g x y hh hwh hx hy, xy_eq g x2 y2 hh hwh hx2 hy2] at heq
  have hr := offset_lt g x y hy
  have hr2 := offset_lt g x2 y2 hy2
  by_cases hend : (if x % 2 = 1 then g._height - 1 - y else y) + 1 < g._height
  · obtain ⟨hxx, hrr⟩ := line_offset_unique g._height x2 x _ _ hr2 hend (by omega)
    subst hxx
    left
    refine ⟨rfl, ?_⟩
    split_ifs at hrr <;> omega
  · have hnext : x2 * g._height + (if x2 % 2 = 1 then g._height - 1 - y2 else y2)
        = (x + 1) * g._height + 0 := by
      rw [Nat.succ_mul]
      omega
    obtain ⟨hxx, hrr⟩ := line_offset_unique g._height x2 (x + 1) _ 0 hr2 (by omega) hnext
    subst hxx
    right
    refine ⟨rfl, ?_⟩
    split_ifs at hrr hend <;> omega

/-- Conversion of a coordinate in the range of `int16_t` that is not negative. -/
theorem toUInt16_of_nonneg (x : Int) (h0 : 0 ≤ x) (h1 : x < 32768) : toUInt16 x = x.toNat := by
  unfold toUInt16
  rw [Int.emod_eq_of_lt h0 (by omega)]

/-- C33: on a surface of width `w` and height `h` with `h <= 256` and
`w * h <= 65536`, every linear index `k` with `k + 1 < w * h` is the index of
a cell of the grid and so is `k + 1`, and whenever `xy` maps a cell to `k` and
a cell to `k + 1` the two cells are neighbours: the second is the next cell of
the same line `x`, one step up in `y` on an even line and one step down on an
odd line (odd lines run backwards), or it is the cell at the same `y` on the
next line. -/
theorem xy_is_boustrophedon (g : GFXBase) (hh : g._height ≤ 256)
    (hwh : g._width * g._height ≤ 65536) (k : Nat) (hk : k + 1 < g._width * g._height) :
    (∃ x y x2 y2, x < g._width ∧ y < g._height ∧ x2 < g._width ∧ y2 < g._height ∧
      g.xy x y = k ∧ g.xy x2 y2 = k + 1) ∧
    (∀ x y x2 y2, x < g._width → y < g._height → x2 < g._width → y2 < g._height →
      g.xy x y = k → g.xy x2 y2 = k + 1 →
      (x2 = x ∧ ((x % 2 = 0 ∧ y2 = y + 1) ∨ (x % 2 = 1 ∧ y = y2 + 1))) ∨
      (x2 = x + 1 ∧ y2 = y)) := by
  constructor
  · obtain ⟨x, y, hx, hy, h1⟩ := xy_surj g k hh hwh (by omega)
    obtain ⟨x2, y2, hx2, hy2, h2⟩ := xy_surj g (k + 1) hh hwh hk
    exact ⟨x, y, x2, y2, hx, hy, hx2, hy2, h1, h2⟩
  · intro x y x2 y2 hx hy hx2 hy2 h1 h2
    exact xy_succ g x y x2 y2 hh hwh hx hy hx2 hy2 (by rw [h1, h2])

/-- Witness for C33: the surface of 4 lines of 3 pixels at index 2, the end of
line 0. -/
theorem xy_is_boustrophedon_witness :
    sampleGFX._height ≤ 256 ∧ sampleGFX._width * sampleGFX._height ≤ 65536 ∧
    2 + 1 < sampleGFX._width * sampleGFX._height ∧
    sampleGFX.xy 0 2 = 2 ∧ sampleGFX.xy 1 2 = 3 ∧
    ((∃ x y x2 y2, x < sampleGFX._width ∧ y < sampleGFX._height ∧ x2 < sampleGFX._width ∧
        y2 < sampleGFX._height ∧ sampleGFX.xy x y = 2 ∧ sampleGFX.xy x2 y2 = 2 + 1) ∧
      (∀ x y x2 y2, x < sampleGFX._width → y < sampleGFX._height → x2 < sampleGFX._width →
        y2 < sampleGFX._height → sampleGFX.xy x y = 2 → sampleGFX.xy x2 y2 = 2 + 1 →
        (x2 = x ∧ ((x % 2 = 0 ∧ y2 = y + 1) ∨ (x % 2 = 1 ∧ y = y2 + 1))) ∨
        (x2 = x + 1 ∧ y2 = y))) :=
  ⟨by decide, by decide, by decide, by decide, by decide,
    xy_is_boustrophedon sampleGFX (by decide) (by decide) 2 (by decide)⟩

/-- C36: on a surface of width `w` and height `h` with `h <= 256` and
`w * h <= 65536`, `xy` maps the cells of the grid into the index range below
`w * h`, maps distinct cells to distinct indices and reaches every index of
the range.  With an LED array of `w * h` entries, `setPixel` on a cell of the
grid writes the entry `xy(x, y)` and no other, and `getPixel` on a cell of the
grid returns the entry `xy(x, y)`, or throws when that index is 32768 or more
(it is passed on as an `int16_t`): neither addresses an element outside the
array. -/
theorem xy_is_bijection_onto_leds (g : GFXBase) (hh : g._height ≤ 256)
    (hwh : g._width * g._height ≤ 65536) :
    (∀ x y, x < g._width → y < g._height → g.xy x y < g._width * g._height) ∧
    (∀ x y x2 y2, x < g._width → y < g._height → x2 < g._width → y2 < g._height →
      g.xy x y = g.xy x2 y2 → x = x2 ∧ y = y2) ∧
    (∀ k, k < g._width * g._height → ∃ x y, x < g._width ∧ y < g._height ∧ g.xy x y = k) ∧
    (g.leds.length = g._width * g._height →
      ∀ (x y : Int) (c : CRGB), 0 ≤ x → x < g._width → x < 32768 → 0 ≤ y → y < g._height →
        g.setPixel x y c =
          Access.value { g with leds := g.leds.set (g.xy x.toNat y.toNat) c } ∧
        g.xy x.toNat y.toNat < g.leds.length ∧
        g.getPixel x y =
          (if g.xy x.toNat y.toNat < 32768 then
            Access.value (g.leds.getD (g.xy x.toNat y.toNat) CRGB.Black)
          else Access.thrown "Pixel out of range in getPixel(x)")) := by
  refine ⟨fun x y hx hy => xy_lt g x y hh hwh hx hy,
    fun x y x2 y2 hx hy hx2 hy2 heq => xy_inj g x y x2 y2 hh hwh hx hy hx2 hy2 heq,
    fun k hk => xy_surj g k hh hwh hk, ?_⟩
  intro hlen x y c hx0 hxw hx16 hy0 hyh
  have hxn : x.toNat < g._width := by omega
  have hyn : y.toNat < g._height := by omega
  have hlt := xy_lt g x.toNat y.toNat hh hwh hxn hyn
  have hux : toUInt16 x = x.toNat := toUInt16_of_nonneg x hx0 hx16
  have huy : toUInt16 y = y.toNat := toUInt16_of_nonneg y hy0 (by omega)
  have hcond : 0 ≤ x ∧ x.toNat < g._width ∧ 0 ≤ y ∧ y.toNat < g._height :=
    ⟨hx0, hxn, hy0, hyn⟩
  have hidx : g.xy x.toNat y.toNat < g.leds.length := by rw [hlen]; exact hlt
  refine ⟨?_, hidx, ?_⟩
  · unfold setPixel
    simp only [hcond, and_self, ↓reduceIte, hux, huy, hidx]
  · unfold getPixel
    simp only [hcond, and_self, ↓reduceIte, hux, huy]
    have hcount : g.GetLEDCount = g._width * g._height := by
      unfold GetLEDCount SIZE_T_MOD
      exact Nat.mod_eq_of_lt (by omega)
    have h16 : g.xy x.toNat y.toNat % 65536 = g.xy x.toNat y.toNat :=
      Nat.mod_eq_of_lt (by omega)
    unfold getPixelIndex toInt16
    rw [hcount, h16]
    by_cases hsmall : g.xy x.toNat y.toNat < 32768
    · have hc2 : (0 : Int) ≤ ((g.xy x.toNat y.toNat : Nat) : Int) ∧
          ((g.xy x.toNat y.toNat : Nat) : Int).toNat < g._width * g._height :=
        ⟨by omega, by rw [Int.toNat_ofNat]; exact hlt⟩
      simp only [hsmall, ↓reduceIte, hc2, and_self, Int.toNat_ofNat]
      rw [List.getElem?_eq_getElem hidx, List.getD_eq_getElem _ _ hidx]
      simp only [hlt, and_self, ↓reduceIte]
    · have hc2 : ¬ ((0 : Int) ≤ ((g.xy x.toNat y.toNat : Nat) : Int) - 65536 ∧
          (((g.xy x.toNat y.toNat : Nat) : Int) - 65536).toNat < g._width * g._height) := by
        omega
      simp only [hsmall, ↓reduceIte, hc2]

/-- Witness for C36: the surface of 4 lines of 3 pixels. -/
theorem xy_is_bijection_onto_leds_witness :
    sampleGFX._height ≤ 256 ∧ sampleGFX._width * sampleGFX._height ≤ 65536 ∧
    sampleGFX.leds.length = sampleGFX._width * sampleGFX._height ∧
    sampleGFX.xy 3 0 = 11 ∧
    sampleGFX.setPixel 3 0 CRGB.Red =
      Access.value { sampleGFX with leds := sampleGFX.leds.set 11 CRGB.Red } ∧
    (∀ x y, x < sampleGFX._width → y < sampleGFX._height →
      sampleGFX.xy x y < sampleGFX._width * sampleGFX._height) :=
  ⟨by decide, by decide, by decide, by decide, by decide,
    (xy_is_bijection_onto_leds sampleGFX (by decide) (by decide)).1⟩

end GFXBase

/-! ## Lemmas about BresenhamLine -/

/-- Conversion to `int` keeps a value of the range of `int`. -/
theorem wrapInt32_of_range (v : Int) (h1 : -2 ^ 31 ≤ v) (h2 : v < 2 ^ 31) : wrapInt32 v = v := by
  unfold wrapInt32
  omega

/-- The loop step on a state whose values are far from the ends of the range
of `int`: no operation wraps around. -/
theorem bresenhamStep_of_range (dx dy sx sy : Int) (s : BresenhamState)
    (hdx0 : 0 ≤ dx) (hdx : dx ≤ 2 ^ 29) (hdy0 : dy ≤ 0) (hdy : -2 ^ 29 ≤ dy)
    (hsx : sx = 1 ∨ sx = -1) (hsy : sy = 1 ∨ sy = -1)
    (he1 : -2 ^ 30 ≤ s.err) (he2 : s.err < 2 ^ 30)
    (hx1 : -2 ^ 30 ≤ s.x0) (hx2 : s.x0 ≤ 2 ^ 30)
    (hy1 : -2 ^ 30 ≤ s.y0) (hy2 : s.y0 ≤ 2 ^ 30) :
    bresenhamStep dx dy sx sy s =
      { x0 := if 2 * s.err > dy then s.x0 + sx else s.x0
        y0 := if 2 * s.err < dx then s.y0 + sy else s.y0
        err := (if 2 * s.err > dy then s.err + dy else s.err)
          + (if 2 * s.err < dx then dx else 0) } := by
  cases s with
  | mk x y e =>
    simp only at he1 he2 hx1 hx2 hy1 hy2
    have hw0 : wrapInt32 (2 * e) = 2 * e := wrapInt32_of_range _ (by omega) (by omega)
    have hw1 : wrapInt32 (e + dy) = e + dy := wrapInt32_of_range _ (by omega) (by omega)
    have hw2 : wrapInt32 (e + dx) = e + dx := wrapInt32_of_range _ (by omega) (by omega)
    have hw3 : wrapInt32 (e + dy + dx) = e + dy + dx :=
      wrapInt32_of_range _ (by omega) (by omega)
    have hw4 : wrapInt32 (x + sx) = x + sx := wrapInt32_of_range _ (by omega) (by omega)
    have hw5 : wrapInt32 (y + sy) = y + sy := wrapInt32_of_range _ (by omega) (by omega)
    unfold bresenhamStep
    simp only [hw0]
    by_cases hxm : 2 * e > dy <;> by_cases hym : 2 * e < dx
    · simp only [hxm, hym, ↓reduceIte, hw1, hw3, hw4, hw5]
    · simp only [hxm, hym, ↓reduceIte, hw1, hw4, add_zero]
    · simp only [hxm, hym, ↓reduceIte, hw2, hw5]
    · simp only [hxm, hym, ↓reduceIte, add_zero]

/-- The arithmetic of one pass of the loop, with `e` the error term, `n + 1`
steps left on the longer side and the deviation `t` in its band: the longer
side moves, a side that moves has a step left, and the deviation is in its
band again after the moves. -/
theorem bresenham_pass_arith (a b p q t e : Int) (n : Nat)
    (hp0 : 0 ≤ p) (hpa : p ≤ a) (hq0 : 0 ≤ q) (hqb : q ≤ b)
    (ht : t = b * p - a * q) (he : e = a - b + t) (hband : BresenhamBand a b t)
    (hn1 : b ≤ a → (n : Int) + 1 = p) (hn2 : a < b → (n : Int) + 1 = q) :
    (2 * e > -b ∨ 2 * e < a) ∧
    (b ≤ a → 2 * e > -b) ∧ (a < b → 2 * e < a) ∧
    (2 * e > -b → 1 ≤ p) ∧ (2 * e < a → 1 ≤ q) ∧
    (2 * e > -b → 2 * e < a → BresenhamBand a b (t - b + a)) ∧
    (2 * e > -b → ¬ 2 * e < a → BresenhamBand a b (t - b)) ∧
    (¬ 2 * e > -b → 2 * e < a → BresenhamBand a b (t + a)) := by
  obtain ⟨hl, hu, hls, hus⟩ := hband
  have hB1 : q = 0 → 1 ≤ p → b ≤ t := by
    intro h1 h2
    rw [ht, h1]
    nlinarith
  have hB2 : p = 0 → 1 ≤ q → t ≤ -a := by
    intro h1 h2
    rw [ht, h1]
    nlinarith
  clear ht
  subst he
  have hmx : b ≤ a → 2 * (a - b + t) > -b := by omega
  have hmy : a < b → 2 * (a - b + t) < a := by omega
  have hxp : 2 * (a - b + t) > -b → 1 ≤ p := by omega
  have hyq : 2 * (a - b + t) < a → 1 ≤ q := by omega
  clear hB1 hB2 hn1 hn2
  refine ⟨by omega, hmx, hmy, hxp, hyq, ?_, ?_, ?_⟩
  · intro h1 h2
    exact ⟨by omega, by omega, by omega, by omega⟩
  · intro h1 h2
    exact ⟨by omega, by omega, by omega, by omega⟩
  · intro h1 h2
    exact ⟨by omega, by omega, by omega, by omega⟩

/-- A move of one coordinate by its step `sx` with `p` steps left: one step
less is left, and the coordinate has moved by 1 toward the end point. -/
theorem bresenham_coord_move (x1 sx p : Int) (hs : sx = 1 ∨ sx = -1) (hp : 1 ≤ p) :
    x1 - sx * p + sx = x1 - sx * (p - 1) ∧
    |x1 - sx * p + sx - (x1 - sx * p)| ≤ 1 ∧
    ((x1 - sx * p ≤ x1 - sx * p + sx ∧ x1 - sx * p + sx ≤ x1) ∨
      (x1 ≤ x1 - sx * p + sx ∧ x1 - sx * p + sx ≤ x1 - sx * p)) := by
  rcases hs with rfl | rfl
  · simp only [Int.abs_eq_natAbs]
    omega
  · simp only [Int.abs_eq_natAbs]
    omega

/-- A coordinate that stays has not moved. -/
theorem bresenham_coord_stay (x1 x : Int) :
    |x - x| ≤ 1 ∧ ((x ≤ x ∧ x ≤ x1) ∨ (x1 ≤ x ∧ x ≤ x)) := by
  simp only [Int.abs_eq_natAbs]
  omega

/-- With steps left on the longer side the end point is not reached. -/
theorem bresenham_not_at_end (x1 y1 a b sx sy p q x y : Int) (n : Nat)
    (hsx : sx = 1 ∨ sx = -1) (hsy : sy = 1 ∨ sy = -1)
    (hx : x = x1 - sx * p) (hy : y = y1 - sy * q)
    (hn1 : b ≤ a → (n : Int) + 1 = p) (hn2 : a < b → (n : Int) + 1 = q) :
    ¬ (x = x1 ∧ y = y1) := by
  rcases hsx with rfl | rfl <;> rcases hsy with rfl | rfl <;> omega

/-- The coordinates of a state that satisfies the invariant are far from the
ends of the range of `int`. -/
theorem bresenham_coord_range (x1 sx p a x : Int) (hs : sx = 1 ∨ sx = -1)
    (hx : x = x1 - sx * p) (hp0 : 0 ≤ p) (hpa : p ≤ a) (ha : a ≤ 2 ^ 29)
    (h1 : -2 ^ 28 ≤ x1) (h2 : x1 ≤ 2 ^ 28) : -2 ^ 30 ≤ x ∧ x ≤ 2 ^ 30 := by
  rcases hs with rfl | rfl <;> omega

/-- One pass of the loop from a state that satisfies the invariant and has `n +
1` steps left on the longer side: the end point is not reached yet, the pass
moves toward it, and the invariant holds again with `n` steps left. -/
theorem bresenhamStep_inv (x1 y1 a b sx sy : Int) (s : BresenhamState) (p q t : Int) (n : Nat)
    (ha : a ≤ 2 ^ 29) (hb : b ≤ 2 ^ 29)
    (hsx : sx = 1 ∨ sx = -1) (hsy : sy = 1 ∨ sy = -1)
    (hx1a : -2 ^ 28 ≤ x1) (hx1b : x1 ≤ 2 ^ 28) (hy1a : -2 ^ 28 ≤ y1) (hy1b : y1 ≤ 2 ^ 28)
    (hinv : BresenhamInv x1 y1 a b sx sy s p q t)
    (hn1 : b ≤ a → (n : Int) + 1 = p) (hn2 : a < b → (n : Int) + 1 = q) :
    ¬ (s.x0 = x1 ∧ s.y0 = y1) ∧
    ∃ s2 p2 q2 t2, bresenhamStep a (-b) sx sy s = s2 ∧
      BresenhamInv x1 y1 a b sx sy s2 p2 q2 t2 ∧
      (b ≤ a → (n : Int) = p2) ∧ (a < b → (n : Int) = q2) ∧
      StepToward x1 y1 (s.x0, s.y0) (s2.x0, s2.y0) := by
  obtain ⟨hp0, hpa, hq0, hqb, hx, hy, ht, herr, hband⟩ := hinv
  obtain ⟨_, hmx, hmy, hxp, hyq, hb1, hb2, hb3⟩ :=
    bresenham_pass_arith a b p q t s.err n hp0 hpa hq0 hqb ht herr hband hn1 hn2
  have hxb := bresenham_coord_range x1 sx p a s.x0 hsx hx hp0 hpa ha hx1a hx1b
  have hyb := bresenham_coord_range y1 sy q b s.y0 hsy hy hq0 hqb hb hy1a hy1b
  have herange : -2 ^ 30 ≤ s.err ∧ s.err < 2 ^ 30 := by
    obtain ⟨hl, hu, _, _⟩ := hband
    omega
  have hstep := bresenhamStep_of_range a (-b) sx sy s (by omega) ha (by omega) (by omega)
    hsx hsy herange.1 herange.2 hxb.1 hxb.2 hyb.1 hyb.2
  refine ⟨bresenham_not_at_end x1 y1 a b sx sy p q s.x0 s.y0 n hsx hsy hx hy hn1 hn2, ?_⟩
  have htx : t - b = b * (p - 1) - a * q := by rw [ht]; ring
  have hty : t + a = b * p - a * (q - 1) := by rw [ht]; ring
  have htxy : t - b + a = b * (p - 1) - a * (q - 1) := by rw [ht]; ring
  by_cases hxm : 2 * s.err > -b <;> by_cases hym : 2 * s.err < a
  · simp only [hxm, hym, ↓reduceIte] at hstep
    obtain ⟨hx2, hxs1, hxs2⟩ := bresenham_coord_move x1 sx p hsx (hxp hxm)
    obtain ⟨hy2, hys1, hys2⟩ := bresenham_coord_move y1 sy q hsy (hyq hym)
    have h1 : (0 : Int) ≤ p - 1 := by have := hxp hxm; omega
    have h2 : p - 1 ≤ a := by omega
    have h3 : (0 : Int) ≤ q - 1 := by have := hyq hym; omega
    have h4 : q - 1 ≤ b := by omega
    have h5 : s.x0 + sx = x1 - sx * (p - 1) := by rw [hx]; exact hx2
    have h6 : s.y0 + sy = y1 - sy * (q - 1) := by rw [hy]; exact hy2
    have h7 : s.err + -b + a = a - b + (t - b + a) := by omega
    have h8 : b ≤ a → (n : Int) = p - 1 := fun h => by have := hn1 h; omega
    have h9 : a < b → (n : Int) = q - 1 := fun h => by have := hn2 h; omega
    have h10 : StepToward x1 y1 (s.x0, s.y0) (s.x0 + sx, s.y0 + sy) := by
      unfold StepToward
      simp only
      rw [hx, hy]
      exact ⟨hxs1, hys1, hxs2, hys2⟩
    exact ⟨_, p - 1, q - 1, t - b + a, hstep,
      ⟨h1, h2, h3, h4, h5, h6, htxy, h7, hb1 hxm hym⟩, h8, h9, h10⟩
  · simp only [hxm, hym, ↓reduceIte] at hstep
    obtain ⟨hx2, hxs1, hxs2⟩ := bresenham_coord_move x1 sx p hsx (hxp hxm)
    obtain ⟨hys1, hys2⟩ := bresenham_coord_stay y1 s.y0
    have h1 : (0 : Int) ≤ p - 1 := by have := hxp hxm; omega
    have h2 : p - 1 ≤ a := by omega
    have h5 : s.x0 + sx = x1 - sx * (p - 1) := by rw [hx]; exact hx2
    have h7 : s.err + -b + 0 = a - b + (t - b) := by omega
    have h8 : b ≤ a → (n : Int) = p - 1 := fun h => by have := hn1 h; omega
    have h9 : a < b → (n : Int) = q := fun h => by have := hmy h; omega
    have h10 : StepToward x1 y1 (s.x0, s.y0) (s.x0 + sx, s.y0) := by
      unfold StepToward
      simp only
      refine ⟨?_, hys1, ?_, hys2⟩
      · rw [hx]; exact hxs1
      · rw [hx]; exact hxs2
    exact ⟨_, p - 1, q, t - b, hstep,
      ⟨h1, h2, hq0, hqb, h5, hy, htx, h7, hb2 hxm hym⟩, h8, h9, h10⟩
  · simp only [hxm, hym, ↓reduceIte] at hstep
    obtain ⟨hy2, hys1, hys2⟩ := bresenham_coord_move y1 sy q hsy (hyq hym)
    obtain ⟨hxs1, hxs2⟩ := bresenham_coord_stay x1 s.x0
    have h3 : (0 : Int) ≤ q - 1 := by have := hyq hym; omega
    have h4 : q - 1 ≤ b := by omega
    have h6 : s.y0 + sy = y1 - sy * (q - 1) := by rw [hy]; exact hy2
    have h7 : s.err + a = a - b + (t + a) := by omega
    have h8 : b ≤ a → (n : Int) = p := fun h => by have := hmx h; omega
    have h9 : a < b → (n : Int) = q - 1 := fun h => by have := hn2 h; omega
    have h10 : StepToward x1 y1 (s.x0, s.y0) (s.x0, s.y0 + sy) := by
      unfold StepToward
      simp only
      refine ⟨hxs1, ?_, hxs2, ?_⟩
      · rw [hy]; exact hys1
      · rw [hy]; exact hys2
    exact ⟨_, p, q - 1, t + a, hstep,
      ⟨hp0, hpa, h3, h4, hx, h6, hty, h7, hb3 hxm hym⟩, h8, h9, h10⟩
  · exfalso
    omega

/-- From a state that satisfies the invariant with `n` steps left on the
longer side, the loop returns for every amount of fuel above `n`, after
writing `n + 1` cells: the current one first and the end point last, each
step moving toward the end point. -/
theorem bresenhamCells_reaches_end (x1 y1 a b sx sy : Int)
    (ha : a ≤ 2 ^ 29) (hb : b ≤ 2 ^ 29)
    (hsx : sx = 1 ∨ sx = -1) (hsy : sy = 1 ∨ sy = -1)
    (hx1a : -2 ^ 28 ≤ x1) (hx1b : x1 ≤ 2 ^ 28) (hy1a : -2 ^ 28 ≤ y1) (hy1b : y1 ≤ 2 ^ 28) :
    ∀ (n : Nat) (s : BresenhamState) (p q t : Int),
      BresenhamInv x1 y1 a b sx sy s p q t →
      (b ≤ a → (n : Int) = p) → (a < b → (n : Int) = q) →
      ∃ cells,
        (∀ fuel, n + 1 ≤ fuel →
          bresenhamCells x1 y1 a (-b) sx sy fuel s = some ((s.x0, s.y0) :: cells)) ∧
        cells.length = n ∧
        ((s.x0, s.y0) :: cells).getLast? = some (x1, y1) ∧
        List.Chain (StepToward x1 y1) (s.x0, s.y0) cells := by
  intro n
  induction n with
  | zero =>
    intro s p q t hinv h1 h2
    obtain ⟨hp0, hpa, hq0, hqb, hx, hy, ht, herr, hl, hu, hls, hus⟩ := hinv
    have hB1 : q = 0 → 1 ≤ p → b ≤ t := by
      intro h1 h2
      rw [ht, h1]
      nlinarith
    have hB2 : p = 0 → 1 ≤ q → t ≤ -a := by
      intro h1 h2
      rw [ht, h1]
      nlinarith
    have hp : p = 0 := by omega
    have hq : q = 0 := by omega
    have hxe : s.x0 = x1 := by rw [hx, hp]; ring
    have hye : s.y0 = y1 := by rw [hy, hq]; ring
    refine ⟨[], ?_, rfl, ?_, List.Chain.nil⟩
    · intro fuel hf
      obtain ⟨f, rfl⟩ : ∃ f, fuel = f + 1 := ⟨fuel - 1, by omega⟩
      rw [bresenhamCells]
      simp only [hxe, hye, and_self, ↓reduceIte]
    · simp only [List.getLast?_singleton, hxe, hye]
  | succ n ih =>
    intro s p q t hinv h1 h2
    obtain ⟨hnt, s2, p2, q2, t2, hs2, hinv2, h12, h22, hstep⟩ :=
      bresenhamStep_inv x1 y1 a b sx sy s p q t n ha hb hsx hsy hx1a hx1b hy1a hy1b hinv
        (fun h => by have := h1 h; push_cast at this; exact this)
        (fun h => by have := h2 h; push_cast at this; exact this)
    obtain ⟨cells, hrun, hlen, hlast, hchain⟩ := ih s2 p2 q2 t2 hinv2 h12 h22
    refine ⟨(s2.x0, s2.y0) :: cells, ?_, by simp only [List.length_cons, hlen], ?_,
      List.Chain.cons hstep hchain⟩
    · intro fuel hf
      obtain ⟨f, rfl⟩ : ∃ f, fuel = f + 1 := ⟨fuel - 1, by omega⟩
      rw [bresenhamCells]
      simp only [hnt, ↓reduceIte, hs2]
      rw [hrun f (by omega)]
      rfl
    · rw [List.getLast?_cons_cons]
      exact hlast

/-- The set-up of `BresenhamLine` for end points whose coordinates are at most
2^28 in absolute value: no conversion wraps around, `dx` and `-dy` are the
two sides and the start state satisfies the invariant with all steps left. -/
theorem BresenhamLineCells_setup (x0 y0 x1 y1 : Int)
    (hx0 : |x0| ≤ 2 ^ 28) (hy0 : |y0| ≤ 2 ^ 28) (hx1 : |x1| ≤ 2 ^ 28) (hy1 : |y1| ≤ 2 ^ 28) :
    wrapInt32 |wrapInt32 (x1 - x0)| = |x1 - x0| ∧
    wrapInt32 (-(wrapInt32 |wrapInt32 (y1 - y0)|)) = -|y1 - y0| ∧
    wrapInt32 (|x1 - x0| + -|y1 - y0|) = |x1 - x0| - |y1 - y0| ∧
    |x1 - x0| ≤ 2 ^ 29 ∧ |y1 - y0| ≤ 2 ^ 29 ∧
    BresenhamInv x1 y1 |x1 - x0| |y1 - y0| (if x0 < x1 then 1 else -1)
      (if y0 < y1 then 1 else -1) { x0 := x0, y0 := y0, err := |x1 - x0| - |y1 - y0| }
      |x1 - x0| |y1 - y0| 0 := by
  rw [abs_le] at hx0 hy0 hx1 hy1
  have hwx : wrapInt32 (x1 - x0) = x1 - x0 := wrapInt32_of_range _ (by omega) (by omega)
  have hwy : wrapInt32 (y1 - y0) = y1 - y0 := wrapInt32_of_range _ (by omega) (by omega)
  rw [hwx, hwy]
  have hA := Int.abs_eq_natAbs (x1 - x0)
  have hB := Int.abs_eq_natAbs (y1 - y0)
  generalize |x1 - x0| = a at *
  generalize |y1 - y0| = b at *
  have hwa : wrapInt32 a = a := wrapInt32_of_range _ (by omega) (by omega)
  have hwb : wrapInt32 b = b := wrapInt32_of_range _ (by omega) (by omega)
  have hwnb : wrapInt32 (-b) = -b := wrapInt32_of_range _ (by omega) (by omega)
  have hwe : wrapInt32 (a + -b) = a - b := by
    rw [wrapInt32_of_range _ (by omega) (by omega)]
    omega
  rw [hwb]
  refine ⟨hwa, hwnb, hwe, by omega, by omega, ?_⟩
  refine ⟨by omega, le_refl _, by omega, le_refl _, ?_, ?_, by ring, by simp only; omega,
    ⟨by omega, by omega, by omega, by omega⟩⟩
  · simp only
    split_ifs <;> omega
  · simp only
    split_ifs <;> omega

/-- The path of the line between end points whose coordinates are at most 2^28
in absolute value: the loop ends, for every amount of fuel above `max(|x1 -
x0|, |y1 - y0|)`, after exactly `max(|x1 - x0|, |y1 - y0|) + 1` passes; the
first cell of the path is `(x0, y0)`, the last is `(x1, y1)`, and each step
moves toward the end point by at most 1 in each coordinate. -/
theorem BresenhamLineCells_reaches_end_point (x0 y0 x1 y1 : Int)
    (hx0 : |x0| ≤ 2 ^ 28) (hy0 : |y0| ≤ 2 ^ 28) (hx1 : |x1| ≤ 2 ^ 28) (hy1 : |y1| ≤ 2 ^ 28) :
    ∃ cells,
      (∀ fuel, (max |x1 - x0| |y1 - y0|).toNat + 1 ≤ fuel →
        BresenhamLineCells fuel x0 y0 x1 y1 = some cells) ∧
      (cells.length : Int) = max |x1 - x0| |y1 - y0| + 1 ∧
      cells.head? = some (x0, y0) ∧
      cells.getLast? = some (x1, y1) ∧
      cells.Chain' (StepToward x1 y1) := by
  obtain ⟨hdx, hdy, herr, ha, hb, hinv⟩ := BresenhamLineCells_setup x0 y0 x1 y1 hx0 hy0 hx1 hy1
  have ha0 : (0 : Int) ≤ |x1 - x0| := abs_nonneg _
  have hb0 : (0 : Int) ≤ |y1 - y0| := abs_nonneg _
  rw [abs_le] at hx1 hy1
  have hsx : (if x0 < x1 then (1 : Int) else -1) = 1 ∨ (if x0 < x1 then (1 : Int) else -1) = -1 := by
    split_ifs
    · exact Or.inl rfl
    · exact Or.inr rfl
  have hsy : (if y0 < y1 then (1 : Int) else -1) = 1 ∨ (if y0 < y1 then (1 : Int) else -1) = -1 := by
    split_ifs
    · exact Or.inl rfl
    · exact Or.inr rfl
  obtain ⟨cells, hrun, hlen, hlast, hchain⟩ :=
    bresenhamCells_reaches_end x1 y1 |x1 - x0| |y1 - y0| _ _ ha hb hsx hsy
      hx1.1 hx1.2 hy1.1 hy1.2 (max |x1 - x0| |y1 - y0|).toNat _ _ _ _ hinv
      (fun h => by rw [max_eq_left h, Int.toNat_of_nonneg ha0])
      (fun h => by rw [max_eq_right (le_of_lt h), Int.toNat_of_nonneg hb0])
  refine ⟨(x0, y0) :: cells, ?_, ?_, rfl, hlast, hchain⟩
  · intro fuel hf
    unfold BresenhamLineCells
    simp only [hdx, hdy, herr]
    exact hrun fuel hf
  · simp only [List.length_cons, hlen]
    push_cast
    rw [Int.toNat_of_nonneg (le_max_of_le_left ha0)]

/-- An instance of the path: the line from (0, 0) to (5, 2). -/
theorem BresenhamLineCells_reaches_end_point_instance :
    BresenhamLineCells 6 0 0 5 2 = some [(0, 0), (1, 0), (2, 1), (3, 1), (4, 2), (5, 2)] ∧
    ∃ cells,
      (∀ fuel, (max |(5 : Int) - 0| |(2 : Int) - 0|).toNat + 1 ≤ fuel →
        BresenhamLineCells fuel 0 0 5 2 = some cells) ∧
      (cells.length : Int) = max |(5 : Int) - 0| |(2 : Int) - 0| + 1 ∧
      cells.head? = some (0, 0) ∧
      cells.getLast? = some (5, 2) ∧
      cells.Chain' (StepToward 5 2) :=
  ⟨by decide, BresenhamLineCells_reaches_end_point 0 0 5 2 (by norm_num) (by norm_num) (by norm_num)
    (by norm_num)⟩

/-- From the start state of the line from (0, 0) to (2^30, 0), where `2 * err`
does not fit an `int`, `x0` never moves: the error term cycles through four
values and the loop is still running after any number of passes. -/
theorem bresenhamCells_overflow_runs_on :
    ∀ (fuel : Nat) (s : BresenhamState), s.x0 = 0 →
      (s.err = 2 ^ 30 ∨ s.err = -2 ^ 31 ∨ s.err = -2 ^ 30 ∨ s.err = 0) →
      bresenhamCells (2 ^ 30) 0 (2 ^ 30) 0 1 (-1) fuel s = none := by
  intro fuel
  induction fuel with
  | zero => intro s _ _; rfl
  | succ f ih =>
    intro s hx he
    cases s with
    | mk x y e =>
      simp only at hx he
      subst hx
      rw [bresenhamCells]
      have hne : ¬ ((0 : Int) = 2 ^ 30 ∧ y = 0) := by omega
      simp only [hne, ↓reduceIte]
      have hnext : (bresenhamStep (2 ^ 30) 0 1 (-1) { x0 := 0, y0 := y, err := e }).x0 = 0 ∧
          ((bresenhamStep (2 ^ 30) 0 1 (-1) { x0 := 0, y0 := y, err := e }).err = 2 ^ 30 ∨
           (bresenhamStep (2 ^ 30) 0 1 (-1) { x0 := 0, y0 := y, err := e }).err = -2 ^ 31 ∨
           (bresenhamStep (2 ^ 30) 0 1 (-1) { x0 := 0, y0 := y, err := e }).err = -2 ^ 30 ∨
           (bresenhamStep (2 ^ 30) 0 1 (-1) { x0 := 0, y0 := y, err := e }).err = 0) := by
        rcases he with rfl | rfl | rfl | rfl <;> norm_num [bresenhamStep, wrapInt32]
      rw [ih _ hnext.1 hnext.2]
      rfl

/-- The path of the line from (0, 0) to (2^30, 0).  The first pass computes
`e2 = 2 * err` with `err = 2^30`, which does not fit an `int`; with the wrapped
value the pass leaves `x0` where it is and moves `y0` away from the end point,
and the loop is still running after any number of passes. -/
theorem BresenhamLineCells_overflow_never_ends :
    bresenhamStep (2 ^ 30) 0 1 (-1) { x0 := 0, y0 := 0, err := 2 ^ 30 } =
      { x0 := 0, y0 := -1, err := -2 ^ 31 } ∧
    ¬ StepToward (2 ^ 30) 0 (0, 0) (0, -1) ∧
    ∀ fuel, BresenhamLineCells fuel 0 0 (2 ^ 30) 0 = none := by
  refine ⟨by decide, ?_, ?_⟩
  · unfold StepToward
    norm_num
  · intro fuel
    have hdx : wrapInt32 |wrapInt32 ((2 : Int) ^ 30 - 0)| = 2 ^ 30 := by decide
    have hdy : wrapInt32 (-(wrapInt32 |wrapInt32 ((0 : Int) - 0)|)) = 0 := by decide
    have herr : wrapInt32 ((2 : Int) ^ 30 + 0) = 2 ^ 30 := by decide
    unfold BresenhamLineCells
    simp only [hdx, hdy, herr]
    exact bresenhamCells_overflow_runs_on fuel _ rfl (Or.inl rfl)

/-- Along a chain of steps toward `(x1, y1)` every cell stays between the cell
the chain starts from and the end point, in each coordinate. -/
theorem chain_StepToward_between (x1 y1 : Int) :
    ∀ (cells : List (Int × Int)) (c0 : Int × Int), List.Chain (StepToward x1 y1) c0 cells →
      ∀ c ∈ cells,
        ((c0.1 ≤ c.1 ∧ c.1 ≤ x1) ∨ (x1 ≤ c.1 ∧ c.1 ≤ c0.1)) ∧
        ((c0.2 ≤ c.2 ∧ c.2 ≤ y1) ∨ (y1 ≤ c.2 ∧ c.2 ≤ c0.2)) := by
  intro cells
  induction cells with
  | nil => intro c0 _ c hc; simp at hc
  | cons d rest ih =>
    intro c0 hchain c hc
    rw [List.chain_cons] at hchain
    obtain ⟨hstep, hrest⟩ := hchain
    obtain ⟨_, _, hbx, hby⟩ := hstep
    rcases List.mem_cons.mp hc with rfl | hmem
    · exact ⟨hbx, hby⟩
    · obtain ⟨h1, h2⟩ := ih d hrest c hmem
      constructor <;> omega

/-- Conversion of a value of the range of `uint16_t`. -/
theorem toUInt16_of_lt (x : Int) (h0 : 0 ≤ x) (h1 : x < 65536) : toUInt16 x = x.toNat := by
  unfold toUInt16
  rw [Int.emod_eq_of_lt h0 h1]

namespace GFXBase

/-- A write inside the array returns, with the dimensions and the length of
the array as they were. -/
theorem writeLed_inside (plus : CRGB → CRGB → CRGB) (g : GFXBase) (i : Nat) (color : CRGB)
    (bMerge : Bool) (hi : i < g.leds.length) :
    ∃ g1, g.writeLed plus i color bMerge = Access.value g1 ∧ g1._width = g._width ∧
      g1._height = g._height ∧ g1.leds.length = g.leds.length := by
  unfold writeLed
  rw [List.getElem?_eq_getElem hi]
  exact ⟨_, rfl, rfl, rfl, List.length_set _ _ _⟩

/-- The index of a cell depends on the height of the surface only. -/
theorem ledOf_congr (g g1 : GFXBase) (h : g1._height = g._height) (c : Int × Int) :
    g1.ledOf c = g.ledOf c := by
  unfold ledOf xy
  rw [h]

/-- Being on the surface depends on its dimensions only. -/
theorem OnSurface_congr (g g1 : GFXBase) (hw : g1._width = g._width)
    (hh : g1._height = g._height) (c : Int × Int) (hc : g.OnSurface c) : g1.OnSurface c := by
  unfold OnSurface at *
  rw [hw, hh]
  exact hc

/-- The index of a cell on the surface is that of `xy` at its coordinates and
lies inside the index range. -/
theorem ledOf_lt (g : GFXBase) (c : Int × Int) (hh : g._height ≤ 256)
    (hwh : g._width * g._height ≤ 65536) (hc : g.OnSurface c) :
    g.ledOf c = g.xy c.1.toNat c.2.toNat ∧ g.ledOf c < g._width * g._height := by
  obtain ⟨hx0, hxw, hy0, hyh⟩ := hc
  have hxn : c.1.toNat < g._width := by omega
  have hyn : c.2.toNat < g._height := by omega
  have hw : g._width ≤ g._width * g._height := Nat.le_mul_of_pos_right _ (by omega)
  have hux : toUInt16 c.1 = c.1.toNat := toUInt16_of_lt c.1 hx0 (by omega)
  have huy : toUInt16 c.2 = c.2.toNat := toUInt16_of_lt c.2 hy0 (by omega)
  unfold ledOf
  rw [hux, huy]
  exact ⟨rfl, xy_lt g _ _ hh hwh hxn hyn⟩

end GFXBase

/-- When the path of the line stays on a surface whose array has one entry per
cell, the loop of `BresenhamLine` returns, having written the cells of the
path in order, one per pass. -/
theorem bresenhamLoop_writes_cells (plus : CRGB → CRGB → CRGB) (x1 y1 dx dy sx sy : Int)
    (color : CRGB) (bMerge : Bool) :
    ∀ (fuel : Nat) (s : BresenhamState) (cells : List (Int × Int)) (g : GFXBase),
      bresenhamCells x1 y1 dx dy sx sy fuel s = some cells →
      g._height ≤ 256 → g._width * g._height ≤ 65536 →
      g.leds.length = g._width * g._height →
      (∀ c ∈ cells, g.OnSurface c) →
      bresenhamLoop plus x1 y1 dx dy sx sy color bMerge fuel g s =
        some (Access.value (cells.foldl (GFXBase.writeCell plus color bMerge) g,
          cells.map g.ledOf)) := by
  intro fuel
  induction fuel with
  | zero => intro s cells g h; simp [bresenhamCells] at h
  | succ f ih =>
    intro s cells g hcells hh hwh hlen hon
    rw [bresenhamCells] at hcells
    have hhead : g.OnSurface (s.x0, s.y0) := by
      by_cases hend : s.x0 = x1 ∧ s.y0 = y1
      · simp only [hend, and_self, ↓reduceIte, Option.some.injEq] at hcells
        apply hon
        rw [← hcells, hend.1, hend.2]
        exact List.mem_singleton.mpr rfl
      · simp only [hend, ↓reduceIte] at hcells
        cases hrec : bresenhamCells x1 y1 dx dy sx sy f (bresenhamStep dx dy sx sy s) with
        | none => rw [hrec] at hcells; simp at hcells
        | some rest =>
          rw [hrec] at hcells
          simp only [Option.map_some', Option.some.injEq] at hcells
          apply hon
          rw [← hcells]
          exact List.mem_cons_self _ _
    obtain ⟨g1, hw, hw1, hw2, hw3⟩ := GFXBase.writeLed_inside plus g (g.ledOf (s.x0, s.y0))
      color bMerge (by rw [hlen]; exact (GFXBase.ledOf_lt g _ hh hwh hhead).2)
    have hwc : GFXBase.writeCell plus color bMerge g (s.x0, s.y0) = g1 := by
      unfold GFXBase.writeCell
      rw [hw]
    rw [bresenhamLoop]
    simp only [hw]
    by_cases hend : s.x0 = x1 ∧ s.y0 = y1
    · have hc2 : cells = [(s.x0, s.y0)] := by
        simp only [hend, and_self, ↓reduceIte, Option.some.injEq] at hcells
        rw [← hcells, hend.1, hend.2]
      simp only [hend, and_self, ↓reduceIte]
      rw [hc2, List.foldl_cons, List.foldl_nil, hwc, List.map_cons, List.map_nil,
        hend.1, hend.2]
    · simp only [hend, ↓reduceIte] at hcells ⊢
      cases hrec : bresenhamCells x1 y1 dx dy sx sy f (bresenhamStep dx dy sx sy s) with
      | none => rw [hrec] at hcells; simp at hcells
      | some rest =>
        rw [hrec] at hcells
        simp only [Option.map_some', Option.some.injEq] at hcells
        have hrest := ih (bresenhamStep dx dy sx sy s) rest g1 hrec (by rw [hw2]; exact hh)
          (by rw [hw1, hw2]; exact hwh) (by rw [hw3, hlen, hw1, hw2])
          (fun c hc => GFXBase.OnSurface_congr g g1 hw1 hw2 c
            (hon c (by rw [← hcells]; exact List.mem_cons_of_mem _ hc)))
        rw [hrest, ← hcells, List.foldl_cons, hwc, List.map_cons]
        have hmap : rest.map g1.ledOf = rest.map g.ledOf :=
          List.map_congr_left (fun c _ => GFXBase.ledOf_congr g g1 hw2 c)
        rw [hmap]
        rfl

/-- C37 as amended: on a surface of width `w` and height `h` with `h <= 256`,
`w * h <= 65536` and an LED array of `w * h` entries, for end points `(x0,
y0)` and `(x1, y1)` on the surface, `BresenhamLine` returns, for every amount
of fuel above `max(|x1 - x0|, |y1 - y0|)`.  It has written the LEDs of exactly
`max(|x1 - x0|, |y1 - y0|) + 1` cells of the surface, one per pass of the
loop and in this order: the first is `(x0, y0)`, the last is `(x1, y1)`, and
each step moves toward the end point by at most 1 in each coordinate. -/
theorem BresenhamLine_on_surface (plus : CRGB → CRGB → CRGB) (g : GFXBase)
    (x0 y0 x1 y1 : Int) (color : CRGB) (bMerge : Bool)
    (hh : g._height ≤ 256) (hwh : g._width * g._height ≤ 65536)
    (hlen : g.leds.length = g._width * g._height)
    (h0 : g.OnSurface (x0, y0)) (h1 : g.OnSurface (x1, y1)) :
    ∃ cells : List (Int × Int),
      (∀ fuel, (max |x1 - x0| |y1 - y0|).toNat + 1 ≤ fuel →
        BresenhamLine plus g fuel x0 y0 x1 y1 color bMerge =
          some (Access.value (cells.foldl (GFXBase.writeCell plus color bMerge) g,
            cells.map g.ledOf))) ∧
      (cells.length : Int) = max |x1 - x0| |y1 - y0| + 1 ∧
      cells.head? = some (x0, y0) ∧
      cells.getLast? = some (x1, y1) ∧
      cells.Chain' (StepToward x1 y1) ∧
      (∀ c ∈ cells, g.OnSurface c ∧ g.ledOf c = g.xy c.1.toNat c.2.toNat ∧
        g.ledOf c < g.leds.length) := by
  obtain ⟨a0, a1, a2, a3⟩ := h0
  obtain ⟨b0, b1, b2, b3⟩ := h1
  simp only at a0 a1 a2 a3 b0 b1 b2 b3
  have hw : g._width ≤ g._width * g._height := Nat.le_mul_of_pos_right _ (by omega)
  have hhw : g._height ≤ 65536 := by omega
  obtain ⟨cells, hrun, hlen2, hhead, hlast, hchain⟩ :=
    BresenhamLineCells_reaches_end_point x0 y0 x1 y1
      (abs_le.mpr ⟨by omega, by omega⟩) (abs_le.mpr ⟨by omega, by omega⟩)
      (abs_le.mpr ⟨by omega, by omega⟩) (abs_le.mpr ⟨by omega, by omega⟩)
  have hon : ∀ c ∈ cells, g.OnSurface c := by
    cases cells with
    | nil => simp at hhead
    | cons c0 rest =>
      simp only [List.head?_cons, Option.some.injEq] at hhead
      subst hhead
      intro c hc
      rcases List.mem_cons.mp hc with rfl | hmem
      · exact ⟨a0, a1, a2, a3⟩
      · obtain ⟨hbx, hby⟩ := chain_StepToward_between x1 y1 rest (x0, y0) hchain c hmem
        simp only at hbx hby
        unfold GFXBase.OnSurface
        refine ⟨by omega, by omega, by omega, by omega⟩
  refine ⟨cells, ?_, hlen2, hhead, hlast, hchain, ?_⟩
  · intro fuel hf
    have hcells := hrun fuel hf
    unfold BresenhamLineCells at hcells
    unfold BresenhamLine
    exact bresenhamLoop_writes_cells plus x1 y1 _ _ _ _ color bMerge fuel _ cells g hcells
      hh hwh hlen hon
  · intro c hc
    obtain ⟨e1, e2⟩ := GFXBase.ledOf_lt g c hh hwh (hon c hc)
    exact ⟨hon c hc, e1, by rw [hlen]; exact e2⟩

/-- Witness for C37 as amended: the line from (0, 0) to (3, 2) on the surface
of 4 lines of 3 pixels. -/
theorem BresenhamLine_on_surface_witness :
    sampleGFX._height ≤ 256 ∧ sampleGFX._width * sampleGFX._height ≤ 65536 ∧
    sampleGFX.leds.length = sampleGFX._width * sampleGFX._height ∧
    (BresenhamLine (fun a _ => a) sampleGFX 4 0 0 3 2 CRGB.Red false).map
      (Access.map Prod.snd) = some (Access.value [0, 4, 7, 9]) ∧
    ∃ cells : List (Int × Int),
      (∀ fuel, (max |(3 : Int) - 0| |(2 : Int) - 0|).toNat + 1 ≤ fuel →
        BresenhamLine (fun a _ => a) sampleGFX fuel 0 0 3 2 CRGB.Red false =
          some (Access.value (cells.foldl (GFXBase.writeCell (fun a _ => a) CRGB.Red false)
            sampleGFX, cells.map sampleGFX.ledOf))) ∧
      (cells.length : Int) = max |(3 : Int) - 0| |(2 : Int) - 0| + 1 ∧
      cells.head? = some (0, 0) ∧
      cells.getLast? = some (3, 2) ∧
      cells.Chain' (StepToward 3 2) ∧
      (∀ c ∈ cells, sampleGFX.OnSurface c ∧
        sampleGFX.ledOf c = sampleGFX.xy c.1.toNat c.2.toNat ∧
        sampleGFX.ledOf c < sampleGFX.leds.length) :=
  ⟨by decide, by decide, by decide, by decide,
    BresenhamLine_on_surface (fun a _ => a) sampleGFX 0 0 3 2 CRGB.Red false (by decide)
      (by decide) (by decide) (by unfold GFXBase.OnSurface; decide)
      (by unfold GFXBase.OnSurface; decide)⟩

/-- C37, the claim at a concrete input: the line from (0, 0) to (5, 2) on the
surface of 4 lines of 3 pixels, whose array has 12 entries.  The end point is
not on the surface.  The first four passes write the LEDs 0, 5, 7 and 10; the
fifth pass has reached the cell (4, 2), computes `xy(4, 2) = 14` and writes
`leds[14]`, outside the array: the call does not end with `(5, 2)` as the
last cell written. -/
theorem BresenhamLine_leaves_the_array :
    sampleGFX._width = 4 ∧ sampleGFX._height = 3 ∧ sampleGFX.leds.length = 12 ∧
    BresenhamLineCells 6 0 0 5 2 = some [(0, 0), (1, 0), (2, 1), (3, 1), (4, 2), (5, 2)] ∧
    [(0, 0), (1, 0), (2, 1), (3, 1), (4, 2)].map sampleGFX.ledOf = [0, 5, 7, 10, 14] ∧
    BresenhamLine (fun a _ => a) sampleGFX 6 0 0 5 2 CRGB.Red false =
      some (Access.outside 14) := by
  decide

end NightDriver
